import Mathlib

/-!
# RetroTetris: the game simulation core of `backup1.c`

A shallow embedding of the board, the pieces, collision testing, merging,
line clearing, drop resolution, rotation with wall kicks and the three lock
paths, followed by theorems about them.

Conventions of the embedding:
* C `int` values are mathematical integers (`Int`); signed overflow is
  undefined behaviour in C and lies outside the model.
* A cell of `grid` or of a piece mask is *occupied* when it is non-zero,
  exactly as the C tests `if (t.shape[i][j])` and `!game.grid[i][j]` read it.
* Rendering, sound, particles, animations and floating texts are left out:
  they never feed back into the fields modelled here.
-/

namespace RetroTetris

/-! ## Constants and data model -/

/-- The constant `#define ROWS 20`. -/
abbrev ROWS : Nat := 20

/-- The constant `#define COLS 10`. -/
abbrev COLS : Nat := 10

/-- The enum `TetrominoType`, by its integer values. -/
abbrev I_PIECE : Int := 0
abbrev O_PIECE : Int := 1
abbrev T_PIECE : Int := 2
abbrev S_PIECE : Int := 3
abbrev Z_PIECE : Int := 4
abbrev J_PIECE : Int := 5
abbrev L_PIECE : Int := 6

/-- The gameplay fields of `struct Tetromino`: `int shape[4][4]`, `int x, y`
and the type tag.  (`color`, `breathFactor`, `breathSpeed`, `lockTimer` are
presentation only.) -/
structure Tetromino where
  shape : Fin 4 → Fin 4 → Int
  x : Int
  y : Int
  type : Int

/-- The two parallel arrays `game.grid[ROWS][COLS]` and
`game.colorGrid[ROWS][COLS]`. -/
structure Board where
  grid : Fin ROWS → Fin COLS → Int
  colorGrid : Fin ROWS → Fin COLS → Int

/-- The board after `memset(game.grid, 0, ..)` and
`memset(game.colorGrid, 0, ..)` in `InitGame`. -/
def Board.empty : Board := ⟨fun _ _ => 0, fun _ _ => 0⟩

/-! ## CheckCollision -/

/-- The test of one mask cell in `CheckCollision`:
`x < 0 || x >= COLS || y >= ROWS || (y >= 0 && game.grid[y][x])`,
with the short-circuit order of C, so that the array is read in bounds only. -/
def cellCollides (b : Board) (x y : Int) : Bool :=
  if hx0 : x < 0 then true
  else if hx1 : x ≥ COLS then true
  else if hy1 : y ≥ ROWS then true
  else if hy0 : y ≥ 0 then
    b.grid ⟨y.toNat, by omega⟩ ⟨x.toNat, by omega⟩ != 0
  else false

/-- The function `bool CheckCollision(Tetromino t)`: the two nested loops over the mask,
returning `true` at the first colliding occupied cell. -/
def CheckCollision (b : Board) (t : Tetromino) : Bool :=
  (List.finRange 4).any fun i =>
    (List.finRange 4).any fun j =>
      t.shape i j != 0 && cellCollides b (t.x + j.val) (t.y + i.val)

/-! ## MergeToGrid -/

/-- One array assignment `a[y][x] = v` on a `ROWS × COLS` array. -/
def setCell (a : Fin ROWS → Fin COLS → Int) (y : Fin ROWS) (x : Fin COLS) (v : Int) :
    Fin ROWS → Fin COLS → Int :=
  fun r c => if r = y ∧ c = x then v else a r c

/-- The body of the two loops of `MergeToGrid` for the mask cell `(i,j)`:
an occupied cell that lands inside the board writes `grid[y][x] = 1` and
`colorGrid[y][x] = t.type`; any other cell writes nothing. -/
def mergeCell (t : Tetromino) (i j : Fin 4) (b : Board) : Board :=
  if t.shape i j != 0 then
    if h : t.y + i.val ≥ 0 ∧ t.y + i.val < ROWS ∧ t.x + j.val ≥ 0 ∧ t.x + j.val < COLS then
      { grid := setCell b.grid ⟨(t.y + i.val).toNat, by omega⟩ ⟨(t.x + j.val).toNat, by omega⟩ 1
        colorGrid :=
          setCell b.colorGrid ⟨(t.y + i.val).toNat, by omega⟩ ⟨(t.x + j.val).toNat, by omega⟩
            t.type }
    else b
  else b

/-- The function `void MergeToGrid(Tetromino t)`: the loops over `i` and `j`
from 0 to 3, in that order.  (Particles and the lock animation are
presentation.) -/
def MergeToGrid (b : Board) (t : Tetromino) : Board :=
  (List.finRange 4).foldl
    (fun b1 i => (List.finRange 4).foldl (fun b2 j => mergeCell t i j b2) b1) b

/-! ## ClearLines -/

/-- The flag `full` of `ClearLines` for row `i`: no column `j` has
`!game.grid[i][j]`. -/
def rowFull (b : Board) (i : Fin ROWS) : Bool :=
  (List.finRange COLS).all fun j => b.grid i j != 0

/-- The column loop `game.grid[k][j] = game.grid[k-1][j];
game.colorGrid[k][j] = game.colorGrid[k-1][j]` for all `j`, as one row copy. -/
def copyRow (b : Board) (dst src : Fin ROWS) : Board :=
  { grid := fun r => if r = dst then b.grid src else b.grid r
    colorGrid := fun r => if r = dst then b.colorGrid src else b.colorGrid r }

/-- The loop `for (int k = i; k > 0; k--)` that copies row `k-1` into row `k`,
from `k = i` downwards. -/
def shiftRowsDown (b : Board) : (k : Nat) → k < ROWS → Board
  | 0, _ => b
  | k + 1, h => shiftRowsDown (copyRow b ⟨k + 1, h⟩ ⟨k, by omega⟩) k (by omega)

/-- The loop that zeroes the top line:
`game.grid[0][j] = 0; game.colorGrid[0][j] = 0` for all `j`. -/
def clearTopRow (b : Board) : Board :=
  { grid := fun r => if r = 0 then fun _ => 0 else b.grid r
    colorGrid := fun r => if r = 0 then fun _ => 0 else b.colorGrid r }

/-- The main loop `for (int i = ROWS - 1; i >= 0; i--)` of `ClearLines`, one
iteration per unit of fuel.  A full row increments `linesCleared`, shifts the
rows above it down, clears the top row and does `i++` before the loop's
`i--`, so the same index is scanned again.  `none` stands for running out of
fuel or for an index outside the array.  (The line animation and the
particles of a full row, with their colour lookups, are presentation.) -/
def ClearLinesLoop : Nat → Int → Board → Int → Option (Int × Board)
  | 0, _, _, _ => none
  | fuel + 1, i, b, linesCleared =>
    if hi : i ≥ 0 then
      if hr : i < ROWS then
        if rowFull b ⟨i.toNat, by omega⟩ then
          ClearLinesLoop fuel (i + 1 - 1)
            (clearTopRow (shiftRowsDown b i.toNat (by omega))) (linesCleared + 1)
        else
          ClearLinesLoop fuel (i - 1) b linesCleared
      else none
    else some (linesCleared, b)

/-- The function `int ClearLines()`: the cleared count together with the board
it leaves.
At most `ROWS` iterations move the index and at most `ROWS` rescan a row, so
`2 * ROWS + 1` iterations always suffice (`ClearLines_spec`). -/
def ClearLines (b : Board) : Option (Int × Board) :=
  ClearLinesLoop (2 * ROWS + 1) (ROWS - 1) b 0

/-! ## GetDropPosition -/

/-- The loop `while (true) { t.y++; if (CheckCollision(t)) return lowestY;
lowestY = t.y; }`, one iteration per unit of fuel; `none` when the fuel runs
out. -/
def GetDropPositionLoop (b : Board) : Nat → Tetromino → Int → Option Int
  | 0, _, _ => none
  | fuel + 1, t, lowestY =>
    if CheckCollision b { t with y := t.y + 1 } then some lowestY
    else GetDropPositionLoop b fuel { t with y := t.y + 1 } (t.y + 1)

/-- The function `int GetDropPosition(Tetromino t)`.  The loop is run for
`max (ROWS - t.y) 0 + 1` iterations: whenever the loop of the C code ends at
all it ends within that many (`GetDropPosition_isSome`), and a piece whose mask
has no occupied cell never collides, so for it the C loop does not end and the
model returns `none` (`GetDropPositionLoop_emptyMask`). -/
def GetDropPosition (b : Board) (t : Tetromino) : Option Int :=
  GetDropPositionLoop b ((ROWS - t.y).toNat + 1) t t.y

/-! ## RotateTetromino -/

/-- The rotated mask `temp[i][j] = t->shape[3 - j][i]`. -/
def rotateShape (s : Fin 4 → Fin 4 → Int) : Fin 4 → Fin 4 → Int :=
  fun i j => s ⟨3 - j.val, by omega⟩ i

/-- The table `const int kicks[5][2]`, each entry `(dx, dy)`. -/
def kicks : List (Int × Int) := [(-1, 0), (1, 0), (0, -1), (0, 1), (-1, -1)]

/-- The table `const int i_kicks[3][2]`, each entry `(dx, dy)`. -/
def i_kicks : List (Int × Int) := [(-2, 0), (2, 0), (0, -2)]

/-- A kick loop of `RotateTetromino`: the first offset of the table at which
the rotated mask `temp` does not collide gives the new piece; `none` when
the loop ends without a `return`. -/
def tryKicks (b : Board) (t : Tetromino) (temp : Fin 4 → Fin 4 → Int) :
    List (Int × Int) → Option Tetromino
  | [] => none
  | k :: ks =>
    if !CheckCollision b { t with shape := temp, x := t.x + k.1, y := t.y + k.2 } then
      some { t with shape := temp, x := t.x + k.1, y := t.y + k.2 }
    else tryKicks b t temp ks

/-- The function `void RotateTetromino(Tetromino *t)`, returning the piece it
leaves in `*t`. -/
def RotateTetromino (b : Board) (t : Tetromino) : Tetromino :=
  if t.type = O_PIECE then t
  else
    let temp := rotateShape t.shape
    if !CheckCollision b { t with shape := temp } then { t with shape := temp }
    else
      match tryKicks b t temp kicks with
      | some t1 => t1
      | none =>
        if t.type = I_PIECE then
          match tryKicks b t temp i_kicks with
          | some t2 => t2
          | none => t
        else t

/-! ## Single-precision arithmetic

The C code computes the combo multiplier and the gravity delay in `float`.
A finite binary32 value is kept as the dyadic number `m * 2 ^ e`; every
operation is carried out exactly and then rounded to 24 significant bits, to
nearest with ties to even, which is IEEE 754 arithmetic on the normal range
(no overflow to infinity and no subnormals: the values of the game stay far
from both). -/

/-- A finite binary32 value `m * 2 ^ e`, stored with `m` odd, or `m = 0` and
`e = 0`. -/
structure F32 where
  m : Int
  e : Int
deriving DecidableEq

namespace F32

/-- Halve an even non-zero mantissa as often as possible (at most `fuel`
times), so that a value has one representation. -/
def stripZeros : Nat → Int → Int → F32
  | 0, m, e => ⟨m, e⟩
  | fuel + 1, m, e =>
    if m = 0 then ⟨0, 0⟩
    else if m % 2 = 0 then stripZeros fuel (m / 2) (e + 1)
    else ⟨m, e⟩

/-- Drop low bits of the magnitude `q` until it is below `2 ^ 24`, remembering
the last dropped bit (`guard`) and whether an earlier dropped bit was set
(`sticky`), then round to nearest, ties to even. -/
def shiftRound : Nat → Nat → Bool → Bool → Int → Nat × Int
  | 0, q, _, _, e => (q, e)
  | fuel + 1, q, guard, sticky, e =>
    if q < 2 ^ 24 then
      (if guard && (sticky || q % 2 = 1) then q + 1 else q, e)
    else shiftRound fuel (q / 2) (q % 2 = 1) (sticky || guard) (e + 1)

/-- The binary32 value nearest to `m * 2 ^ e` (for `|m| < 2 ^ 152`). -/
def round (m : Int) (e : Int) : F32 :=
  let r := shiftRound 128 m.natAbs false false e
  stripZeros 128 (if m < 0 then -(r.1 : Int) else r.1) r.2

/-- The conversion `(float)n` of an `int`. -/
def ofInt (n : Int) : F32 := round n 0

/-- The product `x * y` in `float`. -/
def mul (x y : F32) : F32 := round (x.m * y.m) (x.e + y.e)

/-- The sum `x + y` in `float`. -/
def add (x y : F32) : F32 :=
  round (x.m * 2 ^ (x.e - min x.e y.e).toNat + y.m * 2 ^ (y.e - min x.e y.e).toNat)
    (min x.e y.e)

/-- The difference `x - y` in `float`. -/
def sub (x y : F32) : F32 := add x ⟨-y.m, y.e⟩

/-- The comparison `x < y`. -/
def lt (x y : F32) : Bool :=
  decide (x.m * 2 ^ (x.e - min x.e y.e).toNat < y.m * 2 ^ (y.e - min x.e y.e).toNat)

/-- The conversion `(int)x`, which truncates towards zero. -/
def toInt (x : F32) : Int :=
  if 0 ≤ x.e then x.m * 2 ^ x.e.toNat else Int.tdiv x.m (2 ^ (-x.e).toNat)

/-- The literal `0.0f`. -/
def zero : F32 := ⟨0, 0⟩

/-- The literal `1.0f`. -/
def one : F32 := ⟨1, 0⟩

/-- The literal `0.1f`, which is `13421773 * 2 ^ (-27)`. -/
def tenth : F32 := ⟨13421773, -27⟩

end F32

/-! ## The session state -/

/-- The enum `GameState`. -/
inductive GameState where
  | STATE_SPLASH
  | STATE_MAIN_MENU
  | STATE_MENU
  | STATE_PLAYING
  | STATE_PAUSED
  | STATE_GAMEOVER
deriving DecidableEq

/-- The gameplay fields of `struct Game` (the global `game`).  `board` holds
`grid` and `colorGrid`; the piece table `tetrominoes` is the constant below;
fonts, sounds, particles, animations and menu cursors are left out. -/
structure Game where
  board : Board
  current : Tetromino
  next : Tetromino
  held : Tetromino
  canHold : Bool
  hasHeld : Bool
  score : Int
  level : Int
  lines : Int
  state : GameState
  timer : F32
  delay : F32
  softDropY : F32
  highScore : Int
  combo : Int
  autoPlayEnabled : Bool
  autoPlayDelay : F32
  autoPlayLevel : Int

/-- A 4×4 mask written as its rows, as in the initialisers of
`InitTetrominoes`. -/
def maskOfRows (rows : List (List Int)) : Fin 4 → Fin 4 → Int :=
  fun i j => (rows.getD i.val []).getD j.val 0

/-- The table entry `game.tetrominoes[k]` as `InitTetrominoes` fills it: mask, spawn position
`(x, 0)` and type of the seven pieces. -/
def tetrominoes (k : Fin 7) : Tetromino :=
  match k with
  | 0 => ⟨maskOfRows [[0,0,0,0],[1,1,1,1],[0,0,0,0],[0,0,0,0]], 3, 0, I_PIECE⟩
  | 1 => ⟨maskOfRows [[1,1,0,0],[1,1,0,0],[0,0,0,0],[0,0,0,0]], 4, 0, O_PIECE⟩
  | 2 => ⟨maskOfRows [[0,1,0,0],[1,1,1,0],[0,0,0,0],[0,0,0,0]], 3, 0, T_PIECE⟩
  | 3 => ⟨maskOfRows [[0,1,1,0],[1,1,0,0],[0,0,0,0],[0,0,0,0]], 3, 0, S_PIECE⟩
  | 4 => ⟨maskOfRows [[1,1,0,0],[0,1,1,0],[0,0,0,0],[0,0,0,0]], 3, 0, Z_PIECE⟩
  | 5 => ⟨maskOfRows [[1,0,0,0],[1,1,1,0],[0,0,0,0],[0,0,0,0]], 3, 0, J_PIECE⟩
  | 6 => ⟨maskOfRows [[0,0,1,0],[1,1,1,0],[0,0,0,0],[0,0,0,0]], 3, 0, L_PIECE⟩

/-- The function `GetRandomTetromino()`: `game.tetrominoes[rand() % 7]`, with the value
`rnd` returned by `rand()` passed in. -/
def GetRandomTetromino (rnd : Nat) : Tetromino :=
  tetrominoes ⟨rnd % 7, Nat.mod_lt _ (by decide)⟩

/-! ## The three lock paths

The scoring block and the advance to the next piece are written out three
times in the C source (hard drop in `HandleInput`, gravity lock in
`UpdateGame`, lock of the auto-player in `EvaluateAndExecuteBestMove`); each
site is transcribed on its own here. -/

/-- The `IsKeyPressed(KEY_UP)` branch of `HandleInput`:
`RotateTetromino(&game.current)`. -/
def HandleInput_rotate (g : Game) : Game :=
  { g with current := RotateTetromino g.board g.current }

/-- The scoring block `if (linesCleared > 0) { ... } else { game.combo = 0; }`
of the hard drop in `HandleInput`: combo, points by `switch (linesCleared)`, combo multiplier in
`float`, score, lines, level, delay and high score.
The `int` variables (`points`, `score`, `lines`, `level`, `combo`) are integers
without a bound here: the sums are those of the C code as long as each fits
in 32 bits (`fitsInt32`). -/
def HandleInput_score (g : Game) (linesCleared : Int) : Game :=
  if linesCleared > 0 then
    let combo := g.combo + 1
    let base : Int :=
      if linesCleared = 1 then 100 * g.level
      else if linesCleared = 2 then 300 * g.level
      else if linesCleared = 3 then 500 * g.level
      else if linesCleared = 4 then 800 * g.level
      else 0
    let points : Int :=
      if combo > 1 then
        F32.toInt (F32.mul (F32.ofInt base)
          (F32.add F32.one (F32.mul (F32.ofInt combo) F32.tenth)))
      else base
    let score := g.score + points
    let lines := g.lines + linesCleared
    let level := 1 + Int.tdiv lines 10
    let delay := F32.sub F32.one (F32.mul (F32.ofInt (level - 1)) F32.tenth)
    { g with
      combo := combo
      score := score
      lines := lines
      level := level
      delay := if F32.lt delay F32.tenth then F32.tenth else delay
      highScore := if score > g.highScore then score else g.highScore }
  else { g with combo := 0 }

/-- The block after the scoring of the hard drop in `HandleInput`: `game.current = game.next`, a new
random `next`, `softDropY`, `canHold = true` and the game-over test of the
new current piece. -/
def HandleInput_advance (g : Game) (rnd : Nat) : Game :=
  let g3 : Game :=
    { g with
      current := g.next
      next := GetRandomTetromino rnd
      softDropY := F32.ofInt g.next.y
      canHold := true }
  if CheckCollision g3.board g3.current then
    { g3 with state := GameState.STATE_GAMEOVER }
  else g3

/-- The `IsKeyPressed(KEY_SPACE)` branch of `HandleInput` (hard drop):
`game.current.y = GetDropPosition(game.current); MergeToGrid(game.current);
int linesCleared = ClearLines();`, scoring, advance.  `none` when
`GetDropPosition` or `ClearLines` does not return. -/
def HandleInput_hardDrop (g : Game) (rnd : Nat) : Option Game :=
  match GetDropPosition g.board g.current with
  | none => none
  | some dropY =>
    match ClearLines (MergeToGrid g.board { g.current with y := dropY }) with
    | none => none
    | some (linesCleared, b2) =>
      some (HandleInput_advance
        (HandleInput_score
          { g with current := { g.current with y := dropY }, board := b2 } linesCleared) rnd)

/-- The scoring block `if (linesCleared > 0) { ... } else { game.combo = 0; }`
of the gravity lock in `UpdateGame`: combo, points by `switch (linesCleared)`, combo multiplier in
`float`, score, lines, level, delay and high score.
The `int` variables (`points`, `score`, `lines`, `level`, `combo`) are integers
without a bound here: the sums are those of the C code as long as each fits
in 32 bits (`fitsInt32`). -/
def UpdateGame_score (g : Game) (linesCleared : Int) : Game :=
  if linesCleared > 0 then
    let combo := g.combo + 1
    let base : Int :=
      if linesCleared = 1 then 100 * g.level
      else if linesCleared = 2 then 300 * g.level
      else if linesCleared = 3 then 500 * g.level
      else if linesCleared = 4 then 800 * g.level
      else 0
    let points : Int :=
      if combo > 1 then
        F32.toInt (F32.mul (F32.ofInt base)
          (F32.add F32.one (F32.mul (F32.ofInt combo) F32.tenth)))
      else base
    let score := g.score + points
    let lines := g.lines + linesCleared
    let level := 1 + Int.tdiv lines 10
    let delay := F32.sub F32.one (F32.mul (F32.ofInt (level - 1)) F32.tenth)
    { g with
      combo := combo
      score := score
      lines := lines
      level := level
      delay := if F32.lt delay F32.tenth then F32.tenth else delay
      highScore := if score > g.highScore then score else g.highScore }
  else { g with combo := 0 }

/-- The block after the scoring of the gravity lock in `UpdateGame`: `game.current = game.next`, a new
random `next`, `softDropY`, `canHold = true` and the game-over test of the
new current piece. -/
def UpdateGame_advance (g : Game) (rnd : Nat) : Game :=
  let g3 : Game :=
    { g with
      current := g.next
      next := GetRandomTetromino rnd
      softDropY := F32.ofInt g.next.y
      canHold := true }
  if CheckCollision g3.board g3.current then
    { g3 with state := GameState.STATE_GAMEOVER }
  else g3

/-- The body of `if (game.timer >= game.delay)` in `UpdateGame` (one gravity
step): `game.current.y++`, and if the piece collides there `game.current.y--`,
merge, clear, scoring and advance; `game.timer = 0` closes the block. -/
def UpdateGame_gravity (g : Game) (rnd : Nat) : Option Game :=
  if CheckCollision g.board { g.current with y := g.current.y + 1 } then
    match ClearLines (MergeToGrid g.board g.current) with
    | none => none
    | some (linesCleared, b2) =>
      some { UpdateGame_advance
        (UpdateGame_score
          { g with board := b2, softDropY := F32.ofInt g.current.y } linesCleared) rnd
        with timer := F32.zero }
  else
    some { g with
      current := { g.current with y := g.current.y + 1 }
      softDropY := F32.ofInt (g.current.y + 1)
      timer := F32.zero }

/-- The scoring block `if (linesCleared > 0) { ... } else { game.combo = 0; }`
of the lock in `EvaluateAndExecuteBestMove`: combo, points by `switch (linesCleared)`, combo multiplier in
`float`, score, lines, level, delay and high score.
The `int` variables (`points`, `score`, `lines`, `level`, `combo`) are integers
without a bound here: the sums are those of the C code as long as each fits
in 32 bits (`fitsInt32`). -/
def EvaluateAndExecuteBestMove_score (g : Game) (linesCleared : Int) : Game :=
  if linesCleared > 0 then
    let combo := g.combo + 1
    let base : Int :=
      if linesCleared = 1 then 100 * g.level
      else if linesCleared = 2 then 300 * g.level
      else if linesCleared = 3 then 500 * g.level
      else if linesCleared = 4 then 800 * g.level
      else 0
    let points : Int :=
      if combo > 1 then
        F32.toInt (F32.mul (F32.ofInt base)
          (F32.add F32.one (F32.mul (F32.ofInt combo) F32.tenth)))
      else base
    let score := g.score + points
    let lines := g.lines + linesCleared
    let level := 1 + Int.tdiv lines 10
    let delay := F32.sub F32.one (F32.mul (F32.ofInt (level - 1)) F32.tenth)
    { g with
      combo := combo
      score := score
      lines := lines
      level := level
      delay := if F32.lt delay F32.tenth then F32.tenth else delay
      highScore := if score > g.highScore then score else g.highScore }
  else { g with combo := 0 }

/-- The block after the scoring of the lock in `EvaluateAndExecuteBestMove`: `game.current = game.next`, a new
random `next`, `softDropY`, `canHold = true` and the game-over test of the
new current piece. -/
def EvaluateAndExecuteBestMove_advance (g : Game) (rnd : Nat) : Game :=
  let g3 : Game :=
    { g with
      current := g.next
      next := GetRandomTetromino rnd
      softDropY := F32.ofInt g.next.y
      canHold := true }
  if CheckCollision g3.board g3.current then
    { g3 with state := GameState.STATE_GAMEOVER, autoPlayEnabled := false }
  else g3

/-- The lock at the end of `EvaluateAndExecuteBestMove` (from the comment
`// Hard drop` on), the piece being already rotated and walked to its column.
`none` when `GetDropPosition` or `ClearLines` does not return. -/
def EvaluateAndExecuteBestMove_lock (g : Game) (rnd : Nat) : Option Game :=
  match GetDropPosition g.board g.current with
  | none => none
  | some dropY =>
    match ClearLines (MergeToGrid g.board { g.current with y := dropY }) with
    | none => none
    | some (linesCleared, b2) =>
      some (EvaluateAndExecuteBestMove_advance
        (EvaluateAndExecuteBestMove_score
          { g with current := { g.current with y := dropY }, board := b2 } linesCleared) rnd)

/-! ## HoldPiece and InitGame -/

/-- The function `void HoldPiece()`: nothing when `canHold` is false; on the
first hold the current piece goes to `held` with `x = 3`, `y = 0`, `next`
becomes current and a new random `next` is drawn; on later holds current and
held are swapped and `game.current.x = 3; game.current.y = 0`.  Both paths end
with `game.softDropY = game.current.y; game.canHold = false`.  `rnd` is the
value `rand()` returns in `GetRandomTetromino`. -/
def HoldPiece (g : Game) (rnd : Nat) : Game :=
  if !g.canHold then g
  else
    let g1 : Game :=
      if !g.hasHeld then
        { g with
          held := { g.current with x := 3, y := 0 }
          current := g.next
          next := GetRandomTetromino rnd
          hasHeld := true }
      else
        { g with
          current := { g.held with x := 3, y := 0 }
          held := g.current }
    { g1 with softDropY := F32.ofInt g1.current.y, canHold := false }

/-- The function `void InitGame()` on the gameplay fields: empty grids, score
0, level 1, lines 0, timer 0, delay `1.0f`, hold available and unused, combo
0, and two random pieces (`rnd1`, `rnd2` are the values of `rand()`).  The
state, the high score, the held piece and the auto-play settings are kept. -/
def InitGame (g : Game) (rnd1 rnd2 : Nat) : Game :=
  { g with
    board := Board.empty
    score := 0
    level := 1
    lines := 0
    timer := F32.zero
    delay := F32.one
    canHold := true
    hasHeld := false
    softDropY := F32.zero
    combo := 0
    current := GetRandomTetromino rnd1
    next := GetRandomTetromino rnd2 }

/-! ## EvaluateMove -/

namespace F32

/-- The literal `0.5f`. -/
def half : F32 := ⟨1, -1⟩

/-- The literal `2.0f`. -/
def two : F32 := ⟨1, 1⟩

/-- The literal `0.7f`, which is `11744051 * 2 ^ (-24)`. -/
def lit07 : F32 := ⟨11744051, -24⟩

/-- The literal `0.6f`, which is `5033165 * 2 ^ (-23)`. -/
def lit06 : F32 := ⟨5033165, -23⟩

/-- The literal `1.2f`, which is `5033165 * 2 ^ (-22)`. -/
def lit12 : F32 := ⟨5033165, -22⟩

/-- The literal `1.3f`, which is `5452595 * 2 ^ (-22)`. -/
def lit13 : F32 := ⟨5452595, -22⟩

end F32

/-- The constant `#define AI_HEIGHT_WEIGHT -0.510066` converted to `float`, which is
`-8557487 * 2 ^ (-24)`. -/
def AI_HEIGHT_WEIGHT : F32 := ⟨-8557487, -24⟩

/-- The constant `#define AI_LINES_WEIGHT 0.760666` converted to `float`, which is
`6380929 * 2 ^ (-23)`. -/
def AI_LINES_WEIGHT : F32 := ⟨6380929, -23⟩

/-- The constant `#define AI_HOLES_WEIGHT -0.35663` converted to `float`, which is
`-11966517 * 2 ^ (-25)`. -/
def AI_HOLES_WEIGHT : F32 := ⟨-11966517, -25⟩

/-- The constant `#define AI_BUMPINESS_WEIGHT -0.184483` converted to `float`, which
is `-12380445 * 2 ^ (-26)`. -/
def AI_BUMPINESS_WEIGHT : F32 := ⟨-12380445, -26⟩

/-- The constant `#define AI_MAX_ROTATIONS 4`. -/
abbrev AI_MAX_ROTATIONS : Nat := 4

/-- The body of the two loops that apply the move to `testGrid` in
`EvaluateMove` for the mask cell `(i,j)`: `testGrid[y][x] = 1` for an occupied
cell inside the board. -/
def evalMergeCell (t : Tetromino) (i j : Fin 4) (a : Fin ROWS → Fin COLS → Int) :
    Fin ROWS → Fin COLS → Int :=
  if t.shape i j != 0 then
    if h : t.y + i.val ≥ 0 ∧ t.y + i.val < ROWS ∧ t.x + j.val ≥ 0 ∧ t.x + j.val < COLS then
      setCell a ⟨(t.y + i.val).toNat, by omega⟩ ⟨(t.x + j.val).toNat, by omega⟩ 1
    else a
  else a

/-- The array `testGrid` of `EvaluateMove`: a copy of `game.grid` with the
piece written into it. -/
def testGridOf (a : Fin ROWS → Fin COLS → Int) (t : Tetromino) : Fin ROWS → Fin COLS → Int :=
  (List.finRange 4).foldl
    (fun a1 i => (List.finRange 4).foldl (fun a2 j => evalMergeCell t i j a2) a1) a

/-- The entry `columnHeights[x]`: the loop over `y` from 0 stops at the first
occupied cell and stores `ROWS - y`; the entry stays 0 in an empty column. -/
def columnHeight (a : Fin ROWS → Fin COLS → Int) (x : Fin COLS) : Int :=
  match (List.finRange ROWS).find? (fun y => a y x != 0) with
  | some y => (ROWS : Int) - y.val
  | none => 0

/-- The sum `aggregateHeight += columnHeights[x]` over the columns. -/
def aggregateHeight (a : Fin ROWS → Fin COLS → Int) : Int :=
  ((List.finRange COLS).map (columnHeight a)).sum

/-- The counter `completeLines`: one for every row `y` without a cell
`!testGrid[y][x]`. -/
def completeLines (a : Fin ROWS → Fin COLS → Int) : Int :=
  (((List.finRange ROWS).filter fun y => (List.finRange COLS).all fun x => a y x != 0).length :
    Nat)

/-- The loop over `y` of the holes count for column `x`, with the flag
`blockFound` and the holes counted in this column: an occupied cell sets the
flag, an empty cell under a set flag counts. -/
def holesInColumn (a : Fin ROWS → Fin COLS → Int) (x : Fin COLS) : Bool × Int :=
  (List.finRange ROWS).foldl
    (fun st y => if a y x != 0 then (true, st.2) else if st.1 then (st.1, st.2 + 1) else st)
    (false, 0)

/-- The counter `holes` over all columns. -/
def holes (a : Fin ROWS → Fin COLS → Int) : Int :=
  ((List.finRange COLS).map fun x => (holesInColumn a x).2).sum

/-- The sum `bumpiness += abs(columnHeights[x] - columnHeights[x + 1])` for `x`
from 0 to `COLS - 2`. -/
def bumpiness (a : Fin ROWS → Fin COLS → Int) : Int :=
  ((List.finRange (COLS - 1)).map fun x =>
    (((columnHeight a ⟨x.val, by omega⟩ - columnHeight a ⟨x.val + 1, by omega⟩).natAbs : Nat) :
      Int)).sum

/-- The function `float EvaluateMove(Tetromino t, int dropPosition, int
rotations)`: the four features of `testGrid`, the weights adjusted by
`switch (game.autoPlayLevel)`, the weighted sum in `float` from left to right
and the bonus `0.5f` when `t.type == game.held.type && game.hasHeld`.  The two
`int` parameters are not used by the C function. -/
def EvaluateMove (g : Game) (t : Tetromino) (_dropPosition _rotations : Int) : F32 :=
  let testGrid := testGridOf g.board.grid t
  let heightWeight :=
    if g.autoPlayLevel = 0 then F32.mul AI_HEIGHT_WEIGHT F32.lit07 else AI_HEIGHT_WEIGHT
  let linesWeight :=
    if g.autoPlayLevel = 2 then F32.mul AI_LINES_WEIGHT F32.lit12 else AI_LINES_WEIGHT
  let holesWeight :=
    if g.autoPlayLevel = 0 then F32.mul AI_HOLES_WEIGHT F32.lit06
    else if g.autoPlayLevel = 2 then F32.mul AI_HOLES_WEIGHT F32.lit13
    else AI_HOLES_WEIGHT
  let bumpinessWeight := AI_BUMPINESS_WEIGHT
  let score :=
    F32.add
      (F32.add
        (F32.add (F32.mul heightWeight (F32.ofInt (aggregateHeight testGrid)))
          (F32.mul linesWeight (F32.ofInt (completeLines testGrid))))
        (F32.mul holesWeight (F32.ofInt (holes testGrid))))
      (F32.mul bumpinessWeight (F32.ofInt (bumpiness testGrid)))
  if t.type = g.held.type ∧ g.hasHeld = true then F32.add score F32.half else score

/-! ## EvaluateAndExecuteBestMove -/

/-- A `float` that is either `-INFINITY` or finite: the values that
`bestScore` and `heldScore` take. -/
inductive EF32 where
  | negInf
  | fin (x : F32)
deriving DecidableEq

/-- The sum of two such values (`-INFINITY + x` is `-INFINITY`). -/
def EF32.add : EF32 → EF32 → EF32
  | EF32.fin x, EF32.fin y => EF32.fin (F32.add x y)
  | _, _ => EF32.negInf

/-- The comparison `a > b` (every finite value is above `-INFINITY`, and
`-INFINITY` is above nothing). -/
def EF32.gt : EF32 → EF32 → Bool
  | EF32.fin x, EF32.fin y => F32.lt y x
  | EF32.fin _, EF32.negInf => true
  | EF32.negInf, _ => false

/-- The values of `x` in `for (int x = -3; x < COLS + 3; x++)`. -/
def searchColumns : List Int := (List.range (COLS + 6)).map fun (k : Nat) => (k : Int) - 3

/-- The body of the column loop up to the score: `testPiece.x = x;
testPiece.y = 0;`, `continue` on a collision (`some none`), else the drop row
and `EvaluateMove` of the piece at that row (`some (some score)`); `none` when
`GetDropPosition` does not return. -/
def scoreCandidate (g : Game) (testPiece : Tetromino) (r : Nat) (x : Int) :
    Option (Option F32) :=
  if CheckCollision g.board { testPiece with x := x, y := 0 } then some none
  else
    match GetDropPosition g.board { testPiece with x := x, y := 0 } with
    | none => none
    | some dropPos => some (some (EvaluateMove g { testPiece with x := x, y := dropPos } dropPos r))

/-- One iteration of the column loop of the first search (the piece a hold
would make current): `if (score > heldScore) heldScore = score;`. -/
def heldSearchColumn (g : Game) (testPiece : Tetromino) (r : Nat) (acc : Option EF32)
    (x : Int) : Option EF32 :=
  match acc with
  | none => none
  | some heldScore =>
    match scoreCandidate g testPiece r x with
    | none => none
    | some none => some heldScore
    | some (some score) =>
      some (if EF32.gt (EF32.fin score) heldScore then EF32.fin score else heldScore)

/-- The first search: for `r` from 0 to `AI_MAX_ROTATIONS - 1` the piece is
copied and rotated `r` times by `RotateTetromino`, then every column is tried;
the result is `heldScore`, which starts at `-INFINITY`. -/
def heldSearch (g : Game) (heldPiece : Tetromino) : Option EF32 :=
  (List.range AI_MAX_ROTATIONS).foldl
    (fun acc r =>
      searchColumns.foldl (heldSearchColumn g ((RotateTetromino g.board)^[r] heldPiece) r) acc)
    (some EF32.negInf)

/-- The variables `bestScore`, `bestX` and `bestRotations`. -/
structure BestMove where
  bestScore : EF32
  bestX : Int
  bestRotations : Nat
deriving DecidableEq

/-- One iteration of the column loop of the second search (the current piece):
`if (score > bestScore) { bestScore = score; bestX = x; bestRotations = r; }`. -/
def currentSearchColumn (g : Game) (testPiece : Tetromino) (r : Nat) (acc : Option BestMove)
    (x : Int) : Option BestMove :=
  match acc with
  | none => none
  | some best =>
    match scoreCandidate g testPiece r x with
    | none => none
    | some none => some best
    | some (some score) =>
      some (if EF32.gt (EF32.fin score) best.bestScore then ⟨EF32.fin score, x, r⟩ else best)

/-- The second search, over the rotations and columns of `piece` (the current
piece), from the `bestScore` the first block leaves, `bestX = 0` and
`bestRotations = 0`. -/
def currentSearch (g : Game) (piece : Tetromino) (bestScore : EF32) : Option BestMove :=
  (List.range AI_MAX_ROTATIONS).foldl
    (fun acc r =>
      searchColumns.foldl (currentSearchColumn g ((RotateTetromino g.board)^[r] piece) r) acc)
    (some ⟨bestScore, 0, 0⟩)

/-- The first block of `EvaluateAndExecuteBestMove`: the values of
`shouldHold` and `bestScore` after `if (game.canHold) { ... }`.  `bestScore`
is still `-INFINITY` when `heldScore > bestScore + 2.0f` is tested. -/
def holdDecision (g : Game) : Option (Bool × EF32) :=
  if g.canHold then
    match heldSearch g (if g.hasHeld then g.held else g.next) with
    | none => none
    | some heldScore =>
      some (if EF32.gt heldScore (EF32.add EF32.negInf (EF32.fin F32.two)) then
        (true, heldScore) else (false, EF32.negInf))
  else some (false, EF32.negInf)

/-- The loop `while (game.current.x < bestX) { game.current.x++; if
(CheckCollision(game.current)) { game.current.x--; break; } }`, one iteration
per unit of fuel. -/
def walkRight (b : Board) (bestX : Int) : Nat → Tetromino → Tetromino
  | 0, t => t
  | fuel + 1, t =>
    if t.x < bestX then
      if CheckCollision b { t with x := t.x + 1 } then t
      else walkRight b bestX fuel { t with x := t.x + 1 }
    else t

/-- The loop `while (game.current.x > bestX) { game.current.x--; if
(CheckCollision(game.current)) { game.current.x++; break; } }`, one iteration
per unit of fuel. -/
def walkLeft (b : Board) (bestX : Int) : Nat → Tetromino → Tetromino
  | 0, t => t
  | fuel + 1, t =>
    if t.x > bestX then
      if CheckCollision b { t with x := t.x - 1 } then t
      else walkLeft b bestX fuel { t with x := t.x - 1 }
    else t

/-- The function `void EvaluateAndExecuteBestMove()`: the hold decision, then
either `HoldPiece()` or the search for the current piece, the rotations, the
walk to `bestX` (each loop moves one column per iteration, so the distance to
`bestX` bounds its iterations) and the lock. -/
def EvaluateAndExecuteBestMove (g : Game) (rnd : Nat) : Option Game :=
  match holdDecision g with
  | none => none
  | some (shouldHold, bestScore) =>
    if shouldHold then some (HoldPiece g rnd)
    else
      match currentSearch g g.current bestScore with
      | none => none
      | some best =>
        let rotated := (RotateTetromino g.board)^[best.bestRotations] g.current
        let right := walkRight g.board best.bestX (best.bestX - rotated.x).toNat rotated
        let left := walkLeft g.board best.bestX (right.x - best.bestX).toNat right
        EvaluateAndExecuteBestMove_lock { g with current := left } rnd

/-! ## Moves and soft drop of `HandleInput` -/

/-- The `KEY_LEFT` branch of `HandleInput`: `game.current.x--; if
(CheckCollision(game.current)) game.current.x++;`. -/
def HandleInput_moveLeft (g : Game) : Game :=
  let t1 : Tetromino := { g.current with x := g.current.x - 1 }
  if CheckCollision g.board t1 then { g with current := { t1 with x := t1.x + 1 } }
  else { g with current := t1 }

/-- The `KEY_RIGHT` branch of `HandleInput`: `game.current.x++; if
(CheckCollision(game.current)) game.current.x--;`. -/
def HandleInput_moveRight (g : Game) : Game :=
  let t1 : Tetromino := { g.current with x := g.current.x + 1 }
  if CheckCollision g.board t1 then { g with current := { t1 with x := t1.x - 1 } }
  else { g with current := t1 }

namespace F32

/-- The literal `15.0f`. -/
def fifteen : F32 := ⟨15, 0⟩

/-- The value of `floor(x)` for a `float` `x` (it is a `float` again). -/
def floor (x : F32) : F32 :=
  if 0 ≤ x.e then x else ofInt (x.m / 2 ^ (-x.e).toNat)

/-- The literal `0.01f`, which is `5368709 * 2 ^ (-29)`. -/
def hundredth : F32 := ⟨5368709, -29⟩

end F32

/-- The `IsKeyDown(KEY_DOWN)` branch of `HandleInput` (soft drop), with the
value `frameTime` of `GetFrameTime()`: `game.softDropY += GetFrameTime() *
15.0f`, the test of the piece at row `(int)game.softDropY + 1`,
`game.softDropY = floor(game.softDropY)` when it collides,
`game.current.y = (int)game.softDropY` and `game.timer += GetFrameTime() * 10`. -/
def HandleInput_softDrop (g : Game) (frameTime : F32) : Game :=
  let s1 := F32.add g.softDropY (F32.mul frameTime F32.fifteen)
  let testDrop : Tetromino := { g.current with y := F32.toInt s1 + 1 }
  let s2 := if CheckCollision g.board testDrop then F32.floor s1 else s1
  { g with
    softDropY := s2
    current := { g.current with y := F32.toInt s2 }
    timer := F32.add g.timer (F32.mul frameTime (F32.ofInt 10)) }

/-! ## Auto-play settings -/

/-- The constant `#define AI_DELAY_MIN 0.05f`, which is `13421773 * 2 ^ (-28)`. -/
def AI_DELAY_MIN : F32 := ⟨13421773, -28⟩

/-- The constant `#define AI_DELAY_MAX 0.5f`. -/
def AI_DELAY_MAX : F32 := ⟨1, -1⟩

/-- The function `float ClampValue(float value, float min, float max)`. -/
def ClampValue (value min max : F32) : F32 :=
  if F32.lt value min then min
  else if F32.lt max value then max
  else value

/-- The `case 2` (move delay) of the keyboard part of `HandleAutoPlaySettings`:
`IsKeyDown(KEY_LEFT)` lowers the delay by `0.01f`, `IsKeyDown(KEY_RIGHT)`
raises it by `0.01f`, each time through `ClampValue`. -/
def HandleAutoPlaySettings_delayKeys (g : Game) (left right : Bool) : Game :=
  let g1 : Game :=
    if left then
      { g with
        autoPlayDelay :=
          ClampValue (F32.sub g.autoPlayDelay F32.hundredth) AI_DELAY_MIN AI_DELAY_MAX }
    else g
  if right then
    { g1 with
      autoPlayDelay :=
        ClampValue (F32.add g1.autoPlayDelay F32.hundredth) AI_DELAY_MIN AI_DELAY_MAX }
  else g1

/-- The delay slider of `HandleAutoPlaySettings` while the mouse button is
down over it, with the value `normalizedValue` of `(mousePoint.x -
delaySliderRect.x) / delaySliderRect.width`: the value is clamped to
`[0.0f, 1.0f]` and the delay becomes `AI_DELAY_MIN + normalizedValue *
(AI_DELAY_MAX - AI_DELAY_MIN)`. -/
def HandleAutoPlaySettings_delaySlider (g : Game) (normalizedValue : F32) : Game :=
  { g with
    autoPlayDelay :=
      F32.add AI_DELAY_MIN
        (F32.mul (ClampValue normalizedValue F32.zero F32.one)
          (F32.sub AI_DELAY_MAX AI_DELAY_MIN)) }

/-- The global `Game game;` when `main` calls `InitGame`: static storage is
zero-initialised, and `main` has stored the loaded high score and
`STATE_SPLASH` (which is the value 0 of the enum). -/
def programStart (highScore : Int) : Game :=
  { board := Board.empty
    current := ⟨fun _ _ => 0, 0, 0, 0⟩
    next := ⟨fun _ _ => 0, 0, 0, 0⟩
    held := ⟨fun _ _ => 0, 0, 0, 0⟩
    canHold := false
    hasHeld := false
    score := 0
    level := 0
    lines := 0
    state := GameState.STATE_SPLASH
    timer := F32.zero
    delay := F32.zero
    softDropY := F32.zero
    highScore := highScore
    combo := 0
    autoPlayEnabled := false
    autoPlayDelay := F32.zero
    autoPlayLevel := 0 }

/-! ## The colour lookups of ClearLines -/

/-- The indices `game.colorGrid[i][0]` and `game.colorGrid[i][j]` (for every
column `j`) with which `ClearLines` reads `game.tetrominoes[..]` for the line
animation and the particles of a full row `i`, in the order of the reads over
the whole run of the loop (same iterations as `ClearLinesLoop`). -/
def ClearLinesLookups : Nat → Int → Board → List Int
  | 0, _, _ => []
  | fuel + 1, i, b =>
    if hi : i ≥ 0 then
      if hr : i < ROWS then
        if rowFull b ⟨i.toNat, by omega⟩ then
          (b.colorGrid ⟨i.toNat, by omega⟩ 0
              :: (List.finRange COLS).map (b.colorGrid ⟨i.toNat, by omega⟩))
            ++ ClearLinesLookups fuel (i + 1 - 1)
              (clearTopRow (shiftRowsDown b i.toNat (by omega)))
        else ClearLinesLookups fuel (i - 1) b
      else []
    else []

/-- The function `void ToggleAutoPlay()`: the flag is flipped and
`game.timer = 0`.  (Sound and the floating text are presentation.) -/
def ToggleAutoPlay (g : Game) : Game :=
  { g with autoPlayEnabled := !g.autoPlayEnabled, timer := F32.zero }

/-! ## Concrete inputs -/

/-- A board given by its occupancy predicate; an occupied cell carries
occupancy 1 and the tag `tag`. -/
def boardOf (occ : Nat → Nat → Bool) (tag : Int) : Board :=
  { grid := fun r c => if occ r.val c.val then 1 else 0
    colorGrid := fun r c => if occ r.val c.val then tag else 0 }

/-- The I-piece standing upright in mask column 2, against the left wall
(board column 0), rows 0 to 3. -/
def wallI : Tetromino :=
  ⟨maskOfRows [[0,0,1,0],[0,0,1,0],[0,0,1,0],[0,0,1,0]], -2, 0, I_PIECE⟩

/-- Every cell occupied except those of column 0: a well one column wide. -/
def wellBoard : Board := boardOf (fun _ c => c != 0) T_PIECE

/-- The upright I-piece inside the well of `wellBoard`, rows 10 to 13. -/
def wellI : Tetromino := { wallI with y := 10 }

/-- Row 19 occupied except columns 3 to 6, everything else free. -/
def gapBoard : Board := boardOf (fun r c => r == 19 && (c < 3 || 6 < c)) J_PIECE

/-- Row 19 fully occupied and one block on row 18, column 4. -/
def oneFullRowBoard : Board := boardOf (fun r c => r == 19 || (r == 18 && c == 4)) S_PIECE

/-- A fresh session on `gapBoard`: the I-piece at its spawn position, score 0,
level 1, combo 0. -/
def gapGame : Game :=
  { board := gapBoard
    current := tetrominoes 0
    next := tetrominoes 2
    held := tetrominoes 0
    canHold := true
    hasHeld := false
    score := 0
    level := 1
    lines := 0
    state := GameState.STATE_PLAYING
    timer := F32.zero
    delay := F32.one
    softDropY := F32.zero
    highScore := 0
    combo := 0
    autoPlayEnabled := false
    autoPlayDelay := F32.tenth
    autoPlayLevel := 1 }

/-- Rows 16 to 19 occupied except column 0, everything else free. -/
def fourRowBoard : Board := boardOf (fun r c => 16 ≤ r && c != 0) L_PIECE

/-- Every cell of the board occupied. -/
def fullBoard : Board := boardOf (fun _ _ => true) Z_PIECE

/-- A session whose current piece is the O-piece at its spawn position
`(4, 0)`, with the hold available and nothing held yet. -/
def holdGameO : Game := { gapGame with current := tetrominoes 1, board := Board.empty }

/-- A session that holds the I-piece while the T-piece has fallen to column 5,
row 7, with the hold available. -/
def swapGame : Game :=
  { gapGame with
    board := Board.empty
    current := { tetrominoes 2 with x := 5, y := 7 }
    held := tetrominoes 0
    hasHeld := true }

/-- A session on `gapBoard` after ten consecutive single-row clears: lines 10,
level 2, combo 10, score 5000, the I-piece at its spawn position. -/
def comboGame : Game :=
  { gapGame with score := 5000, highScore := 5000, lines := 10, level := 2, combo := 10 }

/-- A new game whose first two pieces are both the T-piece: the board is
empty, the hold is available and unused. -/
def holdBugGame : Game := InitGame gapGame 2 2

/-- Columns 4 and 5 occupied from row 2 down to the floor, everything else
free. -/
def stackBoard : Board := boardOf (fun r c => 2 ≤ r && (c == 4 || c == 5)) O_PIECE

/-- A session in play with auto-play enabled on `stackBoard`: the O-piece at
its spawn position rests on the stack, and the next piece is an O-piece
too. -/
def autoStackGame : Game :=
  { gapGame with
    board := stackBoard
    current := tetrominoes 1
    next := tetrominoes 1
    autoPlayEnabled := true }

/-- Column 3 occupied from the top row to the floor (five upright I-pieces),
everything else free. -/
def columnBoard : Board := boardOf (fun _ c => c == 3) I_PIECE

/-- A session in play on `columnBoard` with the hold available and unused: the
O-piece at its spawn position (columns 4 and 5), the I-piece next. -/
def holdBlockedGame : Game :=
  { gapGame with board := columnBoard, current := tetrominoes 1, next := tetrominoes 0 }

/-- A session in play on the empty board with the I-piece lying on the floor
(mask row 1 in board row 19) and the soft-drop accumulator at its row, 18. -/
def floorGame : Game :=
  { gapGame with
    board := Board.empty
    current := { tetrominoes 0 with y := 18 }
    softDropY := F32.ofInt 18 }

/-- A tower in column 7 from row 8 to the floor (three upright I-pieces) with
an I-piece lying on top of it in row 7, columns 4 to 7: the cells of row 7 in
columns 4 to 6 overhang free cells. -/
def ledgeBoard : Board :=
  boardOf (fun r c => (c == 7 && 8 ≤ r) || (r == 7 && 4 ≤ c && c ≤ 7)) I_PIECE

/-- A session in play on `ledgeBoard` with the I-piece at row 2 (mask row 1 in
board row 3, columns 3 to 6) and the soft-drop accumulator at its row. -/
def ledgeGame : Game :=
  { gapGame with
    board := ledgeBoard
    current := { tetrominoes 0 with y := 2 }
    softDropY := F32.ofInt 2 }

/-- The board after `k` O-pieces were dropped at their spawn column: columns 4
and 5 occupied from row `20 - 2 * k` down to the floor. -/
def stackOf (k : Nat) : Board := boardOf (fun r c => 20 - 2 * k ≤ r && (c == 4 || c == 5)) O_PIECE

/-- A new game whose pieces are all O-pieces, after `k` of them were dropped at
their spawn column. -/
def stackGame (k : Nat) : Game := { InitGame gapGame 1 1 with board := stackOf k }

/-- The hard drop repeated `k` times, `rand()` returning 1 (the O-piece) every
time. -/
def dropTimes : Nat → Game → Option Game
  | 0, g => some g
  | k + 1, g => (dropTimes k g).bind fun g1 => HandleInput_hardDrop g1 1

/-- Rows 16 to 19 occupied in the columns left of column `j`, everything else
free: the board after upright I-pieces were dropped into columns 0 to
`j - 1`. -/
def wellStack (j : Nat) : Board := boardOf (fun r c => 16 ≤ r && c < j) I_PIECE

/-- The I-piece rotated once (upright, in mask column 2) and moved to board
column `c`, at row 0. -/
def uprightI (c : Nat) : Tetromino :=
  { tetrominoes 0 with shape := rotateShape (tetrominoes 0).shape, x := (c : Int) - 2 }

/-- A new game whose pieces are all I-pieces, on the board `wellStack j`, with
the given score, lines, level, delay, combo and high score. -/
def wellGame (j : Nat) (score lines level : Int) (delay : F32) (combo highScore : Int) : Game :=
  { InitGame gapGame 0 0 with
    board := wellStack j
    score := score
    lines := lines
    level := level
    delay := delay
    combo := combo
    highScore := highScore }

/-- The key presses that bring the falling piece upright into board column
`c`: one rotation (which leaves the I-piece at its spawn position upright in
column 5), then moves to the left or to the right. -/
def steerTo (c : Nat) (g : Game) : Game :=
  if c ≤ 5 then HandleInput_moveLeft^[5 - c] (HandleInput_rotate g)
  else HandleInput_moveRight^[c - 5] (HandleInput_rotate g)

/-- The falling piece steered into each column of the list in turn and
dropped there by a hard drop, `rand()` returning 0 (the I-piece) every time. -/
def dropColumns : List Nat → Game → Option Game
  | [], g => some g
  | c :: cs, g => (HandleInput_hardDrop (steerTo c g) 0).bind (dropColumns cs)

/-- Row 19 occupied except column 4, everything else free. -/
def slotBoard : Board := boardOf (fun r c => r == 19 && c != 4) J_PIECE

/-- The session `gapGame` (I-piece falling, Medium difficulty, nothing held)
on `slotBoard`. -/
def slotGame : Game := { gapGame with board := slotBoard }

/-- Row 19 occupied except columns 3 and 4, everything else free. -/
def twoSlotBoard : Board := boardOf (fun r c => r == 19 && c != 3 && c != 4) J_PIECE

/-- The session `gapGame` (I-piece falling, Medium difficulty, nothing held)
on `twoSlotBoard`. -/
def twoSlotGame : Game := { gapGame with board := twoSlotBoard }

/-! ## Vocabulary of the statements -/

/-- The board cell addressed by integer coordinates is occupied (false outside the board). -/
def Board.occupiedAt (b : Board) (r c : Int) : Prop :=
  ∃ (hr : 0 ≤ r ∧ r < ROWS) (hc : 0 ≤ c ∧ c < COLS),
    b.grid ⟨r.toNat, by omega⟩ ⟨c.toNat, by omega⟩ ≠ 0

/-- One board row: its occupancy cells and its tags. -/
abbrev Row := (Fin COLS → Int) × (Fin COLS → Int)

/-- Every cell of the row is occupied. -/
def Row.isFull (r : Row) : Bool :=
  (List.finRange COLS).all fun j => r.1 j != 0

/-- The row with every cell unoccupied and every tag zero. -/
def Row.empty : Row := (fun _ => 0, fun _ => 0)

/-- Row `i` of the board, occupancy and tags together. -/
def Board.row (b : Board) (i : Fin ROWS) : Row := (b.grid i, b.colorGrid i)

/-- The rows of the board from top (row 0) to bottom (row `ROWS - 1`). -/
def Board.rows (b : Board) : List Row := List.ofFn b.row

/-- The number of fully occupied rows of the board. -/
def Board.fullCount (b : Board) : Nat := (b.rows.filter Row.isFull).length

/-- Occupancy and tag of one board cell. -/
def Board.cell (b : Board) (r : Fin ROWS) (c : Fin COLS) : Int × Int :=
  (b.grid r c, b.colorGrid r c)

/-- The mask cell `(i,j)` of the piece is occupied and lies on board cell
`(r,c)`, that is `t.y + i = r` and `t.x + j = c`. -/
def hits (t : Tetromino) (r c : Int) (i j : Fin 4) : Bool :=
  t.shape i j != 0 && (decide (t.y + i.val = r) && decide (t.x + j.val = c))

/-- Some occupied mask cell of the piece lies on board cell `(r,c)`. -/
def covers (t : Tetromino) (r c : Int) : Prop :=
  ∃ i j : Fin 4, t.shape i j ≠ 0 ∧ t.y + i.val = r ∧ t.x + j.val = c

/-- The piece has at least one occupied mask cell. -/
def Tetromino.nonEmpty (t : Tetromino) : Prop := ∃ i j : Fin 4, t.shape i j ≠ 0

/-- The piece moved to row `r`, everything else kept. -/
def Tetromino.atRow (t : Tetromino) (r : Int) : Tetromino := { t with y := r }

/-- The piece with its mask replaced by `m` and moved by the offset
`d = (dx, dy)`. -/
def Tetromino.placed (t : Tetromino) (m : Fin 4 → Fin 4 → Int) (d : Int × Int) : Tetromino :=
  { t with shape := m, x := t.x + d.1, y := t.y + d.2 }

/-- The candidate offsets `(dx, dy)` of a rotation in the priority order of
the specification (section 4.2): in place, the five kicks, and for an I-piece
three more. -/
def specKickOrder (t : Tetromino) : List (Int × Int) :=
  [(0, 0), (-1, 0), (1, 0), (0, -1), (0, 1), (-1, -1)] ++
    (if t.type = I_PIECE then [(-2, 0), (2, 0), (0, -2)] else [])

/-- The first offset of `cands` at which mask `m` does not collide. -/
def firstFree (b : Board) (t : Tetromino) (m : Fin 4 → Fin 4 → Int)
    (cands : List (Int × Int)) : Option (Int × Int) :=
  cands.find? fun d => !CheckCollision b (t.placed m d)

/-- The integer `n` is a value of the C type `int` (32 bits, two's
complement). -/
def fitsInt32 (n : Int) : Prop := -2147483648 ≤ n ∧ n ≤ 2147483647

/-- The base points of the specification (section 4.4) for `n` cleared rows:
1 → 100, 2 → 300, 3 → 500, 4 → 800. -/
def specBasePoints (n : Int) : Int :=
  if n = 1 then 100 else if n = 2 then 300 else if n = 3 then 500 else if n = 4 then 800 else 0

/-- The spawn position `(x, y)` of the piece type `ty`, read from the table
that `InitTetrominoes` fills; `none` for an integer that is no piece type. -/
def spawnPosition (ty : Int) : Option (Int × Int) :=
  if h : 0 ≤ ty ∧ ty < 7 then
    some ((tetrominoes ⟨ty.toNat, by omega⟩).x, (tetrominoes ⟨ty.toNat, by omega⟩).y)
  else none

/-- The rational number a binary32 value stands for. -/
def F32.toRat (x : F32) : ℚ := (x.m : ℚ) * (2 : ℚ) ^ x.e

/-- The larger of two binary32 values: `y` unless `y < x`. -/
def F32.max (x y : F32) : F32 := if F32.lt y x then x else y

/-- The gravity delay of the specification (section 4.4) for level `L`,
`max(0.1, 1.0 - (L - 1) * 0.1)`, evaluated in single precision. -/
def specDelay (L : Int) : F32 :=
  F32.max F32.tenth (F32.sub F32.one (F32.mul (F32.ofInt (L - 1)) F32.tenth))

/-- One step of a session.  `move` stands for everything that only changes the
falling piece and the two timers (moves, rotations, soft drop, the walk of the
auto-player); the other steps are the hold, the gravity step and the three
locks. -/
inductive Step : Game → Game → Prop where
  | move (g : Game) (t : Tetromino) (sd tm : F32) :
      Step g { g with current := t, softDropY := sd, timer := tm }
  | hold (g : Game) (rnd : Nat) : Step g (HoldPiece g rnd)
  | hardDrop (g g1 : Game) (rnd : Nat) : HandleInput_hardDrop g rnd = some g1 → Step g g1
  | gravity (g g1 : Game) (rnd : Nat) : UpdateGame_gravity g rnd = some g1 → Step g g1
  | autoLock (g g1 : Game) (rnd : Nat) :
      EvaluateAndExecuteBestMove_lock g rnd = some g1 → Step g g1

/-- The sessions reachable from `InitGame` by steps. -/
inductive Reachable : Game → Prop where
  | init (g0 : Game) (rnd1 rnd2 : Nat) : Reachable (InitGame g0 rnd1 rnd2)
  | step (g g1 : Game) : Reachable g → Step g g1 → Reachable g1

/-- The smallest mantissa `q` with `q * 2 ^ e ≥ 1`, that is `2 ^ (-e)` for a
negative exponent and 1 otherwise. -/
def F32.unit (e : Int) : Nat := 2 ^ (-e).toNat

/-- The level curve of the specification: lines are not negative, the level is
`1 + floor(lines / 10)` and the delay is the delay of that level. -/
def levelCurve (g : Game) : Prop :=
  0 ≤ g.lines ∧ g.level = 1 + g.lines / 10 ∧ g.delay = specDelay g.level

/-- The height of column `x` in the specification (section 4.6): `ROWS` minus
the row of the topmost occupied cell, 0 for an empty column. -/
def specColumnHeight (a : Fin ROWS → Fin COLS → Int) (x : Fin COLS) : Int :=
  match Fin.find (fun y : Fin ROWS => a y x ≠ 0) with
  | some y => (ROWS : Int) - y.val
  | none => 0

/-- Aggregate height: the sum over the columns of their heights. -/
def specAggregateHeight (a : Fin ROWS → Fin COLS → Int) : Int :=
  ∑ x : Fin COLS, specColumnHeight a x

/-- Complete lines: the number of rows whose cells are all occupied. -/
def specCompleteLines (a : Fin ROWS → Fin COLS → Int) : Nat :=
  (Finset.univ.filter fun y : Fin ROWS => ∀ x : Fin COLS, a y x ≠ 0).card

/-- Holes: the number of empty cells with at least one occupied cell above
them in the same column. -/
def specHoles (a : Fin ROWS → Fin COLS → Int) : Nat :=
  ∑ x : Fin COLS,
    (Finset.univ.filter fun y : Fin ROWS =>
      a y x = 0 ∧ ∃ y1 : Fin ROWS, y1 < y ∧ a y1 x ≠ 0).card

/-- Bumpiness: the sum of the absolute height differences of adjacent
columns. -/
def specBumpiness (a : Fin ROWS → Fin COLS → Int) : Int :=
  ∑ x : Fin (COLS - 1),
    |specColumnHeight a ⟨x.val, by omega⟩ - specColumnHeight a ⟨x.val + 1, by omega⟩|

/-- The weights `(W_h, W_l, W_o, W_b)` of the specification for the difficulty
`d`: the base weights for Medium (1), `W_h * 0.7` and `W_o * 0.6` for Beginner
(0), `W_l * 1.2` and `W_o * 1.3` for Expert (2), in single precision. -/
def specWeights (d : Int) : F32 × F32 × F32 × F32 :=
  if d = 0 then
    (F32.mul AI_HEIGHT_WEIGHT F32.lit07, AI_LINES_WEIGHT, F32.mul AI_HOLES_WEIGHT F32.lit06,
      AI_BUMPINESS_WEIGHT)
  else if d = 2 then
    (AI_HEIGHT_WEIGHT, F32.mul AI_LINES_WEIGHT F32.lit12, F32.mul AI_HOLES_WEIGHT F32.lit13,
      AI_BUMPINESS_WEIGHT)
  else (AI_HEIGHT_WEIGHT, AI_LINES_WEIGHT, AI_HOLES_WEIGHT, AI_BUMPINESS_WEIGHT)

/-- The evaluation score of the specification: the weighted sum
`W_h·H + W_l·L + W_o·O + W_b·B` of the features of the board with the piece
merged, in single precision, plus `0.5` when a held piece exists and has the
type of the evaluated piece. -/
def specEvaluate (g : Game) (t : Tetromino) : F32 :=
  let a := (MergeToGrid g.board t).grid
  let w := specWeights g.autoPlayLevel
  let sum :=
    F32.add
      (F32.add
        (F32.add (F32.mul w.1 (F32.ofInt (specAggregateHeight a)))
          (F32.mul w.2.1 (F32.ofInt (specCompleteLines a))))
        (F32.mul w.2.2.1 (F32.ofInt (specHoles a))))
      (F32.mul w.2.2.2 (F32.ofInt (specBumpiness a)))
  if g.hasHeld = true ∧ g.held.type = t.type then F32.add sum F32.half else sum

/-- The candidates `(r, x)` of a search in the order the loops visit them:
rotation count `r` from 0 to `AI_MAX_ROTATIONS - 1`, and for each the columns
of `searchColumns`. -/
def scanOrder : List (Nat × Int) :=
  (List.range AI_MAX_ROTATIONS).flatMap fun r => searchColumns.map fun x => (r, x)

/-- Candidate `c` comes before candidate `d` in scan order: lower rotation
count, or the same rotation count and a lower column. -/
def scanBefore (c d : Nat × Int) : Prop := c.1 < d.1 ∨ (c.1 = d.1 ∧ c.2 < d.2)

instance (c d : Nat × Int) : Decidable (scanBefore c d) := by
  unfold scanBefore; infer_instance

/-- The piece of candidate `c = (r, x)`: `piece` rotated `r` times by
`RotateTetromino`, then put at column `x`, row 0. -/
def candidatePiece (g : Game) (piece : Tetromino) (c : Nat × Int) : Tetromino :=
  { (RotateTetromino g.board)^[c.1] piece with x := c.2, y := 0 }

/-- What the loop body computes for candidate `c = (r, x)` of `piece`:
`some none` when the candidate is skipped, `some (some score)` when it is
scored. -/
def candidateScore (g : Game) (piece : Tetromino) (c : Nat × Int) : Option (Option F32) :=
  scoreCandidate g ((RotateTetromino g.board)^[c.1] piece) c.1 c.2

/-- The state of the search after the candidates `seen`: nothing was scored
and the variables have their initial values, or the variables hold a scored
candidate that beats every scored candidate before it and is not beaten by any
after it. -/
def SearchInv (g : Game) (piece : Tetromino) (seen : List (Nat × Int)) (st : BestMove) : Prop :=
  (st = ⟨EF32.negInf, 0, 0⟩ ∧ ∀ c ∈ seen, candidateScore g piece c = some none) ∨
  (∃ s pre c post, seen = pre ++ c :: post ∧ st = ⟨EF32.fin s, c.2, c.1⟩ ∧
    candidateScore g piece c = some (some s) ∧
    (∀ d ∈ pre, ∀ s1, candidateScore g piece d = some (some s1) → F32.lt s1 s = true) ∧
    (∀ d ∈ post, ∀ s1, candidateScore g piece d = some (some s1) → F32.lt s s1 = false))

/-- The number of occupied cells of a 4×4 mask. -/
def occupiedCells (s : Fin 4 → Fin 4 → Int) : Nat :=
  (Finset.univ.filter fun p : Fin 4 × Fin 4 => s p.1 p.2 ≠ 0).card

/-- Every tag of the row is in `0..6`, and an unoccupied cell has tag 0. -/
def Row.tagsValid (r : Row) : Prop :=
  ∀ c : Fin COLS, (0 ≤ r.2 c ∧ r.2 c ≤ 6) ∧ (r.1 c = 0 → r.2 c = 0)

/-- Every tag of the tag grid is in `0..6`, and an unoccupied cell has tag 0. -/
def Board.tagsValid (b : Board) : Prop :=
  ∀ (r : Fin ROWS) (c : Fin COLS),
    (0 ≤ b.colorGrid r c ∧ b.colorGrid r c ≤ 6) ∧ (b.grid r c = 0 → b.colorGrid r c = 0)

/-- The boards reachable from the board of `InitGame` by `MergeToGrid` of
pieces with a type in `0..6` and by `ClearLines`. -/
inductive BoardReachable : Board → Prop where
  | init : BoardReachable Board.empty
  | merge (b : Board) (t : Tetromino) :
      BoardReachable b → 0 ≤ t.type → t.type ≤ 6 → BoardReachable (MergeToGrid b t)
  | clear (b b1 : Board) (n : Int) :
      BoardReachable b → ClearLines b = some (n, b1) → BoardReachable b1

/-- The fields of a session that the three lock paths are compared on: board,
tag grid, score, lines, level, delay, combo, high score, current piece,
`canHold` and state. -/
def lockOutcome (g : Game) :
    (Fin ROWS → Fin COLS → Int) × (Fin ROWS → Fin COLS → Int) × Int × Int × Int × F32 × Int
      × Int × Tetromino × Bool × GameState :=
  (g.board.grid, g.board.colorGrid, g.score, g.lines, g.level, g.delay, g.combo, g.highScore,
    g.current, g.canHold, g.state)

/-- The binary32 value `x` lies within `ε` of the rational number `v`, and
its representation is in the range of the evaluation scores: mantissa at most
`2 ^ 24` in magnitude, exponent between -26 and 9. -/
def F32.near (x : F32) (v ε : ℚ) : Prop :=
  |x.toRat - v| ≤ ε ∧ x.m.natAbs ≤ 2 ^ 24 ∧ -26 ≤ x.e ∧ x.e ≤ 9

/-- The four features `EvaluateMove` computes for the piece `t` on the board
of `g`: aggregate height, complete lines, holes and bumpiness of the test
grid. -/
def moveFeatures (g : Game) (t : Tetromino) : Int × Int × Int × Int :=
  (aggregateHeight (testGridOf g.board.grid t), completeLines (testGridOf g.board.grid t),
    holes (testGridOf g.board.grid t), bumpiness (testGridOf g.board.grid t))

/-- The weighted sum of `EvaluateMove` under the base (Medium) weights without
the held-piece bonus, in `float`, summed from left to right. -/
def mediumScore (f : Int × Int × Int × Int) : F32 :=
  F32.add
    (F32.add
      (F32.add (F32.mul AI_HEIGHT_WEIGHT (F32.ofInt f.1))
        (F32.mul AI_LINES_WEIGHT (F32.ofInt f.2.1)))
      (F32.mul AI_HOLES_WEIGHT (F32.ofInt f.2.2.1)))
    (F32.mul AI_BUMPINESS_WEIGHT (F32.ofInt f.2.2.2))

/-- The weighted sum of the four features as a rational number, with the
binary32 values of the four base weights. -/
def exactScore (f : Int × Int × Int × Int) : ℚ :=
  AI_HEIGHT_WEIGHT.toRat * f.1 + AI_LINES_WEIGHT.toRat * f.2.1
    + AI_HOLES_WEIGHT.toRat * f.2.2.1 + AI_BUMPINESS_WEIGHT.toRat * f.2.2.2

/-- The delay `d` lies in the closed range from `AI_DELAY_MIN` to
`AI_DELAY_MAX`. -/
def delayInRange (d : F32) : Prop :=
  F32.lt d AI_DELAY_MIN = false ∧ F32.lt AI_DELAY_MAX d = false

/-! ## Theorems -/

theorem cellCollides_iff (b : Board) (x y : Int) :
    cellCollides b x y = true ↔
      (x < 0 ∨ x ≥ COLS ∨ y ≥ ROWS ∨ (y ≥ 0 ∧ b.occupiedAt y x)) := by
  unfold cellCollides Board.occupiedAt
  split_ifs with hx0 hx1 hy1 hy0
  · exact ⟨fun _ => Or.inl hx0, fun _ => rfl⟩
  · exact ⟨fun _ => Or.inr (Or.inl hx1), fun _ => rfl⟩
  · exact ⟨fun _ => Or.inr (Or.inr (Or.inl hy1)), fun _ => rfl⟩
  · simp only [bne_iff_ne]
    constructor
    · intro h
      exact Or.inr (Or.inr (Or.inr ⟨hy0, ⟨hy0, by omega⟩, ⟨by omega, by omega⟩, h⟩))
    · rintro (h | h | h | ⟨_, _, _, h⟩)
      · omega
      · omega
      · omega
      · exact h
  · constructor
    · intro h
      cases h
    · rintro (h | h | h | ⟨h, _⟩) <;> omega

theorem CheckCollision_iff (b : Board) (t : Tetromino) :
    CheckCollision b t = true ↔
      ∃ i j : Fin 4, t.shape i j ≠ 0 ∧
        (t.x + j.val < 0 ∨ t.x + j.val ≥ COLS ∨ t.y + i.val ≥ ROWS ∨
          (t.y + i.val ≥ 0 ∧ b.occupiedAt (t.y + i.val) (t.x + j.val))) := by
  simp only [CheckCollision, List.any_eq_true, List.mem_finRange, true_and,
    Bool.and_eq_true, bne_iff_ne, cellCollides_iff]

/-- C1: `CheckCollision` is true exactly when some occupied mask cell `(i,j)`
lands on column `< 0` or `>= COLS`, or on row `>= ROWS`, or on a row `>= 0`
whose board cell is occupied; so a piece whose occupied cells all lie above
the board (row `< 0`) and inside the horizontal bounds never collides. -/
theorem C1_CheckCollision_iff (b : Board) (t : Tetromino) :
    (CheckCollision b t = true ↔
      ∃ i j : Fin 4, t.shape i j ≠ 0 ∧
        (t.x + j.val < 0 ∨ t.x + j.val ≥ COLS ∨ t.y + i.val ≥ ROWS ∨
          (t.y + i.val ≥ 0 ∧ b.occupiedAt (t.y + i.val) (t.x + j.val)))) ∧
    ((∀ i j : Fin 4, t.shape i j ≠ 0 →
        0 ≤ t.x + j.val ∧ t.x + j.val < COLS ∧ t.y + i.val < 0) →
      CheckCollision b t = false) := by
  refine ⟨CheckCollision_iff b t, ?_⟩
  intro h
  cases hc : CheckCollision b t with
  | false => rfl
  | true =>
    obtain ⟨i, j, hs, hcol⟩ := (CheckCollision_iff b t).1 hc
    obtain ⟨h1, h2, h3⟩ := h i j hs
    rcases hcol with h4 | h4 | h4 | ⟨h4, _⟩ <;> omega

/-- The I-piece two rows above a board whose cells are all occupied does not
collide. -/
theorem C1_CheckCollision_iff_witness :
    CheckCollision fullBoard { tetrominoes 0 with y := -2 } = false :=
  (C1_CheckCollision_iff fullBoard { tetrominoes 0 with y := -2 }).2 (by decide)

/-! ### ClearLines -/

theorem Board.ext_row {b c : Board} (h : ∀ i, b.row i = c.row i) : b = c := by
  cases b with
  | mk g cg =>
    cases c with
    | mk g2 cg2 =>
      have h1 : g = g2 := funext fun i => congrArg Prod.fst (h i)
      have h2 : cg = cg2 := funext fun i => congrArg Prod.snd (h i)
      rw [h1, h2]

theorem Board.rows_injective {b c : Board} (h : b.rows = c.rows) : b = c := by
  apply Board.ext_row
  intro i
  exact congrFun (List.ofFn_injective h) i

theorem Board.length_rows (b : Board) : b.rows.length = ROWS :=
  List.length_ofFn b.row

theorem Board.getElem_rows (b : Board) (i : Nat) (h : i < b.rows.length) :
    b.rows[i] = b.row ⟨i, (Board.length_rows b) ▸ h⟩ :=
  List.getElem_ofFn b.row i h

theorem rowFull_eq (b : Board) (i : Fin ROWS) : rowFull b i = (b.row i).isFull := rfl

theorem Row.empty_not_full : Row.isFull Row.empty = false := by decide

theorem copyRow_row (b : Board) (dst src r : Fin ROWS) :
    (copyRow b dst src).row r = if r = dst then b.row src else b.row r := by
  by_cases h : r = dst <;> simp [copyRow, Board.row, h]

theorem shiftRowsDown_row (k : Nat) : ∀ (b : Board) (h : k < ROWS) (r : Fin ROWS),
    (shiftRowsDown b k h).row r =
      if _ : r.val = 0 ∨ k < r.val then b.row r else b.row ⟨r.val - 1, by omega⟩ := by
  induction k with
  | zero =>
    intro b h r
    have h0 : r.val = 0 ∨ 0 < r.val := by omega
    simp [shiftRowsDown, h0]
  | succ k ih =>
    intro b h r
    rw [shiftRowsDown, ih, copyRow_row]
    by_cases h1 : r.val = 0 ∨ k < r.val
    · rw [dif_pos h1]
      by_cases h2 : r = ⟨k + 1, h⟩
      · have h3 : ¬ (r.val = 0 ∨ k + 1 < r.val) := by
          rw [h2]; simp
        rw [if_pos h2, dif_neg h3]
        congr 1
        rw [h2]
        exact Fin.ext (by simp)
      · have h3 : r.val = 0 ∨ k + 1 < r.val := by
          have : r.val ≠ k + 1 := fun e => h2 (Fin.ext e)
          omega
        rw [if_neg h2, dif_pos h3]
    · have h3 : ¬ (r.val = 0 ∨ k + 1 < r.val) := by omega
      rw [dif_neg h1, dif_neg h3, copyRow_row]
      have h4 : (⟨r.val - 1, by omega⟩ : Fin ROWS) ≠ ⟨k + 1, h⟩ := by
        intro e
        have := congrArg Fin.val e
        simp at this
        omega
      rw [if_neg h4]

theorem clearTopRow_row (b : Board) (r : Fin ROWS) :
    (clearTopRow b).row r = if r = 0 then Row.empty else b.row r := by
  by_cases h : r = 0 <;> simp [clearTopRow, Board.row, Row.empty, h]

theorem rows_clear_shift (b : Board) (i : Nat) (h : i < ROWS) :
    (clearTopRow (shiftRowsDown b i h)).rows = Row.empty :: b.rows.eraseIdx i := by
  apply List.ext_getElem
  · have hl : i < b.rows.length := by rw [Board.length_rows]; exact h
    rw [List.length_cons, List.length_eraseIdx_of_lt hl, Board.length_rows, Board.length_rows]
    rfl
  · intro n h1 h2
    rw [Board.getElem_rows, clearTopRow_row]
    have hn : n < ROWS := (Board.length_rows _) ▸ h1
    cases n with
    | zero => simp
    | succ m =>
      have hne : (⟨m + 1, hn⟩ : Fin ROWS) ≠ 0 := by
        intro e
        have := congrArg Fin.val e
        simp at this
      rw [if_neg hne, shiftRowsDown_row, List.getElem_cons_succ, List.getElem_eraseIdx]
      by_cases hm : i < m + 1
      · have hm2 : ¬ m < i := by omega
        rw [dif_pos (Or.inr hm), dif_neg hm2, Board.getElem_rows]
      · have hm2 : m < i := by omega
        have hm3 : ¬ ((m + 1 = 0) ∨ i < m + 1) := by omega
        rw [dif_neg hm3, dif_pos hm2, Board.getElem_rows]
        rfl

theorem row_of_rows (b : Board) (P S : List Row) (last : Row)
    (hb : b.rows = P ++ [last] ++ S) (k : Fin ROWS) (hk : k.val = P.length) :
    b.row k = last := by
  have hlen : k.val < b.rows.length := by rw [Board.length_rows]; exact k.isLt
  have h1 : b.rows[k.val] = b.row k := Board.getElem_rows b k.val hlen
  have h2 : b.rows[k.val]? = some (b.row k) := by rw [List.getElem?_eq_getElem hlen, h1]
  have h3 : (P ++ [last] ++ S)[P.length]? = some last := by
    rw [List.append_assoc, List.getElem?_append_right (Nat.le_refl _)]
    simp
  rw [hb, hk, h3] at h2
  exact (Option.some.inj h2).symm

theorem eraseIdx_middle (P S : List Row) (last : Row) :
    (P ++ [last] ++ S).eraseIdx P.length = P ++ S := by
  rw [List.append_assoc, List.eraseIdx_append_of_length_le (Nat.le_refl _)]
  simp

/-- The loop invariant of `ClearLines`: with the rows still to scan `P` on top
of the rows already scanned `S`, the loop ends, adds the number of full rows
of `P` to the count, and leaves that many empty rows on top of the non-full
rows of `P` and of `S`. -/
theorem ClearLinesLoop_spec : ∀ (fuel : Nat) (P S : List Row) (b : Board) (n : Int),
    b.rows = P ++ S → P.length + (P.filter Row.isFull).length + 1 ≤ fuel →
    ∃ b1, ClearLinesLoop fuel ((P.length : Int) - 1) b n
        = some (n + ((P.filter Row.isFull).length : Int), b1) ∧
      b1.rows = List.replicate (P.filter Row.isFull).length Row.empty
        ++ P.filter (fun r => !r.isFull) ++ S := by
  intro fuel
  induction fuel with
  | zero => intro P S b n _ hf; omega
  | succ fuel ih =>
    intro P S b n hb hf
    rcases List.eq_nil_or_concat P with hP | ⟨P0, last, hP⟩
    · subst hP
      refine ⟨b, ?_, ?_⟩
      · simp [ClearLinesLoop]
      · simpa using hb
    · rw [List.concat_eq_append] at hP
      subst hP
      have hlen : (P0 ++ [last] ++ S).length = ROWS := by rw [← hb, Board.length_rows]
      have hP0 : P0.length < ROWS := by
        simp only [List.length_append, List.length_singleton] at hlen
        omega
      have hi0 : (((P0 ++ [last]).length : Nat) : Int) - 1 ≥ 0 := by
        simp only [List.length_append, List.length_singleton]; omega
      have hi1 : (((P0 ++ [last]).length : Nat) : Int) - 1 < ROWS := by
        simp only [List.length_append, List.length_singleton]; omega
      have hit : ((((P0 ++ [last]).length : Nat) : Int) - 1).toNat = P0.length := by
        simp only [List.length_append, List.length_singleton]; omega
      rw [ClearLinesLoop, dif_pos hi0, dif_pos hi1]
      have hrow : ∀ h, b.row ⟨((((P0 ++ [last]).length : Nat) : Int) - 1).toNat, h⟩ = last :=
        fun h => row_of_rows b P0 S last hb _ hit
      by_cases hfull : last.isFull = true
      · have hfull2 : rowFull b ⟨((((P0 ++ [last]).length : Nat) : Int) - 1).toNat, by omega⟩
            = true := by rw [rowFull_eq, hrow, hfull]
        rw [if_pos hfull2]
        have hrows : (clearTopRow (shiftRowsDown b
            ((((P0 ++ [last]).length : Nat) : Int) - 1).toNat (by omega))).rows
              = (Row.empty :: P0) ++ S := by
          rw [rows_clear_shift]
          have e : b.rows.eraseIdx ((((P0 ++ [last]).length : Nat) : Int) - 1).toNat
              = P0 ++ S := by
            rw [hit, hb, eraseIdx_middle]
          rw [e]; rfl
        have hcnt : ((P0 ++ [last]).filter Row.isFull).length
            = ((Row.empty :: P0).filter Row.isFull).length + 1 := by
          simp [List.filter_append, List.filter_cons, hfull, Row.empty_not_full]
        have hf2 : (Row.empty :: P0).length + ((Row.empty :: P0).filter Row.isFull).length + 1
            ≤ fuel := by
          rw [hcnt] at hf
          have e1 : (Row.empty :: P0).length = P0.length + 1 := rfl
          have e2 : (P0 ++ [last]).length = P0.length + 1 := by simp
          omega
        obtain ⟨b1, h1, h2⟩ := ih (Row.empty :: P0) S _ (n + 1) hrows hf2
        refine ⟨b1, ?_, ?_⟩
        · have e1 : (((P0 ++ [last]).length : Nat) : Int) - 1 + 1 - 1
              = (((Row.empty :: P0).length : Nat) : Int) - 1 := by
            have e3 : (Row.empty :: P0).length = P0.length + 1 := rfl
            have e4 : (P0 ++ [last]).length = P0.length + 1 := by simp
            omega
          rw [e1, h1, hcnt]
          congr 2
          push_cast
          ring
        · rw [h2, hcnt]
          simp [List.filter_append, List.filter_cons, hfull, Row.empty_not_full,
            List.replicate_succ']
      · have hfull1 : last.isFull = false := by simpa using hfull
        have hfull2 : ¬ rowFull b ⟨((((P0 ++ [last]).length : Nat) : Int) - 1).toNat, by omega⟩
            = true := by rw [rowFull_eq, hrow]; exact hfull
        rw [if_neg hfull2]
        have hcnt : ((P0 ++ [last]).filter Row.isFull).length
            = (P0.filter Row.isFull).length := by
          simp [List.filter_append, hfull1]
        have hb2 : b.rows = P0 ++ (last :: S) := by rw [hb]; simp
        have hf2 : P0.length + (P0.filter Row.isFull).length + 1 ≤ fuel := by
          rw [hcnt] at hf
          simp only [List.length_append, List.length_singleton] at hf
          omega
        obtain ⟨b1, h1, h2⟩ := ih P0 (last :: S) b n hb2 hf2
        refine ⟨b1, ?_, ?_⟩
        · have e1 : (((P0 ++ [last]).length : Nat) : Int) - 1 - 1
              = ((P0.length : Nat) : Int) - 1 := by
            simp only [List.length_append, List.length_singleton]; omega
          rw [e1, h1, hcnt]
        · rw [h2, hcnt]
          simp [List.filter_append, hfull1]

theorem ClearLines_spec (b : Board) :
    ∃ b1, ClearLines b = some ((b.fullCount : Int), b1) ∧
      b1.rows = List.replicate b.fullCount Row.empty
        ++ b.rows.filter (fun r => !r.isFull) := by
  have hle : (b.rows.filter Row.isFull).length ≤ b.rows.length := List.length_filter_le _ _
  have hlen := Board.length_rows b
  have hf : b.rows.length + (b.rows.filter Row.isFull).length + 1 ≤ 2 * ROWS + 1 := by omega
  obtain ⟨b1, h1, h2⟩ := ClearLinesLoop_spec (2 * ROWS + 1) b.rows [] b 0 (by simp) hf
  refine ⟨b1, ?_, ?_⟩
  · have e : ((b.rows.length : Nat) : Int) - 1 = (ROWS : Int) - 1 := by rw [hlen]
    rw [e, Int.zero_add] at h1
    exact h1
  · simpa using h2

theorem filter_all_false {α : Type} (p : α → Bool) (l : List α)
    (h : ∀ a ∈ l, p a = false) :
    l.filter (fun a => !p a) = l ∧ l.filter p = [] := by
  constructor
  · rw [List.filter_eq_self]
    intro a ha
    simp [h a ha]
  · rw [List.filter_eq_nil_iff]
    intro a ha
    simp [h a ha]

theorem filter_single {α : Type} (p : α → Bool) : ∀ (l : List α) (r : Nat) (_ : r < l.length),
    (∀ i (h : i < l.length), p l[i] = true ↔ i = r) →
    l.filter (fun a => !p a) = l.eraseIdx r ∧ (l.filter p).length = 1 := by
  intro l
  induction l with
  | nil => intro r hr; simp at hr
  | cons a l ih =>
    intro r hr h
    cases r with
    | zero =>
      have ha : p a = true := (h 0 (by simp)).2 rfl
      have hl : ∀ x ∈ l, p x = false := by
        intro x hx
        obtain ⟨i, hi, rfl⟩ := List.mem_iff_getElem.1 hx
        have h1 := h (i + 1) (by simp; omega)
        simp only [List.getElem_cons_succ] at h1
        cases hp : p l[i] with
        | false => rfl
        | true => have := h1.1 hp; omega
      obtain ⟨h1, h2⟩ := filter_all_false p l hl
      simp [List.filter_cons, ha, h1, h2]
    | succ r =>
      have ha : p a = false := by
        cases hp : p a with
        | false => rfl
        | true =>
          have := (h 0 (by simp)).1 (by simpa using hp)
          omega
      have hr2 : r < l.length := by simpa using hr
      have h2 : ∀ i (hi : i < l.length), p l[i] = true ↔ i = r := by
        intro i hi
        have h1 := h (i + 1) (by simp; omega)
        simp only [List.getElem_cons_succ] at h1
        rw [h1]
        omega
      obtain ⟨h3, h4⟩ := ih r hr2 h2
      simp [List.filter_cons, ha, h3, h4]

/-- C2: `ClearLines` returns the number of fully occupied rows, and leaves that
many empty rows on top of the non-full rows of the input, in their order and
with their content (occupancy and tags); when exactly one row `r` is full the
top row is empty, each row above `r` has moved down by one and the rows below
`r` are unchanged. -/
theorem C2_ClearLines_rows (b : Board) :
    ∃ b1, ClearLines b = some ((b.fullCount : Int), b1) ∧
      b1.rows = List.replicate b.fullCount Row.empty
        ++ b.rows.filter (fun r => !r.isFull) ∧
      ∀ r : Fin ROWS, (∀ i : Fin ROWS, rowFull b i = true ↔ i = r) →
        b.fullCount = 1 ∧ b1.row 0 = Row.empty ∧
        (∀ i : Fin ROWS, ∀ h : i.val < r.val, b1.row ⟨i.val + 1, by omega⟩ = b.row i) ∧
        (∀ i : Fin ROWS, r.val < i.val → b1.row i = b.row i) := by
  obtain ⟨b1, h1, h2⟩ := ClearLines_spec b
  refine ⟨b1, h1, h2, ?_⟩
  intro r hr
  have hlen := Board.length_rows b
  have hsingle : ∀ i (h : i < b.rows.length), Row.isFull b.rows[i] = true ↔ i = r.val := by
    intro i h
    rw [Board.getElem_rows, ← rowFull_eq, hr]
    constructor
    · intro e; rw [← e]
    · intro e; exact Fin.ext e
  obtain ⟨h3, h4⟩ := filter_single Row.isFull b.rows r.val (by rw [hlen]; exact r.isLt) hsingle
  have hcount : b.fullCount = 1 := h4
  have hb1 : b1 = clearTopRow (shiftRowsDown b r.val r.isLt) := by
    apply Board.rows_injective
    rw [h2, rows_clear_shift, hcount, h3]
    rfl
  refine ⟨hcount, ?_, ?_, ?_⟩
  · rw [hb1, clearTopRow_row]; simp
  · intro i hi
    have hne : (⟨i.val + 1, by omega⟩ : Fin ROWS) ≠ 0 := by
      intro e
      have := congrArg Fin.val e
      simp at this
    have hc : ¬ (i.val + 1 = 0 ∨ r.val < i.val + 1) := by omega
    rw [hb1, clearTopRow_row, if_neg hne, shiftRowsDown_row, dif_neg hc]
    rfl
  · intro i hi
    have hne : i ≠ 0 := by
      intro e
      have := congrArg Fin.val e
      simp at this
      omega
    rw [hb1, clearTopRow_row, if_neg hne, shiftRowsDown_row, dif_pos (Or.inr hi)]

/-- On the board with row 19 full and one block on row 18, `ClearLines`
returns 1, the top row is empty and row 18 has moved to row 19. -/
theorem C2_ClearLines_rows_witness :
    ∃ b1, ClearLines oneFullRowBoard = some (1, b1) ∧ b1.row 0 = Row.empty ∧
      b1.row 19 = oneFullRowBoard.row 18 := by
  obtain ⟨b1, h1, _, h3⟩ := C2_ClearLines_rows oneFullRowBoard
  obtain ⟨hc, h0, hup, _⟩ := h3 19 (by decide)
  refine ⟨b1, ?_, h0, hup 18 (by decide)⟩
  rw [h1, hc]
  rfl

theorem rows_after_clear_not_full (b b1 : Board)
    (h : b1.rows = List.replicate b.fullCount Row.empty
      ++ b.rows.filter (fun r => !r.isFull)) :
    ∀ x ∈ b1.rows, Row.isFull x = false := by
  intro x hx
  rw [h, List.mem_append] at hx
  rcases hx with hx | hx
  · rw [(List.mem_replicate.1 hx).2]
    exact Row.empty_not_full
  · have := (List.mem_filter.1 hx).2
    simpa using this

theorem noFull_of_rows (b : Board) (h : ∀ x ∈ b.rows, Row.isFull x = false) :
    ∀ r : Fin ROWS, rowFull b r = false := by
  intro r
  rw [rowFull_eq]
  apply h
  have hlen : r.val < b.rows.length := by rw [Board.length_rows]; exact r.isLt
  have := List.getElem_mem hlen
  rw [Board.getElem_rows] at this
  exact this

theorem rows_of_noFull (b : Board) (h : ∀ r : Fin ROWS, rowFull b r = false) :
    ∀ x ∈ b.rows, Row.isFull x = false := by
  intro x hx
  obtain ⟨i, hi, rfl⟩ := List.mem_iff_getElem.1 hx
  rw [Board.getElem_rows, ← rowFull_eq]
  exact h _

theorem ClearLines_of_noFull (b : Board) (h : ∀ x ∈ b.rows, Row.isFull x = false) :
    ClearLines b = some (0, b) := by
  obtain ⟨b2, h1, h2⟩ := ClearLines_spec b
  obtain ⟨h3, h4⟩ := filter_all_false Row.isFull b.rows h
  have hc : b.fullCount = 0 := by
    unfold Board.fullCount
    rw [h4]
    rfl
  rw [hc, h3] at h2
  have hb : b2 = b := Board.rows_injective (by simpa using h2)
  rw [h1, hc, hb]
  rfl

/-- C3: `ClearLines` ends on every board, the board it leaves has no fully
occupied row, and a second call right after it returns 0 and leaves the board
(occupancy and tags) as it is. -/
theorem C3_ClearLines_idempotent (b : Board) :
    ∃ (k : Int) (b1 : Board), ClearLines b = some (k, b1) ∧
      ClearLines b1 = some (0, b1) ∧ ∀ r : Fin ROWS, rowFull b1 r = false := by
  obtain ⟨b1, h1, h2⟩ := ClearLines_spec b
  have h3 := rows_after_clear_not_full b b1 h2
  exact ⟨_, b1, h1, ClearLines_of_noFull b1 h3, noFull_of_rows b1 h3⟩

/-! ### MergeToGrid -/

theorem mergeCell_cell (t : Tetromino) (i j : Fin 4) (b : Board) (r : Fin ROWS)
    (c : Fin COLS) :
    (mergeCell t i j b).cell r c =
      if hits t r.val c.val i j then (1, t.type) else b.cell r c := by
  unfold mergeCell hits
  by_cases hs : t.shape i j = 0
  · simp [hs]
  · have hs2 : (t.shape i j != 0) = true := by simpa using hs
    rw [if_pos hs2, hs2, Bool.true_and]
    by_cases hb : t.y + i.val ≥ 0 ∧ t.y + i.val < ROWS ∧ t.x + j.val ≥ 0 ∧ t.x + j.val < COLS
    · rw [dif_pos hb]
      by_cases hrc : t.y + i.val = r.val ∧ t.x + j.val = c.val
      · have e : r = ⟨(t.y + i.val).toNat, by omega⟩ ∧ c = ⟨(t.x + j.val).toNat, by omega⟩ :=
          ⟨Fin.ext (by simp only []; omega), Fin.ext (by simp only []; omega)⟩
        simp [Board.cell, setCell, hrc.1, hrc.2]
      · have e : ¬ (r = ⟨(t.y + i.val).toNat, by omega⟩ ∧
            c = ⟨(t.x + j.val).toNat, by omega⟩) := by
          rintro ⟨e1, e2⟩
          apply hrc
          have h1 := congrArg Fin.val e1
          have h2 := congrArg Fin.val e2
          simp only [] at h1 h2
          omega
        have e2 : (decide (t.y + i.val = r.val) && decide (t.x + j.val = c.val)) = false := by
          simpa using hrc
        rw [e2]
        simp only [Board.cell, setCell, if_neg e]
        rfl
    · rw [dif_neg hb]
      have e2 : (decide (t.y + i.val = r.val) && decide (t.x + j.val = c.val)) = false := by
        have hr := r.isLt
        have hc := c.isLt
        simp only [Bool.and_eq_false_iff, decide_eq_false_iff_not]
        omega
      rw [e2]
      rfl

theorem mergeRow_cell (t : Tetromino) (i : Fin 4) (r : Fin ROWS) (c : Fin COLS) :
    ∀ (js : List (Fin 4)) (b : Board),
      (js.foldl (fun b2 j => mergeCell t i j b2) b).cell r c =
        if js.any (hits t r.val c.val i) then (1, t.type) else b.cell r c := by
  intro js
  induction js with
  | nil => intro b; simp
  | cons j js ih =>
    intro b
    rw [List.foldl_cons, ih, mergeCell_cell, List.any_cons]
    by_cases h1 : js.any (hits t r.val c.val i) = true
    · simp [h1]
    · by_cases h2 : hits t r.val c.val i j = true
      · simp [h2]
      · simp [h1, h2]

theorem mergeRows_cell (t : Tetromino) (r : Fin ROWS) (c : Fin COLS) :
    ∀ (is : List (Fin 4)) (b : Board),
      (is.foldl (fun b1 i => (List.finRange 4).foldl (fun b2 j => mergeCell t i j b2) b1)
          b).cell r c =
        if is.any (fun i => (List.finRange 4).any (hits t r.val c.val i)) then (1, t.type)
        else b.cell r c := by
  intro is
  induction is with
  | nil => intro b; simp
  | cons i is ih =>
    intro b
    rw [List.foldl_cons, ih, mergeRow_cell, List.any_cons]
    by_cases h1 : is.any (fun i => (List.finRange 4).any (hits t r.val c.val i)) = true
    · simp [h1]
    · by_cases h2 : (List.finRange 4).any (hits t r.val c.val i) = true
      · simp [h2]
      · simp [h1, h2]

theorem covers_iff_any (t : Tetromino) (r c : Int) :
    covers t r c ↔
      (List.finRange 4).any (fun i => (List.finRange 4).any (hits t r c i)) = true := by
  simp only [covers, hits, List.any_eq_true, List.mem_finRange, true_and, Bool.and_eq_true,
    bne_iff_ne, decide_eq_true_eq]

theorem MergeToGrid_cell (b : Board) (t : Tetromino) (r : Fin ROWS) (c : Fin COLS) :
    (covers t r.val c.val → (MergeToGrid b t).cell r c = (1, t.type)) ∧
    (¬ covers t r.val c.val → (MergeToGrid b t).cell r c = b.cell r c) := by
  unfold MergeToGrid
  rw [mergeRows_cell, covers_iff_any]
  constructor
  · intro h; rw [if_pos h]
  · intro h; rw [if_neg h]

/-- C9: after `MergeToGrid` a board cell `(r,c)` holds occupancy 1 and the
tag of the piece's type when some occupied mask cell lies on it, and keeps its
occupancy and tag otherwise; mask cells outside the board change nothing. -/
theorem C9_MergeToGrid_frame (b : Board) (t : Tetromino) (r : Fin ROWS) (c : Fin COLS) :
    (covers t r.val c.val →
      (MergeToGrid b t).grid r c = 1 ∧ (MergeToGrid b t).colorGrid r c = t.type) ∧
    (¬ covers t r.val c.val →
      (MergeToGrid b t).grid r c = b.grid r c ∧
        (MergeToGrid b t).colorGrid r c = b.colorGrid r c) := by
  obtain ⟨h1, h2⟩ := MergeToGrid_cell b t r c
  constructor
  · intro h
    have := h1 h
    exact ⟨congrArg Prod.fst this, congrArg Prod.snd this⟩
  · intro h
    have := h2 h
    exact ⟨congrArg Prod.fst this, congrArg Prod.snd this⟩

/-- The upright I-piece at the left wall merged into the empty board: cell
(0,0) is written, cell (0,1) is kept. -/
theorem C9_MergeToGrid_frame_witness :
    ((MergeToGrid Board.empty wallI).grid 0 0 = 1 ∧
      (MergeToGrid Board.empty wallI).colorGrid 0 0 = I_PIECE) ∧
    ((MergeToGrid Board.empty wallI).grid 0 1 = 0 ∧
      (MergeToGrid Board.empty wallI).colorGrid 0 1 = 0) :=
  ⟨(C9_MergeToGrid_frame Board.empty wallI 0 0).1 ⟨0, 2, by decide, by decide, by decide⟩,
   (C9_MergeToGrid_frame Board.empty wallI 0 1).2 (by
      rintro ⟨i, j, hs, hy, hx⟩
      revert hs hy hx
      revert i j
      decide)⟩

theorem not_covers_outside_rows (t : Tetromino) (r c : Int) (h : r < t.y ∨ t.y + 3 < r) :
    ¬ covers t r c := by
  rintro ⟨i, j, _, hy, _⟩
  have := i.isLt
  omega

theorem MergeToGrid_row_outside (b : Board) (t : Tetromino) (r : Fin ROWS)
    (h : (r.val : Int) < t.y ∨ t.y + 3 < (r.val : Int)) :
    (MergeToGrid b t).row r = b.row r := by
  have hc : ∀ c : Fin COLS, (MergeToGrid b t).cell r c = b.cell r c := fun c =>
    (MergeToGrid_cell b t r c).2 (not_covers_outside_rows t _ _ h)
  unfold Board.row
  have h1 : (MergeToGrid b t).grid r = b.grid r := funext fun c => congrArg Prod.fst (hc c)
  have h2 : (MergeToGrid b t).colorGrid r = b.colorGrid r :=
    funext fun c => congrArg Prod.snd (hc c)
  rw [h1, h2]

theorem count_rows_in_window (y : Int) (l : List (Fin ROWS)) (hnd : l.Nodup)
    (hw : ∀ r ∈ l, y ≤ (r.val : Int) ∧ (r.val : Int) ≤ y + 3) : l.length ≤ 4 := by
  have hinj : Function.Injective (fun r : Fin ROWS => (r.val : Int)) := by
    intro a c e
    apply Fin.ext
    simp only at e
    omega
  have hnd2 : (l.map fun r : Fin ROWS => (r.val : Int)).Nodup := hnd.map hinj
  have hsub : (l.map fun r : Fin ROWS => (r.val : Int)) ⊆ [y, y + 1, y + 2, y + 3] := by
    intro v hv
    obtain ⟨r, hr, rfl⟩ := List.mem_map.1 hv
    have := hw r hr
    simp only [List.mem_cons, List.mem_singleton, List.not_mem_nil, or_false]
    omega
  have := (List.subperm_of_subset hnd2 hsub).length_le
  simpa using this

theorem fullCount_merge_le (b : Board) (t : Tetromino)
    (hb : ∀ r : Fin ROWS, rowFull b r = false) : (MergeToGrid b t).fullCount ≤ 4 := by
  unfold Board.fullCount Board.rows
  rw [List.ofFn_eq_map, List.filter_map, List.length_map]
  apply count_rows_in_window t.y
  · exact (List.nodup_finRange ROWS).filter _
  · intro r hr
    have hfull : Row.isFull ((MergeToGrid b t).row r) = true := by
      simpa using (List.mem_filter.1 hr).2
    by_contra hcon
    have hout : (r.val : Int) < t.y ∨ t.y + 3 < (r.val : Int) := by omega
    rw [MergeToGrid_row_outside b t r hout, ← rowFull_eq, hb r] at hfull
    cases hfull

/-- C4: on a board without a fully occupied row, `ClearLines` right after
`MergeToGrid` of any piece returns a count between 0 and 4. -/
theorem C4_lock_clears_at_most_four (b : Board) (t : Tetromino)
    (hb : ∀ r : Fin ROWS, rowFull b r = false) :
    ∃ (k : Int) (b1 : Board), ClearLines (MergeToGrid b t) = some (k, b1) ∧ 0 ≤ k ∧ k ≤ 4 := by
  obtain ⟨b1, h1, _⟩ := ClearLines_spec (MergeToGrid b t)
  have h := fullCount_merge_le b t hb
  exact ⟨_, b1, h1, by omega, by omega⟩

/-- The upright I-piece dropped into the free column of `fourRowBoard`. -/
theorem C4_lock_clears_at_most_four_witness :
    (∀ r : Fin ROWS, rowFull fourRowBoard r = false) ∧
    ∃ (k : Int) (b1 : Board),
      ClearLines (MergeToGrid fourRowBoard { wallI with y := 16 }) = some (k, b1) ∧
        0 ≤ k ∧ k ≤ 4 :=
  ⟨by decide, C4_lock_clears_at_most_four fourRowBoard { wallI with y := 16 } (by decide)⟩

/-! ### GetDropPosition -/

theorem row_lt_of_free (b : Board) (t : Tetromino) (i j : Fin 4) (hs : t.shape i j ≠ 0)
    (hf : CheckCollision b t = false) : t.y + i.val < ROWS := by
  by_contra hcon
  have hc : CheckCollision b t = true :=
    (CheckCollision_iff b t).2 ⟨i, j, hs, Or.inr (Or.inr (Or.inl (by omega)))⟩
  rw [hf] at hc
  cases hc

/-- The loop of `GetDropPosition` ends within `max (ROWS - t.y) 0 + 1`
iterations on every piece with an occupied mask cell. -/
theorem GetDropPositionLoop_isSome (b : Board) : ∀ (fuel : Nat) (t : Tetromino) (lowestY : Int),
    t.nonEmpty → ((ROWS : Int) - t.y).toNat + 1 ≤ fuel →
    (GetDropPositionLoop b fuel t lowestY).isSome = true := by
  intro fuel
  induction fuel with
  | zero => intro t _ _ hf; omega
  | succ fuel ih =>
    intro t lowestY hne hf
    rw [GetDropPositionLoop]
    by_cases hc : CheckCollision b { t with y := t.y + 1 } = true
    · rw [if_pos hc]; rfl
    · rw [if_neg hc]
      obtain ⟨i, j, hs⟩ := hne
      have hlt := row_lt_of_free b { t with y := t.y + 1 } i j hs (by simpa using hc)
      have hfuel : ((ROWS : Int) - (t.y + 1)).toNat + 1 ≤ fuel := by
        have := i.isLt
        simp only at hlt
        omega
      exact ih { t with y := t.y + 1 } (t.y + 1) ⟨i, j, hs⟩ hfuel

theorem GetDropPosition_isSome (b : Board) (t : Tetromino) (h : t.nonEmpty) :
    (GetDropPosition b t).isSome = true :=
  GetDropPositionLoop_isSome b _ t t.y h (Nat.le_refl _)

theorem CheckCollision_emptyMask (b : Board) (t : Tetromino) (h : ∀ i j, t.shape i j = 0) :
    CheckCollision b t = false := by
  cases hc : CheckCollision b t with
  | false => rfl
  | true =>
    obtain ⟨i, j, hs, _⟩ := (CheckCollision_iff b t).1 hc
    exact absurd (h i j) hs

/-- On a piece without any occupied mask cell the loop never returns, whatever
the number of iterations. -/
theorem GetDropPositionLoop_emptyMask (b : Board) : ∀ (fuel : Nat) (t : Tetromino)
    (lowestY : Int), (∀ i j, t.shape i j = 0) → GetDropPositionLoop b fuel t lowestY = none := by
  intro fuel
  induction fuel with
  | zero => intro t lowestY _; rfl
  | succ fuel ih =>
    intro t lowestY h
    rw [GetDropPositionLoop, CheckCollision_emptyMask b _ (by exact h)]
    exact ih _ _ h

theorem GetDropPositionLoop_spec (b : Board) : ∀ (fuel : Nat) (t : Tetromino),
    t.nonEmpty → CheckCollision b t = false → ((ROWS : Int) - t.y).toNat + 1 ≤ fuel →
    ∃ r : Int, GetDropPositionLoop b fuel t t.y = some r ∧ t.y ≤ r ∧
      (∀ r1 : Int, t.y ≤ r1 → r1 ≤ r → CheckCollision b (t.atRow r1) = false) ∧
      CheckCollision b (t.atRow (r + 1)) = true := by
  intro fuel
  induction fuel with
  | zero => intro t _ _ hf; omega
  | succ fuel ih =>
    intro t hne hfree hf
    rw [GetDropPositionLoop]
    by_cases hc : CheckCollision b { t with y := t.y + 1 } = true
    · rw [if_pos hc]
      refine ⟨t.y, rfl, Int.le_refl _, ?_, hc⟩
      intro r1 h1 h2
      have e : r1 = t.y := by omega
      rw [e]
      exact hfree
    · rw [if_neg hc]
      have hfree2 : CheckCollision b { t with y := t.y + 1 } = false := by simpa using hc
      obtain ⟨i, j, hs⟩ := hne
      have hlt := row_lt_of_free b { t with y := t.y + 1 } i j hs hfree2
      have hfuel : ((ROWS : Int) - (t.y + 1)).toNat + 1 ≤ fuel := by
        have := i.isLt
        simp only at hlt
        omega
      obtain ⟨r, h1, h2, h3, h4⟩ := ih { t with y := t.y + 1 } ⟨i, j, hs⟩ hfree2 hfuel
      refine ⟨r, h1, ?_, ?_, h4⟩
      · simp only at h2; omega
      · intro r1 h5 h6
        by_cases e : r1 = t.y
        · rw [e]; exact hfree
        · exact h3 r1 (by simp only; omega) h6

/-- C8: for a piece with an occupied mask cell that does not collide where it
is, `GetDropPosition` returns a row `r >= y` such that the piece is
collision-free on every row from `y` to `r` and collides on row `r + 1`.  The
function only computes this row: it returns neither a piece nor a board. -/
theorem C8_GetDropPosition_spec (b : Board) (t : Tetromino) (hne : t.nonEmpty)
    (hfree : CheckCollision b t = false) :
    ∃ r : Int, GetDropPosition b t = some r ∧ t.y ≤ r ∧
      (∀ r1 : Int, t.y ≤ r1 → r1 ≤ r → CheckCollision b (t.atRow r1) = false) ∧
      CheckCollision b (t.atRow (r + 1)) = true :=
  GetDropPositionLoop_spec b _ t hne hfree (Nat.le_refl _)

/-- The T-piece at its spawn position on the empty board. -/
theorem C8_GetDropPosition_spec_witness :
    ∃ r : Int, GetDropPosition Board.empty (tetrominoes 2) = some r ∧ (tetrominoes 2).y ≤ r ∧
      (∀ r1 : Int, (tetrominoes 2).y ≤ r1 → r1 ≤ r →
        CheckCollision Board.empty ((tetrominoes 2).atRow r1) = false) ∧
      CheckCollision Board.empty ((tetrominoes 2).atRow (r + 1)) = true :=
  C8_GetDropPosition_spec Board.empty (tetrominoes 2) ⟨0, 1, by decide⟩ (by decide)

/-! ### RotateTetromino -/

theorem tryKicks_eq (b : Board) (t : Tetromino) (m : Fin 4 → Fin 4 → Int) :
    ∀ ks : List (Int × Int), tryKicks b t m ks = (firstFree b t m ks).map (t.placed m) := by
  intro ks
  induction ks with
  | nil => rfl
  | cons k ks ih =>
    unfold tryKicks firstFree
    rw [List.find?_cons]
    by_cases hc : (!CheckCollision b (t.placed m k)) = true
    · have hc2 : (!CheckCollision b
          { t with shape := m, x := t.x + k.1, y := t.y + k.2 }) = true := hc
      rw [if_pos hc2, hc]
      rfl
    · have hc2 : ¬ (!CheckCollision b
          { t with shape := m, x := t.x + k.1, y := t.y + k.2 }) = true := hc
      have hc3 : (!CheckCollision b (t.placed m k)) = false := by simpa using hc
      rw [if_neg hc2, hc3, ih]
      rfl

theorem placed_zero (t : Tetromino) (m : Fin 4 → Fin 4 → Int) :
    t.placed m (0, 0) = { t with shape := m } := by
  simp [Tetromino.placed]

theorem specKickOrder_eq (t : Tetromino) :
    specKickOrder t = (0, 0) :: (kicks ++ if t.type = I_PIECE then i_kicks else []) := rfl

/-- The result of `RotateTetromino` on a piece that is not an O-piece: the first
collision-free candidate of the specification's order decides the result. -/
theorem RotateTetromino_eq_firstFree (b : Board) (t : Tetromino) (hO : t.type ≠ O_PIECE) :
    RotateTetromino b t =
      match firstFree b t (rotateShape t.shape) (specKickOrder t) with
      | some d => t.placed (rotateShape t.shape) d
      | none => t := by
  unfold RotateTetromino
  rw [if_neg hO, specKickOrder_eq]
  simp only [firstFree, List.find?_cons, List.find?_append, placed_zero]
  by_cases h0 : (!CheckCollision b { t with shape := rotateShape t.shape }) = true
  · rw [if_pos h0, h0]
    exact (placed_zero t _).symm
  · have h1 : (!CheckCollision b { t with shape := rotateShape t.shape }) = false := by
      simpa using h0
    rw [if_neg h0, h1, tryKicks_eq]
    simp only [firstFree]
    cases hk : List.find? (fun d => !CheckCollision b (t.placed (rotateShape t.shape) d)) kicks with
    | some d => rfl
    | none =>
      by_cases hI : t.type = I_PIECE
      · simp only [Option.map_none', if_pos hI, Option.none_or, tryKicks_eq, firstFree]
        cases List.find? (fun d => !CheckCollision b (t.placed (rotateShape t.shape) d))
          i_kicks <;> rfl
      · simp only [Option.map_none', if_neg hI, Option.none_or, List.find?_nil]

theorem find?_first {α : Type} (p : α → Bool) (d : α) (post : List α) :
    ∀ pre : List α, (∀ e ∈ pre, p e = false) → p d = true →
      (pre ++ d :: post).find? p = some d := by
  intro pre
  induction pre with
  | nil => intro _ hd; simp [List.find?_cons, hd]
  | cons a pre ih =>
    intro hpre hd
    have ha : p a = false := hpre a (by simp)
    rw [List.cons_append, List.find?_cons, ha]
    exact ih (fun e he => hpre e (by simp [he])) hd

/-- C6: for a piece that is not an O-piece, when some candidate offset of the
order (0,0), (-1,0), (1,0), (0,-1), (0,1), (-1,-1) and, for an I-piece,
(-2,0), (2,0), (0,-2) places the rotated mask collision-free,
`RotateTetromino` takes the rotated mask at the first such offset of that
order: if every candidate before `d` collides and `d` does not, the result is
the rotated mask at `(x + dx, y + dy)`. -/
theorem C6_RotateTetromino_first_free (b : Board) (t : Tetromino) (hO : t.type ≠ O_PIECE)
    (pre post : List (Int × Int)) (d : Int × Int)
    (hsplit : specKickOrder t = pre ++ d :: post)
    (hpre : ∀ e ∈ pre, CheckCollision b (t.placed (rotateShape t.shape) e) = true)
    (hd : CheckCollision b (t.placed (rotateShape t.shape) d) = false) :
    RotateTetromino b t =
      { t with shape := rotateShape t.shape, x := t.x + d.1, y := t.y + d.2 } := by
  rw [RotateTetromino_eq_firstFree b t hO]
  have hfind : firstFree b t (rotateShape t.shape) (specKickOrder t) = some d := by
    unfold firstFree
    rw [hsplit]
    apply find?_first
    · intro e he
      rw [hpre e he]; rfl
    · rw [hd]; rfl
  rw [hfind]
  rfl

/-- The upright I-piece at the left wall of the empty board: the first seven
candidates collide with the wall and the kick `(2, 0)` is taken. -/
theorem C6_RotateTetromino_first_free_witness :
    RotateTetromino Board.empty wallI =
      { wallI with shape := rotateShape wallI.shape, x := wallI.x + 2, y := wallI.y + 0 } :=
  C6_RotateTetromino_first_free Board.empty wallI (by decide)
    [(0, 0), (-1, 0), (1, 0), (0, -1), (0, 1), (-1, -1), (-2, 0)] [(0, -2)] (2, 0)
    (by decide) (by decide) (by decide)

theorem RotateTetromino_O (b : Board) (t : Tetromino) (hO : t.type = O_PIECE) :
    RotateTetromino b t = t := by
  unfold RotateTetromino
  rw [if_pos hO]

theorem RotateTetromino_all_collide (b : Board) (t : Tetromino) (hO : t.type ≠ O_PIECE)
    (h : ∀ d ∈ specKickOrder t,
      CheckCollision b (t.placed (rotateShape t.shape) d) = true) :
    RotateTetromino b t = t := by
  rw [RotateTetromino_eq_firstFree b t hO]
  have hnone : firstFree b t (rotateShape t.shape) (specKickOrder t) = none := by
    unfold firstFree
    rw [List.find?_eq_none]
    intro d hd
    rw [h d hd]
    simp
  rw [hnone]

/-- C7: `RotateTetromino` leaves the piece (mask, x, y, type) as it is when
the piece is an O-piece, and when it is not but the rotated mask collides at
every candidate offset; it is a total function that returns a piece only, so
the rotate key changes no field of the session but the current piece. -/
theorem C7_RotateTetromino_unchanged (b : Board) (t : Tetromino) (g : Game)
    (h : t.type = O_PIECE ∨ ∀ d ∈ specKickOrder t,
      CheckCollision b (t.placed (rotateShape t.shape) d) = true) :
    RotateTetromino b t = t ∧
      (HandleInput_rotate g).board = g.board ∧ (HandleInput_rotate g).state = g.state := by
  refine ⟨?_, rfl, rfl⟩
  by_cases hO : t.type = O_PIECE
  · exact RotateTetromino_O b t hO
  · rcases h with h | h
    · exact absurd h hO
    · exact RotateTetromino_all_collide b t hO h

/-- The upright I-piece inside a well one column wide: every candidate
collides and the piece stays as it is. -/
theorem C7_RotateTetromino_unchanged_witness :
    RotateTetromino wellBoard wellI = wellI ∧
      (HandleInput_rotate gapGame).board = gapGame.board ∧
      (HandleInput_rotate gapGame).state = gapGame.state :=
  C7_RotateTetromino_unchanged wellBoard wellI gapGame (Or.inr (by decide))

theorem rotateShape_four (s : Fin 4 → Fin 4 → Int) :
    rotateShape (rotateShape (rotateShape (rotateShape s))) = s := by
  funext i j
  fin_cases i <;> fin_cases j <;> rfl

theorem RotateTetromino_in_place (b : Board) (t : Tetromino) (hO : t.type ≠ O_PIECE)
    (hfree : CheckCollision b { t with shape := rotateShape t.shape } = false) :
    RotateTetromino b t = { t with shape := rotateShape t.shape } := by
  unfold RotateTetromino
  rw [if_neg hO]
  simp only [hfree, Bool.not_false, if_true]

/-- C5 (amended): four successive `RotateTetromino` calls give back the mask
and the position of the piece when the piece is an O-piece (one call already
does), and when each of the four successive rotated masks is collision-free at
the position of the piece, so that no call is kicked or dropped. -/
theorem C5_four_rotations_when_in_place (b : Board) (t : Tetromino)
    (h : t.type = O_PIECE ∨ ∀ n : Fin 4,
      CheckCollision b { t with shape := rotateShape^[n.val + 1] t.shape } = false) :
    (RotateTetromino b)^[4] t = t ∧ (t.type = O_PIECE → RotateTetromino b t = t) := by
  refine ⟨?_, RotateTetromino_O b t⟩
  by_cases hO : t.type = O_PIECE
  · simp only [Function.iterate_succ, Function.iterate_zero, Function.comp_apply,
      RotateTetromino_O b t hO, id]
  · rcases h with h | h
    · exact absurd h hO
    · have h1 := h 0
      have h2 := h 1
      have h3 := h 2
      have h4 := h 3
      simp only [Function.iterate_succ, Function.iterate_zero, Function.comp_apply, id,
        Fin.val_zero, Fin.val_one, Fin.val_two, zero_add] at h1 h2 h3 h4
      have e1 := RotateTetromino_in_place b t hO h1
      have e2 := RotateTetromino_in_place b { t with shape := rotateShape t.shape } hO h2
      have e3 := RotateTetromino_in_place b
        { t with shape := rotateShape (rotateShape t.shape) } hO h3
      have e4 := RotateTetromino_in_place b
        { t with shape := rotateShape (rotateShape (rotateShape t.shape)) } hO (by
          simpa using h4)
      simp only [Function.iterate_succ, Function.iterate_zero, Function.comp_apply, id]
      rw [e1, e2, e3, e4]
      simp only [rotateShape_four]

/-- The T-piece at its spawn position on the empty board. -/
theorem C5_four_rotations_when_in_place_witness :
    (RotateTetromino Board.empty)^[4] (tetrominoes 2) = tetrominoes 2 ∧
      ((tetrominoes 2).type = O_PIECE →
        RotateTetromino Board.empty (tetrominoes 2) = tetrominoes 2) :=
  C5_four_rotations_when_in_place Board.empty (tetrominoes 2) (Or.inr (by decide))

/-- C5 as stated fails: on the empty board the upright I-piece at the left wall
is kicked two columns to the right by its first rotation, and after four
rotations it stands at `x = 0` instead of `x = -2`. -/
theorem C5_counterexample :
    ((RotateTetromino Board.empty)^[4] wallI).x = 0 ∧ wallI.x = -2 ∧
      (RotateTetromino Board.empty)^[4] wallI ≠ wallI := by
  refine ⟨by decide, by decide, ?_⟩
  intro h
  have hx := congrArg Tetromino.x h
  revert hx
  decide

/-! ### Scoring of a lock -/

theorem ClearLines_count {b : Board} {n : Int}
    (h : (ClearLines b).map Prod.fst = some n) : ∃ b2, ClearLines b = some (n, b2) := by
  cases hc : ClearLines b with
  | none => rw [hc] at h; cases h
  | some p =>
    rw [hc] at h
    obtain ⟨k, b2⟩ := p
    simp only [Option.map_some', Option.some.injEq] at h
    exact ⟨b2, by rw [h]⟩

theorem specBasePoints_cases (n : Int) (hn : 1 ≤ n ∧ n ≤ 4) (L : Int) :
    (if n = 1 then 100 * L else if n = 2 then 300 * L else if n = 3 then 500 * L
      else if n = 4 then 800 * L else 0) = specBasePoints n * L := by
  obtain ⟨h1, h4⟩ := hn
  have hcases : n = 1 ∨ n = 2 ∨ n = 3 ∨ n = 4 := by omega
  rcases hcases with h | h | h | h <;> subst h <;> simp [specBasePoints]

theorem HandleInput_score_score (g : Game) (n : Int) (hcombo : g.combo = 0)
    (hn : 1 ≤ n ∧ n ≤ 4) :
    (HandleInput_score g n).score = g.score + specBasePoints n * g.level := by
  have hpos : n > 0 := by omega
  have hc : ¬ (g.combo + 1 > 1) := by omega
  unfold HandleInput_score
  simp only [if_pos hpos, if_neg hc, specBasePoints_cases n hn]

theorem HandleInput_advance_score (g : Game) (rnd : Nat) :
    (HandleInput_advance g rnd).score = g.score := by
  unfold HandleInput_advance
  simp only []
  split <;> rfl

theorem UpdateGame_score_score (g : Game) (n : Int) (hcombo : g.combo = 0)
    (hn : 1 ≤ n ∧ n ≤ 4) :
    (UpdateGame_score g n).score = g.score + specBasePoints n * g.level := by
  have hpos : n > 0 := by omega
  have hc : ¬ (g.combo + 1 > 1) := by omega
  unfold UpdateGame_score
  simp only [if_pos hpos, if_neg hc, specBasePoints_cases n hn]

theorem UpdateGame_advance_score (g : Game) (rnd : Nat) :
    (UpdateGame_advance g rnd).score = g.score := by
  unfold UpdateGame_advance
  simp only []
  split <;> rfl

theorem EvaluateAndExecuteBestMove_score_score (g : Game) (n : Int) (hcombo : g.combo = 0)
    (hn : 1 ≤ n ∧ n ≤ 4) :
    (EvaluateAndExecuteBestMove_score g n).score = g.score + specBasePoints n * g.level := by
  have hpos : n > 0 := by omega
  have hc : ¬ (g.combo + 1 > 1) := by omega
  unfold EvaluateAndExecuteBestMove_score
  simp only [if_pos hpos, if_neg hc, specBasePoints_cases n hn]

theorem EvaluateAndExecuteBestMove_advance_score (g : Game) (rnd : Nat) :
    (EvaluateAndExecuteBestMove_advance g rnd).score = g.score := by
  unfold EvaluateAndExecuteBestMove_advance
  simp only []
  split <;> rfl

/-- C10: a lock made with combo 0 at level `L` that clears `n` rows, `n` from
1 to 4, adds exactly 100·L, 300·L, 500·L or 800·L to the score (so 100, 300,
500 or 800 at level 1), on each of the three lock paths: hard drop, gravity
lock and lock of the auto-player; the new score is again a value of `int`.
This is for points and a new score that fit in the 32-bit `int` of the C code:
`points = 100 * game.level` and `game.score += points` are the sums of the
model exactly then. -/
theorem C10_lock_score_without_combo (g : Game) (rnd : Nat) (n : Int)
    (hcombo : g.combo = 0) (hn : 1 ≤ n ∧ n ≤ 4)
    (hfit : fitsInt32 (specBasePoints n * g.level) ∧
      fitsInt32 (g.score + specBasePoints n * g.level)) :
    (∀ dropY : Int, GetDropPosition g.board g.current = some dropY →
      (ClearLines (MergeToGrid g.board { g.current with y := dropY })).map Prod.fst = some n →
      ∃ g1, HandleInput_hardDrop g rnd = some g1 ∧
        g1.score = g.score + specBasePoints n * g.level ∧ fitsInt32 g1.score ∧
        (g.level = 1 → g1.score = g.score + specBasePoints n)) ∧
    (CheckCollision g.board { g.current with y := g.current.y + 1 } = true →
      (ClearLines (MergeToGrid g.board g.current)).map Prod.fst = some n →
      ∃ g1, UpdateGame_gravity g rnd = some g1 ∧
        g1.score = g.score + specBasePoints n * g.level ∧ fitsInt32 g1.score ∧
        (g.level = 1 → g1.score = g.score + specBasePoints n)) ∧
    (∀ dropY : Int, GetDropPosition g.board g.current = some dropY →
      (ClearLines (MergeToGrid g.board { g.current with y := dropY })).map Prod.fst = some n →
      ∃ g1, EvaluateAndExecuteBestMove_lock g rnd = some g1 ∧
        g1.score = g.score + specBasePoints n * g.level ∧ fitsInt32 g1.score ∧
        (g.level = 1 → g1.score = g.score + specBasePoints n)) := by
  have hlevel : ∀ s : Int, s = g.score + specBasePoints n * g.level →
      g.level = 1 → s = g.score + specBasePoints n := by
    intro s hs hl
    rw [hs, hl, Int.mul_one]
  refine ⟨?_, ?_, ?_⟩
  · intro dropY hdrop hclear
    obtain ⟨b2, hb2⟩ := ClearLines_count hclear
    have hscore : (HandleInput_advance (HandleInput_score
        { g with current := { g.current with y := dropY }, board := b2 } n) rnd).score
          = g.score + specBasePoints n * g.level := by
      rw [HandleInput_advance_score]
      exact HandleInput_score_score
        { g with current := { g.current with y := dropY }, board := b2 } n hcombo hn
    refine ⟨_, ?_, hscore, by rw [hscore]; exact hfit.2, hlevel _ hscore⟩
    unfold HandleInput_hardDrop
    rw [hdrop]
    simp only []
    rw [hb2]
  · intro hcol hclear
    obtain ⟨b2, hb2⟩ := ClearLines_count hclear
    have hscore : (UpdateGame_advance (UpdateGame_score
        { g with board := b2, softDropY := F32.ofInt g.current.y } n) rnd).score
          = g.score + specBasePoints n * g.level := by
      rw [UpdateGame_advance_score]
      exact UpdateGame_score_score
        { g with board := b2, softDropY := F32.ofInt g.current.y } n hcombo hn
    refine ⟨{ UpdateGame_advance (UpdateGame_score
        { g with board := b2, softDropY := F32.ofInt g.current.y } n) rnd
          with timer := F32.zero }, ?_, hscore, ?_, hlevel _ hscore⟩
    · unfold UpdateGame_gravity
      rw [if_pos hcol, hb2]
    · show fitsInt32 (UpdateGame_advance (UpdateGame_score
        { g with board := b2, softDropY := F32.ofInt g.current.y } n) rnd).score
      rw [hscore]
      exact hfit.2
  · intro dropY hdrop hclear
    obtain ⟨b2, hb2⟩ := ClearLines_count hclear
    have hscore : (EvaluateAndExecuteBestMove_advance (EvaluateAndExecuteBestMove_score
        { g with current := { g.current with y := dropY }, board := b2 } n) rnd).score
          = g.score + specBasePoints n * g.level := by
      rw [EvaluateAndExecuteBestMove_advance_score]
      exact EvaluateAndExecuteBestMove_score_score
        { g with current := { g.current with y := dropY }, board := b2 } n hcombo hn
    refine ⟨_, ?_, hscore, by rw [hscore]; exact hfit.2, hlevel _ hscore⟩
    unfold EvaluateAndExecuteBestMove_lock
    rw [hdrop]
    simp only []
    rw [hb2]

/-- The I-piece hard-dropped into the gap of row 19 at level 1 with combo 0
and score 0: the points 100 and the new score fit in `int`, one row is cleared
and the score goes from 0 to 100. -/
theorem C10_lock_score_without_combo_witness :
    (fitsInt32 (specBasePoints 1 * gapGame.level) ∧
      fitsInt32 (gapGame.score + specBasePoints 1 * gapGame.level)) ∧
    ∃ g1, HandleInput_hardDrop gapGame 0 = some g1 ∧ g1.score = 100 ∧ fitsInt32 g1.score := by
  have hfit : fitsInt32 (specBasePoints 1 * gapGame.level) ∧
      fitsInt32 (gapGame.score + specBasePoints 1 * gapGame.level) := by
    unfold fitsInt32
    decide
  obtain ⟨g1, h1, _, h2, h3⟩ :=
    (C10_lock_score_without_combo gapGame 0 1 rfl ⟨by decide, by decide⟩ hfit).1 18
      (by decide) (by decide)
  exact ⟨hfit, g1, h1, h3 rfl, h2⟩

/-! ### HoldPiece -/

theorem HoldPiece_disabled (g : Game) (rnd : Nat) (h : g.canHold = false) :
    HoldPiece g rnd = g := by
  unfold HoldPiece
  simp [h]

theorem HoldPiece_canHold (g : Game) (rnd : Nat) : (HoldPiece g rnd).canHold = false := by
  unfold HoldPiece
  cases h : g.canHold <;> simp [h]

/-- C14: `HoldPiece` called while `canHold` is false returns the session as it
is, every field included; hence a second `HoldPiece` right after a first one
changes nothing (the first call leaves `canHold` false). -/
theorem C14_HoldPiece_disabled_noop (g : Game) :
    (∀ rnd : Nat, g.canHold = false → HoldPiece g rnd = g) ∧
    (∀ rnd1 rnd2 : Nat, HoldPiece (HoldPiece g rnd1) rnd2 = HoldPiece g rnd1) :=
  ⟨fun rnd h => HoldPiece_disabled g rnd h,
   fun rnd1 rnd2 => HoldPiece_disabled _ rnd2 (HoldPiece_canHold g rnd1)⟩

/-- After a first hold the session refuses a second one. -/
theorem C14_HoldPiece_disabled_noop_witness :
    HoldPiece (HoldPiece gapGame 5) 3 = HoldPiece gapGame 5 :=
  (C14_HoldPiece_disabled_noop gapGame).2 5 3

theorem HoldPiece_first (g : Game) (rnd : Nat) (hc : g.canHold = true)
    (hh : g.hasHeld = false) :
    HoldPiece g rnd =
      { g with
        held := { g.current with x := 3, y := 0 }
        current := g.next
        next := GetRandomTetromino rnd
        hasHeld := true
        softDropY := F32.ofInt g.next.y
        canHold := false } := by
  unfold HoldPiece
  simp [hc, hh]

theorem HoldPiece_swap (g : Game) (rnd : Nat) (hc : g.canHold = true)
    (hh : g.hasHeld = true) :
    HoldPiece g rnd =
      { g with
        current := { g.held with x := 3, y := 0 }
        held := g.current
        softDropY := F32.ofInt 0
        canHold := false } := by
  unfold HoldPiece
  simp [hc, hh]

/-- C15 (code evaluated at the failing input): on a first hold of the O-piece
the held piece is put at `(3, 0)`, whereas the spawn position of the O-piece
is `(4, 0)`; the other effects are as claimed (current is the former next,
a new next, `hasHeld` true, `canHold` false, board, score, lines, level and
combo kept). -/
theorem C15_HoldPiece_first_hold_O_piece :
    holdGameO.canHold = true ∧ holdGameO.hasHeld = false ∧
    holdGameO.current.type = O_PIECE ∧
    spawnPosition holdGameO.current.type = some (4, 0) ∧
    ((HoldPiece holdGameO 0).held.x, (HoldPiece holdGameO 0).held.y) = (3, 0) ∧
    (HoldPiece holdGameO 0).held.shape = holdGameO.current.shape ∧
    (HoldPiece holdGameO 0).held.type = holdGameO.current.type ∧
    (HoldPiece holdGameO 0).current = holdGameO.next ∧
    (HoldPiece holdGameO 0).next = GetRandomTetromino 0 ∧
    (HoldPiece holdGameO 0).hasHeld = true ∧ (HoldPiece holdGameO 0).canHold = false ∧
    (HoldPiece holdGameO 0).board = holdGameO.board ∧
    (HoldPiece holdGameO 0).score = holdGameO.score ∧
    (HoldPiece holdGameO 0).lines = holdGameO.lines ∧
    (HoldPiece holdGameO 0).level = holdGameO.level ∧
    (HoldPiece holdGameO 0).combo = holdGameO.combo := by
  rw [HoldPiece_first holdGameO 0 rfl rfl]
  refine ⟨rfl, rfl, rfl, by decide, rfl, rfl, rfl, rfl, rfl, rfl, rfl, rfl, rfl, rfl, rfl, rfl⟩

/-- C16 (code evaluated at the failing input): on a swap the new current piece
is the former held piece at `(3, 0)`, but the new held piece is the former
current piece with the position it had on the board, here `(5, 7)`, not its
spawn position `(3, 0)`; next is kept and `canHold` becomes false. -/
theorem C16_HoldPiece_swap_keeps_position :
    swapGame.canHold = true ∧ swapGame.hasHeld = true ∧
    (HoldPiece swapGame 0).current = { swapGame.held with x := 3, y := 0 } ∧
    (HoldPiece swapGame 0).held = swapGame.current ∧
    ((HoldPiece swapGame 0).held.x, (HoldPiece swapGame 0).held.y) = (5, 7) ∧
    spawnPosition (HoldPiece swapGame 0).held.type = some (3, 0) ∧
    (HoldPiece swapGame 0).next = swapGame.next ∧
    (HoldPiece swapGame 0).canHold = false := by
  rw [HoldPiece_swap swapGame 0 rfl rfl]
  refine ⟨rfl, rfl, rfl, rfl, rfl, by decide, rfl, rfl⟩

/-! ### Frame of the scoring and advance blocks -/

theorem HandleInput_score_zero (g : Game) : HandleInput_score g 0 = { g with combo := 0 } := by
  unfold HandleInput_score
  rw [if_neg (by decide)]

theorem HandleInput_score_frame (g : Game) (n : Int) :
    (HandleInput_score g n).next = g.next ∧ (HandleInput_score g n).board = g.board ∧
      (HandleInput_score g n).state = g.state ∧ (HandleInput_score g n).current = g.current ∧
      (HandleInput_score g n).autoPlayEnabled = g.autoPlayEnabled := by
  unfold HandleInput_score
  split <;> exact ⟨rfl, rfl, rfl, rfl, rfl⟩

theorem HandleInput_advance_frame (g : Game) (rnd : Nat) :
    (HandleInput_advance g rnd).combo = g.combo ∧ (HandleInput_advance g rnd).lines = g.lines ∧
      (HandleInput_advance g rnd).level = g.level ∧ (HandleInput_advance g rnd).delay = g.delay ∧
      (HandleInput_advance g rnd).highScore = g.highScore ∧
      (HandleInput_advance g rnd).board = g.board ∧ (HandleInput_advance g rnd).current = g.next ∧
      (HandleInput_advance g rnd).canHold = true := by
  unfold HandleInput_advance
  simp only []
  split <;> exact ⟨rfl, rfl, rfl, rfl, rfl, rfl, rfl, rfl⟩

theorem HandleInput_advance_state (g : Game) (rnd : Nat) :
    (HandleInput_advance g rnd).state =
      if CheckCollision g.board g.next then GameState.STATE_GAMEOVER else g.state := by
  unfold HandleInput_advance
  simp only []
  split <;> rfl

theorem UpdateGame_score_zero (g : Game) : UpdateGame_score g 0 = { g with combo := 0 } := by
  unfold UpdateGame_score
  rw [if_neg (by decide)]

theorem UpdateGame_score_frame (g : Game) (n : Int) :
    (UpdateGame_score g n).next = g.next ∧ (UpdateGame_score g n).board = g.board ∧
      (UpdateGame_score g n).state = g.state ∧ (UpdateGame_score g n).current = g.current ∧
      (UpdateGame_score g n).autoPlayEnabled = g.autoPlayEnabled := by
  unfold UpdateGame_score
  split <;> exact ⟨rfl, rfl, rfl, rfl, rfl⟩

theorem UpdateGame_advance_frame (g : Game) (rnd : Nat) :
    (UpdateGame_advance g rnd).combo = g.combo ∧ (UpdateGame_advance g rnd).lines = g.lines ∧
      (UpdateGame_advance g rnd).level = g.level ∧ (UpdateGame_advance g rnd).delay = g.delay ∧
      (UpdateGame_advance g rnd).highScore = g.highScore ∧
      (UpdateGame_advance g rnd).board = g.board ∧ (UpdateGame_advance g rnd).current = g.next ∧
      (UpdateGame_advance g rnd).canHold = true := by
  unfold UpdateGame_advance
  simp only []
  split <;> exact ⟨rfl, rfl, rfl, rfl, rfl, rfl, rfl, rfl⟩

theorem UpdateGame_advance_state (g : Game) (rnd : Nat) :
    (UpdateGame_advance g rnd).state =
      if CheckCollision g.board g.next then GameState.STATE_GAMEOVER else g.state := by
  unfold UpdateGame_advance
  simp only []
  split <;> rfl

theorem EvaluateAndExecuteBestMove_score_zero (g : Game) : EvaluateAndExecuteBestMove_score g 0 = { g with combo := 0 } := by
  unfold EvaluateAndExecuteBestMove_score
  rw [if_neg (by decide)]

theorem EvaluateAndExecuteBestMove_score_frame (g : Game) (n : Int) :
    (EvaluateAndExecuteBestMove_score g n).next = g.next ∧ (EvaluateAndExecuteBestMove_score g n).board = g.board ∧
      (EvaluateAndExecuteBestMove_score g n).state = g.state ∧ (EvaluateAndExecuteBestMove_score g n).current = g.current ∧
      (EvaluateAndExecuteBestMove_score g n).autoPlayEnabled = g.autoPlayEnabled := by
  unfold EvaluateAndExecuteBestMove_score
  split <;> exact ⟨rfl, rfl, rfl, rfl, rfl⟩

theorem EvaluateAndExecuteBestMove_advance_frame (g : Game) (rnd : Nat) :
    (EvaluateAndExecuteBestMove_advance g rnd).combo = g.combo ∧ (EvaluateAndExecuteBestMove_advance g rnd).lines = g.lines ∧
      (EvaluateAndExecuteBestMove_advance g rnd).level = g.level ∧ (EvaluateAndExecuteBestMove_advance g rnd).delay = g.delay ∧
      (EvaluateAndExecuteBestMove_advance g rnd).highScore = g.highScore ∧
      (EvaluateAndExecuteBestMove_advance g rnd).board = g.board ∧ (EvaluateAndExecuteBestMove_advance g rnd).current = g.next ∧
      (EvaluateAndExecuteBestMove_advance g rnd).canHold = true := by
  unfold EvaluateAndExecuteBestMove_advance
  simp only []
  split <;> exact ⟨rfl, rfl, rfl, rfl, rfl, rfl, rfl, rfl⟩

theorem EvaluateAndExecuteBestMove_advance_state (g : Game) (rnd : Nat) :
    (EvaluateAndExecuteBestMove_advance g rnd).state =
      if CheckCollision g.board g.next then GameState.STATE_GAMEOVER else g.state := by
  unfold EvaluateAndExecuteBestMove_advance
  simp only []
  split <;> rfl

/-- C12: a lock that clears zero rows leaves the combo at 0 and keeps score,
lines, level, delay and high score, on each of the three lock paths. -/
theorem C12_lock_without_clear (g : Game) (rnd : Nat) :
    (∀ dropY : Int, GetDropPosition g.board g.current = some dropY →
      (ClearLines (MergeToGrid g.board { g.current with y := dropY })).map Prod.fst = some 0 →
      ∃ g1, HandleInput_hardDrop g rnd = some g1 ∧ g1.combo = 0 ∧
        g1.score = g.score ∧ g1.lines = g.lines ∧ g1.level = g.level ∧
        g1.delay = g.delay ∧ g1.highScore = g.highScore) ∧
    (CheckCollision g.board { g.current with y := g.current.y + 1 } = true →
      (ClearLines (MergeToGrid g.board g.current)).map Prod.fst = some 0 →
      ∃ g1, UpdateGame_gravity g rnd = some g1 ∧ g1.combo = 0 ∧
        g1.score = g.score ∧ g1.lines = g.lines ∧ g1.level = g.level ∧
        g1.delay = g.delay ∧ g1.highScore = g.highScore) ∧
    (∀ dropY : Int, GetDropPosition g.board g.current = some dropY →
      (ClearLines (MergeToGrid g.board { g.current with y := dropY })).map Prod.fst = some 0 →
      ∃ g1, EvaluateAndExecuteBestMove_lock g rnd = some g1 ∧ g1.combo = 0 ∧
        g1.score = g.score ∧ g1.lines = g.lines ∧ g1.level = g.level ∧
        g1.delay = g.delay ∧ g1.highScore = g.highScore) := by
  refine ⟨?_, ?_, ?_⟩
  · intro dropY hdrop hclear
    obtain ⟨b2, hb2⟩ := ClearLines_count hclear
    refine ⟨HandleInput_advance (HandleInput_score
        { g with current := { g.current with y := dropY }, board := b2 } 0) rnd, ?_, ?_⟩
    · unfold HandleInput_hardDrop
      rw [hdrop]
      simp only []
      rw [hb2]
    · obtain ⟨h1, h2, h3, h4, h5, _⟩ := HandleInput_advance_frame
        (HandleInput_score
          { g with current := { g.current with y := dropY }, board := b2 } 0) rnd
      rw [HandleInput_advance_score, h1, h2, h3, h4, h5, HandleInput_score_zero]
      exact ⟨rfl, rfl, rfl, rfl, rfl, rfl⟩
  · intro hcol hclear
    obtain ⟨b2, hb2⟩ := ClearLines_count hclear
    refine ⟨{ UpdateGame_advance (UpdateGame_score
        { g with board := b2, softDropY := F32.ofInt g.current.y } 0) rnd
          with timer := F32.zero }, ?_, ?_⟩
    · unfold UpdateGame_gravity
      rw [if_pos hcol, hb2]
    · obtain ⟨h1, h2, h3, h4, h5, _⟩ := UpdateGame_advance_frame
        (UpdateGame_score { g with board := b2, softDropY := F32.ofInt g.current.y } 0) rnd
      simp only []
      rw [UpdateGame_advance_score, h1, h2, h3, h4, h5, UpdateGame_score_zero]
      exact ⟨rfl, rfl, rfl, rfl, rfl, rfl⟩
  · intro dropY hdrop hclear
    obtain ⟨b2, hb2⟩ := ClearLines_count hclear
    refine ⟨EvaluateAndExecuteBestMove_advance (EvaluateAndExecuteBestMove_score
        { g with current := { g.current with y := dropY }, board := b2 } 0) rnd, ?_, ?_⟩
    · unfold EvaluateAndExecuteBestMove_lock
      rw [hdrop]
      simp only []
      rw [hb2]
    · obtain ⟨h1, h2, h3, h4, h5, _⟩ := EvaluateAndExecuteBestMove_advance_frame
        (EvaluateAndExecuteBestMove_score
          { g with current := { g.current with y := dropY }, board := b2 } 0) rnd
      rw [EvaluateAndExecuteBestMove_advance_score, h1, h2, h3, h4, h5,
        EvaluateAndExecuteBestMove_score_zero]
      exact ⟨rfl, rfl, rfl, rfl, rfl, rfl⟩

/-- The O-piece hard-dropped on the empty board clears nothing. -/
theorem C12_lock_without_clear_witness :
    ∃ g1, HandleInput_hardDrop holdGameO 0 = some g1 ∧ g1.combo = 0 ∧
      g1.score = holdGameO.score ∧ g1.lines = holdGameO.lines ∧
      g1.level = holdGameO.level ∧ g1.delay = holdGameO.delay ∧
      g1.highScore = holdGameO.highScore :=
  (C12_lock_without_clear holdGameO 0).1 18 (by decide) (by decide)

/-- C17: after a lock made in the Playing state, on each of the three lock
paths and whatever the number of cleared rows, the current piece is the former
next piece, `canHold` is true, and the state is Game-Over exactly when that
piece collides with the board left by `ClearLines`; otherwise it is still
Playing. -/
theorem C17_lock_advances_piece (g : Game) (rnd : Nat)
    (hplay : g.state = GameState.STATE_PLAYING) :
    (∀ (dropY n : Int) (b2 : Board), GetDropPosition g.board g.current = some dropY →
      ClearLines (MergeToGrid g.board { g.current with y := dropY }) = some (n, b2) →
      ∃ g1, HandleInput_hardDrop g rnd = some g1 ∧ g1.board = b2 ∧
        g1.current = g.next ∧ g1.canHold = true ∧
        (g1.state = GameState.STATE_GAMEOVER ↔ CheckCollision b2 g.next = true) ∧
        (CheckCollision b2 g.next = false → g1.state = GameState.STATE_PLAYING)) ∧
    (∀ (n : Int) (b2 : Board),
      CheckCollision g.board { g.current with y := g.current.y + 1 } = true →
      ClearLines (MergeToGrid g.board g.current) = some (n, b2) →
      ∃ g1, UpdateGame_gravity g rnd = some g1 ∧ g1.board = b2 ∧
        g1.current = g.next ∧ g1.canHold = true ∧
        (g1.state = GameState.STATE_GAMEOVER ↔ CheckCollision b2 g.next = true) ∧
        (CheckCollision b2 g.next = false → g1.state = GameState.STATE_PLAYING)) ∧
    (∀ (dropY n : Int) (b2 : Board), GetDropPosition g.board g.current = some dropY →
      ClearLines (MergeToGrid g.board { g.current with y := dropY }) = some (n, b2) →
      ∃ g1, EvaluateAndExecuteBestMove_lock g rnd = some g1 ∧ g1.board = b2 ∧
        g1.current = g.next ∧ g1.canHold = true ∧
        (g1.state = GameState.STATE_GAMEOVER ↔ CheckCollision b2 g.next = true) ∧
        (CheckCollision b2 g.next = false → g1.state = GameState.STATE_PLAYING)) := by
  have hstate : ∀ (s : GameState) (c : Bool),
      s = (if c = true then GameState.STATE_GAMEOVER else GameState.STATE_PLAYING) →
      (s = GameState.STATE_GAMEOVER ↔ c = true) ∧
        (c = false → s = GameState.STATE_PLAYING) := by
    intro s c hs
    cases c <;> simp [hs]
  refine ⟨?_, ?_, ?_⟩
  · intro dropY n b2 hdrop hb2
    refine ⟨HandleInput_advance (HandleInput_score
        { g with current := { g.current with y := dropY }, board := b2 } n) rnd, ?_, ?_⟩
    · unfold HandleInput_hardDrop
      rw [hdrop]
      simp only []
      rw [hb2]
    · obtain ⟨h1, h2, h3, _, _⟩ := HandleInput_score_frame
        { g with current := { g.current with y := dropY }, board := b2 } n
      obtain ⟨_, _, _, _, _, h6, h7, h8⟩ := HandleInput_advance_frame
        (HandleInput_score
          { g with current := { g.current with y := dropY }, board := b2 } n) rnd
      have h9 := HandleInput_advance_state (HandleInput_score
          { g with current := { g.current with y := dropY }, board := b2 } n) rnd
      rw [h1, h2, h3] at h9
      rw [h2] at h6
      rw [h1] at h7
      exact ⟨h6, h7, h8, hstate _ _ (by rw [h9]; simp only [hplay])⟩
  · intro n b2 hcol hb2
    refine ⟨{ UpdateGame_advance (UpdateGame_score
        { g with board := b2, softDropY := F32.ofInt g.current.y } n) rnd
          with timer := F32.zero }, ?_, ?_⟩
    · unfold UpdateGame_gravity
      rw [if_pos hcol, hb2]
    · obtain ⟨h1, h2, h3, _, _⟩ := UpdateGame_score_frame
        { g with board := b2, softDropY := F32.ofInt g.current.y } n
      obtain ⟨_, _, _, _, _, h6, h7, h8⟩ := UpdateGame_advance_frame
        (UpdateGame_score { g with board := b2, softDropY := F32.ofInt g.current.y } n) rnd
      have h9 := UpdateGame_advance_state
        (UpdateGame_score { g with board := b2, softDropY := F32.ofInt g.current.y } n) rnd
      rw [h1, h2, h3] at h9
      rw [h2] at h6
      rw [h1] at h7
      exact ⟨h6, h7, h8, hstate _ _ (by rw [h9]; simp only [hplay])⟩
  · intro dropY n b2 hdrop hb2
    refine ⟨EvaluateAndExecuteBestMove_advance (EvaluateAndExecuteBestMove_score
        { g with current := { g.current with y := dropY }, board := b2 } n) rnd, ?_, ?_⟩
    · unfold EvaluateAndExecuteBestMove_lock
      rw [hdrop]
      simp only []
      rw [hb2]
    · obtain ⟨h1, h2, h3, _, _⟩ := EvaluateAndExecuteBestMove_score_frame
        { g with current := { g.current with y := dropY }, board := b2 } n
      obtain ⟨_, _, _, _, _, h6, h7, h8⟩ := EvaluateAndExecuteBestMove_advance_frame
        (EvaluateAndExecuteBestMove_score
          { g with current := { g.current with y := dropY }, board := b2 } n) rnd
      have h9 := EvaluateAndExecuteBestMove_advance_state (EvaluateAndExecuteBestMove_score
          { g with current := { g.current with y := dropY }, board := b2 } n) rnd
      rw [h1, h2, h3] at h9
      rw [h2] at h6
      rw [h1] at h7
      exact ⟨h6, h7, h8, hstate _ _ (by rw [h9]; simp only [hplay])⟩

/-- The I-piece hard-dropped into the gap of row 19 while Playing. -/
theorem C17_lock_advances_piece_witness :
    ∃ (g1 : Game) (b2 : Board), HandleInput_hardDrop gapGame 0 = some g1 ∧ g1.board = b2 ∧
      g1.current = gapGame.next ∧ g1.canHold = true ∧
      (g1.state = GameState.STATE_GAMEOVER ↔ CheckCollision b2 gapGame.next = true) := by
  obtain ⟨b2, hb2, _⟩ := ClearLines_spec
    (MergeToGrid gapGame.board { gapGame.current with y := 18 })
  obtain ⟨g1, h1, h2, h3, h4, h5, _⟩ :=
    (C17_lock_advances_piece gapGame 0 rfl).1 18 _ b2 (by decide) hb2
  exact ⟨g1, b2, h1, h2, h3, h4, h5⟩

/-! ### Combo multiplier -/

set_option maxRecDepth 100000 in
/-- C11 (code evaluated at the failing input): with combo 10 before the lock,
at level 2, a lock that clears one row makes the combo 11 and adds 419 points
on each of the three lock paths, whereas 200 · (1 + 0.1 · 11) = 420; the
single-precision product is 419.99997 and `(int)` truncates it.  A second
consecutive single-row clear at level 1 (combo 1 before) does add 120. -/
theorem C11_combo_multiplier_truncates :
    (HandleInput_hardDrop comboGame 0).map (fun g => (g.combo, g.score - comboGame.score))
      = some (11, 419) ∧
    (UpdateGame_gravity { comboGame with current := { comboGame.current with y := 18 } } 0).map
      (fun g => (g.combo, g.score - comboGame.score)) = some (11, 419) ∧
    (EvaluateAndExecuteBestMove_lock comboGame 0).map
      (fun g => (g.combo, g.score - comboGame.score)) = some (11, 419) ∧
    specBasePoints 1 * comboGame.level * (10 + 11) / 10 = 420 ∧
    (HandleInput_hardDrop { gapGame with combo := 1 } 0).map
      (fun g => (g.combo, g.score - gapGame.score)) = some (2, 120) := by
  refine ⟨by decide, by decide, by decide, by decide, by decide⟩

/-! ### Single-precision lemmas -/

theorem F32.lt_iff_toRat (x y : F32) : F32.lt x y = true ↔ x.toRat < y.toRat := by
  unfold F32.lt F32.toRat
  rw [decide_eq_true_iff]
  have hx : (0 : Int) ≤ x.e - min x.e y.e := by omega
  have hy : (0 : Int) ≤ y.e - min x.e y.e := by omega
  have h2 : (0 : ℚ) < (2 : ℚ) ^ (min x.e y.e) := zpow_pos (by norm_num) _
  have ex : (2 : ℚ) ^ x.e = (2 : ℚ) ^ (x.e - min x.e y.e).toNat * (2 : ℚ) ^ (min x.e y.e) := by
    rw [← zpow_natCast, Int.toNat_of_nonneg hx, ← zpow_add₀ (by norm_num)]
    congr 1; ring
  have ey : (2 : ℚ) ^ y.e = (2 : ℚ) ^ (y.e - min x.e y.e).toNat * (2 : ℚ) ^ (min x.e y.e) := by
    rw [← zpow_natCast, Int.toNat_of_nonneg hy, ← zpow_add₀ (by norm_num)]
    congr 1; ring
  rw [ex, ey, ← mul_assoc, ← mul_assoc, mul_lt_mul_right h2]
  constructor
  · intro h
    have : ((x.m * 2 ^ (x.e - min x.e y.e).toNat : Int) : ℚ)
        < ((y.m * 2 ^ (y.e - min x.e y.e).toNat : Int) : ℚ) := by exact_mod_cast h
    push_cast at this
    exact this
  · intro h
    have : ((x.m * 2 ^ (x.e - min x.e y.e).toNat : Int) : ℚ)
        < ((y.m * 2 ^ (y.e - min x.e y.e).toNat : Int) : ℚ) := by
      push_cast
      exact h
    exact_mod_cast this
theorem F32.unit_pos (e : Int) : 1 ≤ F32.unit e := Nat.one_le_two_pow

theorem F32.unit_of_nonneg (e : Int) (h : 0 ≤ e) : F32.unit e = 1 := by
  unfold F32.unit
  have : (-e).toNat = 0 := by omega
  rw [this]; rfl

theorem F32.unit_of_neg (e : Int) (h : e < 0) : F32.unit e = 2 * F32.unit (e + 1) := by
  unfold F32.unit
  have : (-e).toNat = (-(e + 1)).toNat + 1 := by omega
  rw [this, pow_succ, Nat.mul_comm]

theorem F32.unit_half (e : Int) (q : Nat) (h : F32.unit e ≤ q) (h2 : 2 ≤ q) :
    F32.unit (e + 1) ≤ q / 2 := by
  by_cases he : e < 0
  · rw [F32.unit_of_neg e he] at h
    omega
  · rw [F32.unit_of_nonneg (e + 1) (by omega)]
    omega

/-- Rounding keeps a magnitude that is at least 1 at least 1. -/
theorem F32.shiftRound_unit : ∀ (fuel q : Nat) (g s : Bool) (e : Int),
    F32.unit e ≤ q →
    F32.unit (F32.shiftRound fuel q g s e).2 ≤ (F32.shiftRound fuel q g s e).1 := by
  intro fuel
  induction fuel with
  | zero => intro q g s e h; exact h
  | succ fuel ih =>
    intro q g s e h
    rw [F32.shiftRound]
    by_cases hq : q < 2 ^ 24
    · rw [if_pos hq]
      simp only []
      split <;> omega
    · rw [if_neg hq]
      apply ih
      apply F32.unit_half e q h
      have : (2 : Nat) ^ 24 = 16777216 := by norm_num
      omega

theorem F32.stripZeros_unit : ∀ (fuel : Nat) (m e : Int), 0 < m → (F32.unit e : Int) ≤ m →
    (F32.unit (F32.stripZeros fuel m e).e : Int) ≤ (F32.stripZeros fuel m e).m := by
  intro fuel
  induction fuel with
  | zero => intro m e _ h; exact h
  | succ fuel ih =>
    intro m e hm h
    rw [F32.stripZeros]
    rw [if_neg (by omega)]
    by_cases h2 : m % 2 = 0
    · rw [if_pos h2]
      apply ih
      · omega
      · have hq : F32.unit e ≤ m.toNat := by omega
        have := F32.unit_half e m.toNat hq (by omega)
        omega
    · rw [if_neg h2]
      exact h

/-- A positive number that is at least 1 rounds to a value that is at least
1. -/
theorem F32.round_unit (m e : Int) (hm : 0 < m) (h : (F32.unit e : Int) ≤ m) :
    (F32.unit (F32.round m e).e : Int) ≤ (F32.round m e).m := by
  unfold F32.round
  simp only []
  rw [if_neg (by omega)]
  have h1 : F32.unit e ≤ m.natAbs := by omega
  have h2 := F32.shiftRound_unit 128 m.natAbs false false e h1
  have h3 := F32.unit_pos (F32.shiftRound 128 m.natAbs false false e).2
  apply F32.stripZeros_unit
  · omega
  · exact_mod_cast h2

theorem F32.stripZeros_nonpos : ∀ (fuel : Nat) (m e : Int), m ≤ 0 →
    (F32.stripZeros fuel m e).m ≤ 0 := by
  intro fuel
  induction fuel with
  | zero => intro m e h; exact h
  | succ fuel ih =>
    intro m e h
    rw [F32.stripZeros]
    by_cases h0 : m = 0
    · rw [if_pos h0]
    · rw [if_neg h0]
      by_cases h2 : m % 2 = 0
      · rw [if_pos h2]
        apply ih
        omega
      · rw [if_neg h2]
        exact h

/-- A number that is not positive rounds to a value that is not positive. -/
theorem F32.round_nonpos (m e : Int) (hm : m ≤ 0) : (F32.round m e).m ≤ 0 := by
  unfold F32.round
  simp only []
  apply F32.stripZeros_nonpos
  by_cases h : m < 0
  · rw [if_pos h]
    omega
  · rw [if_neg h]
    have h0 : m = 0 := by omega
    subst h0
    simp [F32.shiftRound]

theorem F32.shiftRound_ge : ∀ (fuel q : Nat) (g s : Bool) (e : Int), 0 ≤ e →
    10 ≤ q * 2 ^ e.toNat →
    0 ≤ (F32.shiftRound fuel q g s e).2 ∧
      10 ≤ (F32.shiftRound fuel q g s e).1 * 2 ^ (F32.shiftRound fuel q g s e).2.toNat := by
  intro fuel
  induction fuel with
  | zero => intro q g s e he h; exact ⟨he, h⟩
  | succ fuel ih =>
    intro q g s e he h
    rw [F32.shiftRound]
    by_cases hq : q < 2 ^ 24
    · rw [if_pos hq]
      simp only []
      refine ⟨he, ?_⟩
      split
      · calc 10 ≤ q * 2 ^ e.toNat := h
          _ ≤ (q + 1) * 2 ^ e.toNat := Nat.mul_le_mul_right _ (Nat.le_succ q)
      · exact h
    · rw [if_neg hq]
      apply ih _ _ _ _ (by omega)
      have h1 : (2 : Nat) ^ 24 = 16777216 := by norm_num
      have h2 : 1 ≤ 2 ^ (e + 1).toNat := Nat.one_le_two_pow
      calc 10 ≤ q / 2 := by omega
        _ = q / 2 * 1 := (Nat.mul_one _).symm
        _ ≤ q / 2 * 2 ^ (e + 1).toNat := Nat.mul_le_mul_left _ h2

theorem F32.stripZeros_ge : ∀ (fuel : Nat) (m e : Int), 0 ≤ e → 0 < m →
    10 ≤ m * 2 ^ e.toNat →
    0 ≤ (F32.stripZeros fuel m e).e ∧ 1 ≤ (F32.stripZeros fuel m e).m ∧
      10 ≤ (F32.stripZeros fuel m e).m * 2 ^ (F32.stripZeros fuel m e).e.toNat := by
  intro fuel
  induction fuel with
  | zero => intro m e he hm h; exact ⟨he, hm, h⟩
  | succ fuel ih =>
    intro m e he hm h
    rw [F32.stripZeros]
    rw [if_neg (by omega)]
    by_cases h2 : m % 2 = 0
    · rw [if_pos h2]
      apply ih _ _ (by omega) (by omega)
      have e1 : (e + 1).toNat = e.toNat + 1 := by omega
      have e2 : m = m / 2 * 2 := by omega
      rw [e1, pow_succ]
      calc (10 : Int) ≤ m * 2 ^ e.toNat := h
        _ = m / 2 * 2 * 2 ^ e.toNat := by rw [← e2]
        _ = m / 2 * (2 ^ e.toNat * 2) := by ring
    · rw [if_neg h2]
      exact ⟨he, hm, h⟩

/-- The conversion of an `int` that is at least 10 is at least 10. -/
theorem F32.ofInt_ge (k : Int) (hk : 10 ≤ k) :
    0 ≤ (F32.ofInt k).e ∧ 1 ≤ (F32.ofInt k).m ∧
      10 ≤ (F32.ofInt k).m * 2 ^ (F32.ofInt k).e.toNat := by
  unfold F32.ofInt F32.round
  simp only []
  rw [if_neg (by omega)]
  have h0 : 10 ≤ k.natAbs * 2 ^ (0 : Int).toNat := by
    simp only [Int.toNat_zero, pow_zero, Nat.mul_one]
    omega
  obtain ⟨h1, h2⟩ := F32.shiftRound_ge 128 k.natAbs false false 0 (le_refl _) h0
  have h3 : 0 < ((F32.shiftRound 128 k.natAbs false false 0).1 : Int) := by
    by_contra hcon
    have : (F32.shiftRound 128 k.natAbs false false 0).1 = 0 := by omega
    rw [this] at h2
    omega
  apply F32.stripZeros_ge _ _ _ h1 h3
  exact_mod_cast h2

/-- The product `k * 0.1f` is at least 1 for an `int` `k` that is at least
10 (`0.1f` is slightly more than one tenth). -/
theorem F32.mul_tenth_unit (k : Int) (hk : 10 ≤ k) :
    (F32.unit (F32.mul (F32.ofInt k) F32.tenth).e : Int)
      ≤ (F32.mul (F32.ofInt k) F32.tenth).m := by
  obtain ⟨he, hm, h10⟩ := F32.ofInt_ge k hk
  unfold F32.mul
  have ht : F32.tenth.m = 13421773 ∧ F32.tenth.e = -27 := ⟨rfl, rfl⟩
  rw [ht.1, ht.2]
  apply F32.round_unit
  · omega
  · by_cases hbig : 27 ≤ (F32.ofInt k).e
    · rw [F32.unit_of_nonneg _ (by omega)]
      omega
    · have hn : (-((F32.ofInt k).e + -27)).toNat + (F32.ofInt k).e.toNat = 27 := by omega
      have hpow : (2 : Int) ^ (-((F32.ofInt k).e + -27)).toNat * 2 ^ (F32.ofInt k).e.toNat
          = 134217728 := by
        rw [← pow_add, hn]
        norm_num
      have hpos : (0 : Int) < 2 ^ (F32.ofInt k).e.toNat := by positivity
      unfold F32.unit
      push_cast
      by_contra hcon
      have hlt : (F32.ofInt k).m * 13421773
          < 2 ^ (-((F32.ofInt k).e + -27)).toNat := by omega
      have := mul_lt_mul_of_pos_right hlt hpos
      rw [hpow] at this
      nlinarith

/-- The difference `1.0f - r` is not positive when `r` is at least 1. -/
theorem F32.sub_one_nonpos (r : F32) (h : (F32.unit r.e : Int) ≤ r.m) :
    (F32.sub F32.one r).m ≤ 0 := by
  unfold F32.sub F32.add
  apply F32.round_nonpos
  have h1 : F32.one.m = 1 ∧ F32.one.e = 0 := ⟨rfl, rfl⟩
  simp only [h1.1, h1.2]
  by_cases hr : 0 ≤ r.e
  · have hmin : min (0 : Int) r.e = 0 := by omega
    rw [hmin]
    rw [F32.unit_of_nonneg r.e hr] at h
    have hp : (1 : Int) ≤ 2 ^ (r.e - 0).toNat := by
      have : (1 : Nat) ≤ 2 ^ (r.e - 0).toNat := Nat.one_le_two_pow
      exact_mod_cast this
    have : r.m * 1 ≤ r.m * 2 ^ (r.e - 0).toNat :=
      mul_le_mul_of_nonneg_left hp (by omega)
    simp only [sub_self, Int.toNat_zero, pow_zero, mul_one, neg_mul]
    push_cast at h
    omega
  · have hmin : min (0 : Int) r.e = r.e := by omega
    rw [hmin]
    have e1 : (0 - r.e).toNat = (-r.e).toNat := by congr 1; omega
    have e2 : (r.e - r.e).toNat = 0 := by omega
    rw [e1, e2]
    unfold F32.unit at h
    push_cast at h
    simp only [pow_zero, mul_one, one_mul]
    omega

/-- From level 11 on the delay is the floor `0.1f`. -/
theorem specDelay_of_large (L : Int) (hL : 11 ≤ L) : specDelay L = F32.tenth := by
  unfold specDelay F32.max
  have h1 := F32.mul_tenth_unit (L - 1) (by omega)
  have h2 := F32.sub_one_nonpos _ h1
  have hlt : F32.lt (F32.sub F32.one (F32.mul (F32.ofInt (L - 1)) F32.tenth)) F32.tenth
      = true := by
    unfold F32.lt
    rw [decide_eq_true_iff]
    have ht : F32.tenth.m = 13421773 := rfl
    rw [ht]
    have hp1 : (0 : Int) < 2 ^ ((F32.sub F32.one (F32.mul (F32.ofInt (L - 1)) F32.tenth)).e
        - min (F32.sub F32.one (F32.mul (F32.ofInt (L - 1)) F32.tenth)).e F32.tenth.e).toNat := by
      positivity
    have hp2 : (0 : Int) < 2 ^ (F32.tenth.e
        - min (F32.sub F32.one (F32.mul (F32.ofInt (L - 1)) F32.tenth)).e F32.tenth.e).toNat := by
      positivity
    have hle := mul_nonpos_of_nonpos_of_nonneg h2 (le_of_lt hp1)
    have hgt : (0 : Int) < 13421773 * 2 ^ (F32.tenth.e
        - min (F32.sub F32.one (F32.mul (F32.ofInt (L - 1)) F32.tenth)).e F32.tenth.e).toNat := by
      positivity
    omega
  rw [if_pos hlt]

/-- The delay of the specification is never below `0.1f`. -/
theorem specDelay_not_lt_tenth (L : Int) : F32.lt (specDelay L) F32.tenth = false := by
  unfold specDelay F32.max
  by_cases h : F32.lt (F32.sub F32.one (F32.mul (F32.ofInt (L - 1)) F32.tenth)) F32.tenth = true
  · rw [if_pos h]
    decide
  · rw [if_neg h]
    simpa using h

set_option maxRecDepth 100000 in
/-- The ten delays above the floor, for the levels 1 to 10. -/
theorem specDelay_table :
    specDelay 1 = ⟨1, 0⟩ ∧ specDelay 2 = ⟨7549747, -23⟩ ∧ specDelay 3 = ⟨13421773, -24⟩ ∧
    specDelay 4 = ⟨11744051, -24⟩ ∧ specDelay 5 = ⟨5033165, -23⟩ ∧ specDelay 6 = ⟨1, -1⟩ ∧
    specDelay 7 = ⟨3355443, -23⟩ ∧ specDelay 8 = ⟨5033165, -24⟩ ∧
    specDelay 9 = ⟨3355443, -24⟩ ∧ specDelay 10 = ⟨13421773, -27⟩ := by
  refine ⟨by decide, by decide, by decide, by decide, by decide, by decide, by decide,
    by decide, by decide, by decide⟩

set_option maxRecDepth 100000 in
/-- The delay of the specification does not grow with the level. -/
theorem specDelay_mono (L L1 : Int) (hL : 1 ≤ L) (hle : L ≤ L1) :
    F32.lt (specDelay L) (specDelay L1) = false := by
  by_cases hbig : 11 ≤ L1
  · rw [specDelay_of_large L1 hbig]
    exact specDelay_not_lt_tenth L
  · have h1 : L1 ≤ 10 := by omega
    have h2 : L ≤ 10 := by omega
    have h3 : 1 ≤ L1 := by omega
    interval_cases L <;> interval_cases L1 <;> first | omega | decide

/-- The single-precision delay differs from the real number
`max(0.1, 1 - (L - 1) / 10)` by less than `10⁻⁷`. -/
theorem specDelay_close (L : Int) (hL : 1 ≤ L) :
    |(specDelay L).toRat - max (1 / 10) (1 - ((L : ℚ) - 1) / 10)| ≤ 1 / 10 ^ 7 := by
  by_cases hbig : 11 ≤ L
  · rw [specDelay_of_large L hbig]
    have hq : (11 : ℚ) ≤ (L : ℚ) := by exact_mod_cast hbig
    have hmax : max (1 / 10 : ℚ) (1 - ((L : ℚ) - 1) / 10) = 1 / 10 := by
      apply max_eq_left
      linarith
    rw [hmax]
    norm_num [F32.toRat, F32.tenth, abs_le]
  · have h1 : L ≤ 10 := by omega
    obtain ⟨t1, t2, t3, t4, t5, t6, t7, t8, t9, t10⟩ := specDelay_table
    interval_cases L
    · rw [t1]; norm_num [F32.toRat, abs_le]
    · rw [t2]; norm_num [F32.toRat, abs_le]
    · rw [t3]; norm_num [F32.toRat, abs_le]
    · rw [t4]; norm_num [F32.toRat, abs_le]
    · rw [t5]; norm_num [F32.toRat, abs_le]
    · rw [t6]; norm_num [F32.toRat, abs_le]
    · rw [t7]; norm_num [F32.toRat, abs_le]
    · rw [t8]; norm_num [F32.toRat, abs_le]
    · rw [t9]; norm_num [F32.toRat, abs_le]
    · rw [t10]; norm_num [F32.toRat, abs_le]

/-! ### Level curve -/

theorem levelCurve_of_fields {g g1 : Game} (h : levelCurve g) (h1 : g1.lines = g.lines)
    (h2 : g1.level = g.level) (h3 : g1.delay = g.delay) : levelCurve g1 := by
  unfold levelCurve at *
  rw [h1, h2, h3]
  exact h

theorem HandleInput_score_levelCurve (g : Game) (n : Int) (h : levelCurve g) :
    levelCurve (HandleInput_score g n) := by
  unfold HandleInput_score
  by_cases hpos : n > 0
  · rw [if_pos hpos]
    obtain ⟨h1, _, _⟩ := h
    refine ⟨by simp only []; omega, ?_, ?_⟩
    · simp only []
      rw [Int.tdiv_eq_ediv (by omega) (by decide)]
    · simp only [specDelay, F32.max]
  · rw [if_neg hpos]
    exact levelCurve_of_fields h rfl rfl rfl

theorem HandleInput_advance_levelCurve (g : Game) (rnd : Nat) (h : levelCurve g) :
    levelCurve (HandleInput_advance g rnd) := by
  obtain ⟨_, h2, h3, h4, _⟩ := HandleInput_advance_frame g rnd
  exact levelCurve_of_fields h h2 h3 h4

theorem UpdateGame_score_levelCurve (g : Game) (n : Int) (h : levelCurve g) :
    levelCurve (UpdateGame_score g n) := by
  unfold UpdateGame_score
  by_cases hpos : n > 0
  · rw [if_pos hpos]
    obtain ⟨h1, _, _⟩ := h
    refine ⟨by simp only []; omega, ?_, ?_⟩
    · simp only []
      rw [Int.tdiv_eq_ediv (by omega) (by decide)]
    · simp only [specDelay, F32.max]
  · rw [if_neg hpos]
    exact levelCurve_of_fields h rfl rfl rfl

theorem UpdateGame_advance_levelCurve (g : Game) (rnd : Nat) (h : levelCurve g) :
    levelCurve (UpdateGame_advance g rnd) := by
  obtain ⟨_, h2, h3, h4, _⟩ := UpdateGame_advance_frame g rnd
  exact levelCurve_of_fields h h2 h3 h4

theorem EvaluateAndExecuteBestMove_score_levelCurve (g : Game) (n : Int) (h : levelCurve g) :
    levelCurve (EvaluateAndExecuteBestMove_score g n) := by
  unfold EvaluateAndExecuteBestMove_score
  by_cases hpos : n > 0
  · rw [if_pos hpos]
    obtain ⟨h1, _, _⟩ := h
    refine ⟨by simp only []; omega, ?_, ?_⟩
    · simp only []
      rw [Int.tdiv_eq_ediv (by omega) (by decide)]
    · simp only [specDelay, F32.max]
  · rw [if_neg hpos]
    exact levelCurve_of_fields h rfl rfl rfl

theorem EvaluateAndExecuteBestMove_advance_levelCurve (g : Game) (rnd : Nat) (h : levelCurve g) :
    levelCurve (EvaluateAndExecuteBestMove_advance g rnd) := by
  obtain ⟨_, h2, h3, h4, _⟩ := EvaluateAndExecuteBestMove_advance_frame g rnd
  exact levelCurve_of_fields h h2 h3 h4

theorem HoldPiece_levelCurve (g : Game) (rnd : Nat) (h : levelCurve g) :
    levelCurve (HoldPiece g rnd) := by
  unfold HoldPiece
  split
  · exact h
  · simp only []
    split <;> exact levelCurve_of_fields h rfl rfl rfl

theorem InitGame_levelCurve (g0 : Game) (rnd1 rnd2 : Nat) :
    levelCurve (InitGame g0 rnd1 rnd2) := by
  refine ⟨le_refl _, ?_, ?_⟩
  · show (1 : Int) = 1 + 0 / 10
    decide
  · exact specDelay_table.1.symm

theorem HandleInput_hardDrop_levelCurve (g g1 : Game) (rnd : Nat)
    (hs : HandleInput_hardDrop g rnd = some g1) (h : levelCurve g) : levelCurve g1 := by
  unfold HandleInput_hardDrop at hs
  cases hd : GetDropPosition g.board g.current with
  | none => rw [hd] at hs; cases hs
  | some dropY =>
    rw [hd] at hs
    simp only [] at hs
    cases hc : ClearLines (MergeToGrid g.board { g.current with y := dropY }) with
    | none => rw [hc] at hs; cases hs
    | some p =>
      obtain ⟨n, b2⟩ := p
      rw [hc] at hs
      simp only [Option.some.injEq] at hs
      rw [← hs]
      apply HandleInput_advance_levelCurve
      apply HandleInput_score_levelCurve
      exact levelCurve_of_fields h rfl rfl rfl

theorem EvaluateAndExecuteBestMove_lock_levelCurve (g g1 : Game) (rnd : Nat)
    (hs : EvaluateAndExecuteBestMove_lock g rnd = some g1) (h : levelCurve g) :
    levelCurve g1 := by
  unfold EvaluateAndExecuteBestMove_lock at hs
  cases hd : GetDropPosition g.board g.current with
  | none => rw [hd] at hs; cases hs
  | some dropY =>
    rw [hd] at hs
    simp only [] at hs
    cases hc : ClearLines (MergeToGrid g.board { g.current with y := dropY }) with
    | none => rw [hc] at hs; cases hs
    | some p =>
      obtain ⟨n, b2⟩ := p
      rw [hc] at hs
      simp only [Option.some.injEq] at hs
      rw [← hs]
      apply EvaluateAndExecuteBestMove_advance_levelCurve
      apply EvaluateAndExecuteBestMove_score_levelCurve
      exact levelCurve_of_fields h rfl rfl rfl

theorem UpdateGame_gravity_levelCurve (g g1 : Game) (rnd : Nat)
    (hs : UpdateGame_gravity g rnd = some g1) (h : levelCurve g) : levelCurve g1 := by
  unfold UpdateGame_gravity at hs
  by_cases hcol : CheckCollision g.board { g.current with y := g.current.y + 1 } = true
  · rw [if_pos hcol] at hs
    cases hc : ClearLines (MergeToGrid g.board g.current) with
    | none => rw [hc] at hs; cases hs
    | some p =>
      obtain ⟨n, b2⟩ := p
      rw [hc] at hs
      simp only [Option.some.injEq] at hs
      rw [← hs]
      have h1 : levelCurve (UpdateGame_advance (UpdateGame_score
          { g with board := b2, softDropY := F32.ofInt g.current.y } n) rnd) := by
        apply UpdateGame_advance_levelCurve
        apply UpdateGame_score_levelCurve
        exact levelCurve_of_fields h rfl rfl rfl
      exact levelCurve_of_fields h1 rfl rfl rfl
  · rw [if_neg hcol] at hs
    simp only [Option.some.injEq] at hs
    rw [← hs]
    exact levelCurve_of_fields h rfl rfl rfl

theorem Step_levelCurve {g g1 : Game} (hs : Step g g1) (h : levelCurve g) : levelCurve g1 := by
  cases hs with
  | move t sd tm => exact levelCurve_of_fields h rfl rfl rfl
  | hold rnd => exact HoldPiece_levelCurve g rnd h
  | hardDrop _ rnd hs => exact HandleInput_hardDrop_levelCurve g g1 rnd hs h
  | gravity _ rnd hs => exact UpdateGame_gravity_levelCurve g g1 rnd hs h
  | autoLock _ rnd hs => exact EvaluateAndExecuteBestMove_lock_levelCurve g g1 rnd hs h

theorem Reachable_levelCurve {g : Game} (h : Reachable g) : levelCurve g := by
  induction h with
  | init g0 rnd1 rnd2 => exact InitGame_levelCurve g0 rnd1 rnd2
  | step g g1 _ hs ih => exact Step_levelCurve hs ih

/-- C13: in every session reachable from `InitGame` (by locks of any of the
three kinds, holds, gravity steps and moves of the falling piece) the level is
`1 + floor(lines / 10)` and the delay is `max(0.1, 1.0 - (level - 1) * 0.1)`
evaluated in `float`, which is within `10⁻⁷` of the real number of that
formula; the delay is never below `0.1f`, and of two reachable sessions the
one with more lines never has the larger delay. -/
theorem C13_level_curve (g : Game) (hg : Reachable g) :
    0 ≤ g.lines ∧ g.level = 1 + g.lines / 10 ∧ g.delay = specDelay g.level ∧
    |g.delay.toRat - max (1 / 10) (1 - ((g.level : ℚ) - 1) / 10)| ≤ 1 / 10 ^ 7 ∧
    F32.lt g.delay F32.tenth = false ∧ (1 : ℚ) / 10 ≤ g.delay.toRat ∧
    ∀ g1 : Game, Reachable g1 → g.lines ≤ g1.lines →
      F32.lt g.delay g1.delay = false ∧ g1.delay.toRat ≤ g.delay.toRat := by
  obtain ⟨h1, h2, h3⟩ := Reachable_levelCurve hg
  have hL : 1 ≤ g.level := by
    rw [h2]
    have := Int.ediv_nonneg h1 (by decide : (0 : Int) ≤ 10)
    omega
  have hge : F32.lt g.delay F32.tenth = false := by
    rw [h3]; exact specDelay_not_lt_tenth _
  have hmono : ∀ g1 : Game, Reachable g1 → g.lines ≤ g1.lines →
      F32.lt g.delay g1.delay = false := by
    intro g1 hg1 hle
    obtain ⟨k1, k2, k3⟩ := Reachable_levelCurve hg1
    rw [h3, k3]
    apply specDelay_mono _ _ hL
    rw [h2, k2]
    have := Int.ediv_le_ediv (by decide : (0 : Int) < 10) hle
    omega
  have hrat : ∀ x y : F32, F32.lt x y = false → y.toRat ≤ x.toRat := by
    intro x y hxy
    by_contra hcon
    have := (F32.lt_iff_toRat x y).2 (lt_of_not_le hcon)
    rw [hxy] at this
    cases this
  refine ⟨h1, h2, h3, ?_, hge, ?_, ?_⟩
  · rw [h3]
    exact specDelay_close _ hL
  · have := hrat _ _ hge
    have ht : F32.tenth.toRat = 13421773 / 134217728 := by norm_num [F32.toRat, F32.tenth]
    rw [ht] at this
    linarith
  · intro g1 hg1 hle
    exact ⟨hmono g1 hg1 hle, hrat _ _ (hmono g1 hg1 hle)⟩

/-! ### A session with line-clearing locks

Thirty upright I-pieces, steered into the columns 0 to 9 three times over and
hard-dropped: every tenth lock clears the four rows 16 to 19. -/

set_option maxRecDepth 1000000 in
theorem wellStack_facts : ∀ j : Fin 10,
    GetDropPosition (wellStack j.val) (uprightI j.val) = some 16 ∧
    (∀ (r : Fin ROWS) (c : Fin COLS),
      (MergeToGrid (wellStack j.val) { uprightI j.val with y := 16 }).grid r c
        = (wellStack (j.val + 1)).grid r c ∧
      (MergeToGrid (wellStack j.val) { uprightI j.val with y := 16 }).colorGrid r c
        = (wellStack (j.val + 1)).colorGrid r c) ∧
    CheckCollision (wellStack j.val) (tetrominoes 0) = false := by
  decide

set_option maxRecDepth 1000000 in
theorem wellStack_noFull : ∀ j : Fin 10, ∀ r : Fin ROWS, rowFull (wellStack j.val) r = false := by
  decide

set_option maxRecDepth 1000000 in
set_option maxHeartbeats 4000000 in
theorem wellStack_clear : ∀ (r : Fin ROWS) (c : Fin COLS),
    (ClearLines (wellStack 10)).map (fun p => (p.1, p.2.grid r c, p.2.colorGrid r c))
      = some (4, 0, 0) := by
  decide

set_option maxRecDepth 1000000 in
theorem wellStack_upright_free : ∀ j c : Fin 10,
    CheckCollision (wellStack j.val) (uprightI c.val) = false := by
  decide

theorem wellStack_zero : wellStack 0 = Board.empty := by
  apply Board.ext_row
  intro i
  have h : ∀ (r : Fin ROWS) (c : Fin COLS), (wellStack 0).grid r c = Board.empty.grid r c ∧
      (wellStack 0).colorGrid r c = Board.empty.colorGrid r c := by decide
  exact Prod.ext (funext fun c => (h i c).1) (funext fun c => (h i c).2)

theorem wellStack_merge (j : Fin 10) :
    MergeToGrid (wellStack j.val) { uprightI j.val with y := 16 } = wellStack (j.val + 1) := by
  apply Board.ext_row
  intro i
  have h := (wellStack_facts j).2.1
  exact Prod.ext (funext fun c => (h i c).1) (funext fun c => (h i c).2)

theorem wellStack_ClearLines : ClearLines (wellStack 10) = some (4, Board.empty) := by
  have h := wellStack_clear
  cases hc : ClearLines (wellStack 10) with
  | none =>
    have h0 := h ⟨0, by decide⟩ ⟨0, by decide⟩
    rw [hc] at h0
    cases h0
  | some p =>
    obtain ⟨n, b⟩ := p
    have hn : n = 4 := by
      have h0 := h ⟨0, by decide⟩ ⟨0, by decide⟩
      rw [hc] at h0
      simp only [Option.map_some', Option.some.injEq, Prod.mk.injEq] at h0
      exact h0.1
    have hb : b = Board.empty := by
      apply Board.ext_row
      intro i
      have hcell : ∀ c : Fin COLS, b.grid i c = 0 ∧ b.colorGrid i c = 0 := by
        intro c
        have h0 := h i c
        rw [hc] at h0
        simp only [Option.map_some', Option.some.injEq, Prod.mk.injEq] at h0
        exact h0.2
      exact Prod.ext (funext fun c => (hcell c).1) (funext fun c => (hcell c).2)
    rw [hn, hb]

/-- An upright I-piece dropped into column `j < 9` of `wellStack j` clears
nothing: the board becomes `wellStack (j + 1)` and the combo 0. -/
theorem HandleInput_hardDrop_well (j : Fin 9) (s l lv : Int) (d : F32) (cb hs : Int) :
    HandleInput_hardDrop { wellGame j.val s l lv d cb hs with current := uprightI j.val } 0
      = some (wellGame (j.val + 1) s l lv d 0 hs) := by
  have hj : j.val < 10 := by omega
  obtain ⟨hd, _, _⟩ := wellStack_facts ⟨j.val, hj⟩
  have hm := wellStack_merge ⟨j.val, hj⟩
  have hj1 : j.val + 1 < 10 := by omega
  have hfree := (wellStack_facts ⟨j.val + 1, hj1⟩).2.2
  have hclear : ClearLines (wellStack (j.val + 1)) = some (0, wellStack (j.val + 1)) := by
    apply ClearLines_of_noFull
    apply rows_of_noFull
    exact wellStack_noFull ⟨j.val + 1, hj1⟩
  unfold HandleInput_hardDrop
  have hd1 : GetDropPosition
      ({ wellGame j.val s l lv d cb hs with current := uprightI j.val } : Game).board
      ({ wellGame j.val s l lv d cb hs with current := uprightI j.val } : Game).current
      = some 16 := hd
  rw [hd1]
  simp only
  have hm1 : MergeToGrid
      ({ wellGame j.val s l lv d cb hs with current := uprightI j.val } : Game).board
      { ({ wellGame j.val s l lv d cb hs with current := uprightI j.val } : Game).current with
        y := 16 } = wellStack (j.val + 1) := hm
  rw [hm1, hclear]
  simp only
  rw [HandleInput_score_zero]
  unfold HandleInput_advance
  simp only
  have hfree1 : CheckCollision (wellStack (j.val + 1)) (wellGame j.val s l lv d cb hs).next
      = false := hfree
  rw [if_neg (by rw [hfree1]; decide)]
  rfl

/-- The tenth upright I-piece, dropped into column 9, fills rows 16 to 19:
`ClearLines` clears the four rows and the lock is scored with four lines. -/
theorem HandleInput_hardDrop_well_clear (s l lv : Int) (d : F32) (cb hs : Int) :
    HandleInput_hardDrop { wellGame 9 s l lv d cb hs with current := uprightI 9 } 0
      = some (HandleInput_advance (HandleInput_score
          { wellGame 9 s l lv d cb hs with
            current := { uprightI 9 with y := 16 }
            board := Board.empty } 4) 0) := by
  obtain ⟨hd, _, _⟩ := wellStack_facts ⟨9, by decide⟩
  have hm := wellStack_merge ⟨9, by decide⟩
  unfold HandleInput_hardDrop
  have hd1 : GetDropPosition
      ({ wellGame 9 s l lv d cb hs with current := uprightI 9 } : Game).board
      ({ wellGame 9 s l lv d cb hs with current := uprightI 9 } : Game).current
      = some 16 := hd
  rw [hd1]
  simp only
  have hm1 : MergeToGrid
      ({ wellGame 9 s l lv d cb hs with current := uprightI 9 } : Game).board
      { ({ wellGame 9 s l lv d cb hs with current := uprightI 9 } : Game).current with
        y := 16 } = wellStack 10 := hm
  rw [hm1, wellStack_ClearLines]

theorem wellGame_empty_board (s l lv : Int) (d : F32) (cb hs : Int) :
    ({ wellGame 0 s l lv d cb hs with board := Board.empty } : Game)
      = wellGame 0 s l lv d cb hs := by
  unfold wellGame
  rw [wellStack_zero]

set_option maxRecDepth 1000000 in
/-- The three clearing locks of the path: from no lines to 4 lines, from 4 to
8 and from 8 to 12 lines, where the level becomes 2 and the delay `0.9f`. -/
theorem well_clear_rounds :
    HandleInput_hardDrop { wellGame 9 0 0 1 F32.one 0 0 with current := uprightI 9 } 0
      = some (wellGame 0 800 4 1 F32.one 1 800) ∧
    HandleInput_hardDrop { wellGame 9 800 4 1 F32.one 0 800 with current := uprightI 9 } 0
      = some (wellGame 0 1600 8 1 F32.one 1 1600) ∧
    HandleInput_hardDrop { wellGame 9 1600 8 1 F32.one 0 1600 with current := uprightI 9 } 0
      = some (wellGame 0 2400 12 2 ⟨7549747, -23⟩ 1 2400) := by
  refine ⟨?_, ?_, ?_⟩
  · rw [HandleInput_hardDrop_well_clear, ← wellGame_empty_board]; rfl
  · rw [HandleInput_hardDrop_well_clear, ← wellGame_empty_board]; rfl
  · rw [HandleInput_hardDrop_well_clear, ← wellGame_empty_board]; rfl

theorem uprightI_left (c : Nat) :
    ({ uprightI (c + 1) with x := (uprightI (c + 1)).x - 1 } : Tetromino) = uprightI c := by
  unfold uprightI
  simp only [Tetromino.mk.injEq, true_and, and_true]
  push_cast
  ring

theorem uprightI_right (c : Nat) :
    ({ uprightI c with x := (uprightI c).x + 1 } : Tetromino) = uprightI (c + 1) := by
  unfold uprightI
  simp only [Tetromino.mk.injEq, true_and, and_true]
  push_cast
  ring

theorem HandleInput_moveLeft_upright (g : Game) (j c : Nat) (hj : j < 10) (hc : c < 10)
    (hb : g.board = wellStack j) :
    HandleInput_moveLeft { g with current := uprightI (c + 1) }
      = { g with current := uprightI c } := by
  unfold HandleInput_moveLeft
  simp only
  rw [uprightI_left, hb, wellStack_upright_free ⟨j, hj⟩ ⟨c, hc⟩]
  rfl

theorem HandleInput_moveRight_upright (g : Game) (j c : Nat) (hj : j < 10) (hc : c + 1 < 10)
    (hb : g.board = wellStack j) :
    HandleInput_moveRight { g with current := uprightI c }
      = { g with current := uprightI (c + 1) } := by
  unfold HandleInput_moveRight
  simp only
  rw [uprightI_right, hb, wellStack_upright_free ⟨j, hj⟩ ⟨c + 1, hc⟩]
  rfl

theorem HandleInput_moveLeft_iterate (g : Game) (j : Nat) (hj : j < 10)
    (hb : g.board = wellStack j) : ∀ k c : Nat, c + k < 10 →
    HandleInput_moveLeft^[k] { g with current := uprightI (c + k) }
      = { g with current := uprightI c }
  | 0, _, _ => rfl
  | k + 1, c, h => by
    rw [Function.iterate_succ_apply]
    have h1 := HandleInput_moveLeft_upright g j (c + k) hj (by omega) hb
    have h2 : c + (k + 1) = c + k + 1 := by omega
    rw [h2, h1]
    exact HandleInput_moveLeft_iterate g j hj hb k c (by omega)

theorem HandleInput_moveRight_iterate (g : Game) (j : Nat) (hj : j < 10)
    (hb : g.board = wellStack j) : ∀ k c : Nat, c + k < 10 →
    HandleInput_moveRight^[k] { g with current := uprightI c }
      = { g with current := uprightI (c + k) }
  | 0, _, _ => rfl
  | k + 1, c, h => by
    rw [Function.iterate_succ_apply]
    have h1 := HandleInput_moveRight_upright g j c hj (by omega) hb
    rw [h1]
    have h2 := HandleInput_moveRight_iterate g j hj hb k (c + 1) (by omega)
    have h3 : c + 1 + k = c + (k + 1) := by omega
    rw [h3] at h2
    exact h2

/-- A rotation of the I-piece at its spawn position above the stack
`wellStack j` leaves it upright in column 5. -/
theorem HandleInput_rotate_well (g : Game) (j : Nat) (hj : j < 10)
    (hb : g.board = wellStack j) (hc : g.current = tetrominoes 0) :
    HandleInput_rotate g = { g with current := uprightI 5 } := by
  have hfree : CheckCollision (wellStack j)
      { tetrominoes 0 with shape := rotateShape (tetrominoes 0).shape } = false :=
    wellStack_upright_free ⟨j, hj⟩ ⟨5, by decide⟩
  unfold HandleInput_rotate RotateTetromino
  rw [hb, hc, if_neg (by decide)]
  simp only [hfree]
  rfl

/-- On the board `wellStack j` of a game of I-pieces the key presses of
`steerTo j` bring the falling piece upright into column `j`. -/
theorem steerTo_wellGame (j : Nat) (hj : j < 10) (s l lv : Int) (d : F32) (cb hs : Int) :
    steerTo j (wellGame j s l lv d cb hs)
      = { wellGame j s l lv d cb hs with current := uprightI j } := by
  have hr := HandleInput_rotate_well (wellGame j s l lv d cb hs) j hj rfl rfl
  unfold steerTo
  rw [hr]
  by_cases h5 : j ≤ 5
  · rw [if_pos h5]
    have h := HandleInput_moveLeft_iterate (wellGame j s l lv d cb hs) j hj rfl (5 - j) j
      (by omega)
    have h2 : j + (5 - j) = 5 := by omega
    rw [h2] at h
    exact h
  · rw [if_neg h5]
    have h := HandleInput_moveRight_iterate (wellGame j s l lv d cb hs) j hj rfl (j - 5) 5
      (by omega)
    have h2 : 5 + (j - 5) = j := by omega
    rw [h2] at h
    exact h

theorem dropColumns_append (xs ys : List Nat) : ∀ g : Game,
    dropColumns (xs ++ ys) g = (dropColumns xs g).bind (dropColumns ys) := by
  induction xs with
  | nil => intro g; rfl
  | cons c cs ih =>
    intro g
    show (HandleInput_hardDrop (steerTo c g) 0).bind (dropColumns (cs ++ ys))
      = ((HandleInput_hardDrop (steerTo c g) 0).bind (dropColumns cs)).bind (dropColumns ys)
    cases HandleInput_hardDrop (steerTo c g) 0 with
    | none => rfl
    | some g1 => exact ih g1

/-- Upright I-pieces dropped into columns `j` to `j + k` of `wellStack j`, as
long as column 9 stays free, give `wellStack (j + k + 1)` without a score. -/
theorem dropColumns_well (s l lv : Int) (d : F32) (hs : Int) : ∀ (k j : Nat) (cb : Int),
    j + k < 9 →
    dropColumns (List.range' j (k + 1)) (wellGame j s l lv d cb hs)
      = some (wellGame (j + k + 1) s l lv d 0 hs)
  | 0, j, cb, h => by
    show (HandleInput_hardDrop (steerTo j (wellGame j s l lv d cb hs)) 0).bind (dropColumns [])
      = some (wellGame (j + 0 + 1) s l lv d 0 hs)
    rw [steerTo_wellGame j (by omega), HandleInput_hardDrop_well ⟨j, by omega⟩]
    rfl
  | k + 1, j, cb, h => by
    show (HandleInput_hardDrop (steerTo j (wellGame j s l lv d cb hs)) 0).bind
        (dropColumns (List.range' (j + 1) (k + 1)))
      = some (wellGame (j + (k + 1) + 1) s l lv d 0 hs)
    rw [steerTo_wellGame j (by omega), HandleInput_hardDrop_well ⟨j, by omega⟩]
    have h1 := dropColumns_well s l lv d hs k (j + 1) 0 (by omega)
    have h2 : j + 1 + k + 1 = j + (k + 1) + 1 := by omega
    rw [h2] at h1
    exact h1

/-- Ten upright I-pieces dropped into columns 0 to 9 of the empty board: the
first nine locks score nothing, the tenth is the hard drop into column 9 of
`wellStack 9`. -/
theorem dropColumns_round (s l lv : Int) (d : F32) (cb hs : Int) :
    dropColumns (List.range 10) (wellGame 0 s l lv d cb hs)
      = HandleInput_hardDrop { wellGame 9 s l lv d 0 hs with current := uprightI 9 } 0 := by
  have h : List.range 10 = List.range' 0 (8 + 1) ++ [9] := by decide
  have h9 : dropColumns (List.range' 0 (8 + 1)) (wellGame 0 s l lv d cb hs)
      = some (wellGame 9 s l lv d 0 hs) := dropColumns_well s l lv d hs 8 0 cb (by decide)
  rw [h, dropColumns_append, h9, Option.some_bind, dropColumns,
    steerTo_wellGame 9 (by decide)]
  cases HandleInput_hardDrop { wellGame 9 s l lv d 0 hs with current := uprightI 9 } 0 with
  | none => rfl
  | some g1 => rw [Option.some_bind, dropColumns]

/-- Thirty upright I-pieces dropped into columns 0 to 9, three times over, in
a new game: three locks clear four rows each, and the session has 12 lines,
level 2, the delay `0.9f` and the score 2400. -/
theorem dropColumns_thirty :
    dropColumns (List.range 10 ++ List.range 10 ++ List.range 10) (InitGame gapGame 0 0)
      = some (wellGame 0 2400 12 2 ⟨7549747, -23⟩ 1 2400) := by
  have h0 : InitGame gapGame 0 0 = wellGame 0 0 0 1 F32.one 0 0 := by
    unfold wellGame
    rw [wellStack_zero]
    rfl
  obtain ⟨h1, h2, h3⟩ := well_clear_rounds
  rw [h0, dropColumns_append, dropColumns_append, dropColumns_round, h1, Option.some_bind,
    dropColumns_round, h2, Option.some_bind, dropColumns_round, h3]

theorem Step_moveLeft (g : Game) : Step g (HandleInput_moveLeft g) := by
  have h : HandleInput_moveLeft g
      = { g with current := (HandleInput_moveLeft g).current, softDropY := g.softDropY,
                 timer := g.timer } := by
    unfold HandleInput_moveLeft
    simp only
    split <;> rfl
  rw [h]
  exact Step.move g _ _ _

theorem Step_moveRight (g : Game) : Step g (HandleInput_moveRight g) := by
  have h : HandleInput_moveRight g
      = { g with current := (HandleInput_moveRight g).current, softDropY := g.softDropY,
                 timer := g.timer } := by
    unfold HandleInput_moveRight
    simp only
    split <;> rfl
  rw [h]
  exact Step.move g _ _ _

theorem Reachable_iterate (f : Game → Game) (hf : ∀ g, Step g (f g)) :
    ∀ (k : Nat) (g : Game), Reachable g → Reachable (f^[k] g)
  | 0, _, h => h
  | k + 1, g, h => by
    rw [Function.iterate_succ_apply]
    exact Reachable_iterate f hf k (f g) (Reachable.step _ _ h (hf g))

theorem Reachable_steerTo (c : Nat) (g : Game) (h : Reachable g) : Reachable (steerTo c g) := by
  have hr : Reachable (HandleInput_rotate g) :=
    Reachable.step _ _ h (Step.move g (RotateTetromino g.board g.current) g.softDropY g.timer)
  unfold steerTo
  split
  · exact Reachable_iterate _ Step_moveLeft _ _ hr
  · exact Reachable_iterate _ Step_moveRight _ _ hr

/-- A session reached by steering and hard-dropping pieces from a reachable
session is reachable. -/
theorem Reachable_dropColumns : ∀ (cs : List Nat) (g g1 : Game),
    Reachable g → dropColumns cs g = some g1 → Reachable g1
  | [], g, g1, h, he => by
    cases he
    exact h
  | c :: cs, g, g1, h, he => by
    cases hd : HandleInput_hardDrop (steerTo c g) 0 with
    | none =>
      rw [dropColumns, hd] at he
      cases he
    | some g2 =>
      rw [dropColumns, hd] at he
      exact Reachable_dropColumns cs g2 g1
        (Reachable.step _ _ (Reachable_steerTo c g h) (Step.hardDrop _ _ 0 hd)) he

/-- Thirty upright I-pieces are steered into columns 0 to 9, three times
over, and hard-dropped in a new game: every tenth lock clears four rows.  The
session reached has 12 lines after three clearing locks and lies on the level
curve with level 2 and the delay `0.9f`, which is not below `0.1f`. -/
theorem C13_level_curve_witness :
    ∃ g1 : Game,
      dropColumns (List.range 10 ++ List.range 10 ++ List.range 10) (InitGame gapGame 0 0)
        = some g1 ∧
      Reachable g1 ∧ g1.score = 2400 ∧ g1.lines = 12 ∧ g1.level = 2 ∧
      g1.delay = ⟨7549747, -23⟩ ∧
      g1.level = 1 + g1.lines / 10 ∧ g1.delay = specDelay g1.level ∧
      F32.lt g1.delay F32.tenth = false := by
  have hr : Reachable (wellGame 0 2400 12 2 ⟨7549747, -23⟩ 1 2400) :=
    Reachable_dropColumns _ _ _ (Reachable.init gapGame 0 0) dropColumns_thirty
  obtain ⟨_, h2, h3, _, h5, _⟩ := C13_level_curve _ hr
  exact ⟨_, dropColumns_thirty, hr, rfl, rfl, rfl, rfl, h2, h3, h5⟩

/-! ### EvaluateMove -/

theorem evalMergeCell_grid (t : Tetromino) (i j : Fin 4) (b : Board) :
    evalMergeCell t i j b.grid = (mergeCell t i j b).grid := by
  unfold evalMergeCell mergeCell
  split
  · split <;> rfl
  · rfl

theorem testGridRow_grid (t : Tetromino) (i : Fin 4) : ∀ (js : List (Fin 4)) (b : Board),
    js.foldl (fun a2 j => evalMergeCell t i j a2) b.grid
      = (js.foldl (fun b2 j => mergeCell t i j b2) b).grid := by
  intro js
  induction js with
  | nil => intro b; rfl
  | cons j js ih =>
    intro b
    rw [List.foldl_cons, List.foldl_cons, evalMergeCell_grid, ih]

theorem testGridRows_grid (t : Tetromino) (js : List (Fin 4)) :
    ∀ (is : List (Fin 4)) (b : Board),
      is.foldl (fun a1 i => js.foldl (fun a2 j => evalMergeCell t i j a2) a1) b.grid
        = (is.foldl (fun b1 i => js.foldl (fun b2 j => mergeCell t i j b2) b1) b).grid := by
  intro is
  induction is with
  | nil => intro b; rfl
  | cons i is ih =>
    intro b
    rw [List.foldl_cons, List.foldl_cons, testGridRow_grid, ih]

/-- The array `testGrid` of `EvaluateMove` is the occupancy grid of the board
with the piece merged. -/
theorem testGridOf_eq (b : Board) (t : Tetromino) :
    testGridOf b.grid t = (MergeToGrid b t).grid :=
  testGridRows_grid t _ _ b

theorem find?_sorted_min {n : Nat} (p : Fin n → Bool) : ∀ (l : List (Fin n)),
    l.Pairwise (· < ·) → ∀ y, l.find? p = some y → ∀ z ∈ l, p z = true → y ≤ z := by
  intro l
  induction l with
  | nil => intro _ y h; cases h
  | cons a l ih =>
    intro hs y h z hz hpz
    rw [List.find?_cons] at h
    rw [List.pairwise_cons] at hs
    cases hpa : p a with
    | true =>
      rw [hpa] at h
      have : a = y := Option.some.inj h
      subst this
      rcases List.mem_cons.1 hz with e | e
      · rw [e]
      · exact le_of_lt (hs.1 z e)
    | false =>
      rw [hpa] at h
      rcases List.mem_cons.1 hz with e | e
      · rw [e, hpa] at hpz; cases hpz
      · exact ih hs.2 y h z e hpz

theorem finRange_find?_eq {n : Nat} (q : Fin n → Prop) [DecidablePred q] (p : Fin n → Bool)
    (hpq : ∀ y, p y = true ↔ q y) : (List.finRange n).find? p = Fin.find q := by
  cases h : (List.finRange n).find? p with
  | none =>
    symm
    rw [Fin.find_eq_none_iff]
    intro i hi
    have := (List.find?_eq_none.1 h) i (List.mem_finRange i)
    exact this ((hpq i).2 hi)
  | some y =>
    symm
    rw [Fin.find_eq_some_iff]
    refine ⟨(hpq y).1 (List.find?_some h), ?_⟩
    intro j hj
    exact find?_sorted_min p _ (List.pairwise_lt_finRange n) y h j (List.mem_finRange j)
      ((hpq j).2 hj)

theorem columnHeight_eq (a : Fin ROWS → Fin COLS → Int) (x : Fin COLS) :
    columnHeight a x = specColumnHeight a x := by
  unfold columnHeight specColumnHeight
  rw [finRange_find?_eq (fun y : Fin ROWS => a y x ≠ 0) (fun y => a y x != 0)
    (fun y => by simp)]

theorem card_filter_univ_fin {n : Nat} (q : Fin n → Prop) [DecidablePred q] (p : Fin n → Bool)
    (hpq : ∀ y, p y = true ↔ q y) :
    (Finset.univ.filter q).card = ((List.finRange n).filter p).length := by
  have hp : p = fun y => decide (q y) := by
    funext y
    by_cases h : q y
    · simp [h, (hpq y).2 h]
    · have : p y = false := by
        cases hb : p y with
        | false => rfl
        | true => exact absurd ((hpq y).1 hb) h
      simp [h, this]
  rw [hp, Fin.univ_def]
  rfl

theorem aggregateHeight_eq (a : Fin ROWS → Fin COLS → Int) :
    aggregateHeight a = specAggregateHeight a := by
  unfold aggregateHeight specAggregateHeight
  rw [Fin.sum_univ_def]
  congr 1
  apply List.map_congr_left
  intro x _
  exact columnHeight_eq a x

theorem completeLines_eq (a : Fin ROWS → Fin COLS → Int) :
    completeLines a = (specCompleteLines a : Int) := by
  unfold completeLines specCompleteLines
  rw [card_filter_univ_fin (fun y : Fin ROWS => ∀ x : Fin COLS, a y x ≠ 0)
    (fun y => (List.finRange COLS).all fun x => a y x != 0)]
  intro y
  simp [List.all_eq_true]

theorem bumpiness_eq (a : Fin ROWS → Fin COLS → Int) : bumpiness a = specBumpiness a := by
  unfold bumpiness specBumpiness
  rw [Fin.sum_univ_def]
  congr 1
  apply List.map_congr_left
  intro x _
  rw [columnHeight_eq, columnHeight_eq]
  exact Int.natCast_natAbs _

/-- The loop invariant of the holes count in one column: on a sorted list of
rows whose earlier rows are summarised by the flag, the loop adds the number of
rows that are empty and lie under an occupied cell. -/
theorem holes_fold (a : Fin ROWS → Fin COLS → Int) (x : Fin COLS) :
    ∀ (l : List (Fin ROWS)) (bf : Bool) (h : Int), l.Pairwise (· < ·) →
      (∀ y ∈ l, (∃ y1 : Fin ROWS, y1 < y ∧ a y1 x ≠ 0) ↔
        (bf = true ∨ ∃ y1 ∈ l, y1 < y ∧ a y1 x ≠ 0)) →
      (l.foldl
        (fun st y => if a y x != 0 then (true, st.2) else if st.1 then (st.1, st.2 + 1) else st)
        (bf, h)).2
        = h + (l.filter fun y =>
            decide (a y x = 0 ∧ ∃ y1 : Fin ROWS, y1 < y ∧ a y1 x ≠ 0)).length := by
  intro l
  induction l with
  | nil => intro bf h _ _; simp
  | cons y l ih =>
    intro bf h hs hH
    rw [List.pairwise_cons] at hs
    have hhead : (∃ y1 : Fin ROWS, y1 < y ∧ a y1 x ≠ 0) ↔ bf = true := by
      rw [hH y (List.mem_cons_self y l)]
      constructor
      · rintro (hb | ⟨y1, hy1, hlt, _⟩)
        · exact hb
        · rcases List.mem_cons.1 hy1 with e | e
          · rw [e] at hlt; exact absurd hlt (lt_irrefl _)
          · exact absurd hlt (not_lt.2 (le_of_lt (hs.1 y1 e)))
      · intro hb; exact Or.inl hb
    have htail : ∀ bf1 : Bool, (bf1 = true ↔ (bf = true ∨ a y x ≠ 0)) →
        ∀ z ∈ l, (∃ y1 : Fin ROWS, y1 < z ∧ a y1 x ≠ 0) ↔
          (bf1 = true ∨ ∃ y1 ∈ l, y1 < z ∧ a y1 x ≠ 0) := by
      intro bf1 hbf1 z hz
      rw [hH z (List.mem_cons_of_mem y hz), hbf1]
      constructor
      · rintro (hb | ⟨y1, hy1, hlt, hocc⟩)
        · exact Or.inl (Or.inl hb)
        · rcases List.mem_cons.1 hy1 with e | e
          · rw [e] at hocc; exact Or.inl (Or.inr hocc)
          · exact Or.inr ⟨y1, e, hlt, hocc⟩
      · rintro ((hb | hocc) | ⟨y1, hy1, hlt, hocc⟩)
        · exact Or.inl hb
        · exact Or.inr ⟨y, List.mem_cons_self y l, hs.1 z hz, hocc⟩
        · exact Or.inr ⟨y1, List.mem_cons_of_mem y hy1, hlt, hocc⟩
    rw [List.foldl_cons, List.filter_cons]
    by_cases hocc : a y x = 0
    · have hne : (a y x != 0) = false := by simp [hocc]
      simp only [hne, Bool.false_eq_true, if_false]
      by_cases hb : bf = true
      · have hdec : decide (a y x = 0 ∧ ∃ y1 : Fin ROWS, y1 < y ∧ a y1 x ≠ 0) = true := by
          rw [decide_eq_true_iff]
          exact ⟨hocc, hhead.2 hb⟩
        rw [if_pos hb, hdec, if_pos rfl, List.length_cons]
        rw [ih bf (h + 1) hs.2 (htail bf (by simp [hocc]))]
        push_cast
        ring
      · have hdec : decide (a y x = 0 ∧ ∃ y1 : Fin ROWS, y1 < y ∧ a y1 x ≠ 0) = false := by
          rw [decide_eq_false_iff_not]
          rintro ⟨_, hex⟩
          exact hb (hhead.1 hex)
        rw [if_neg hb, hdec]
        simp only [Bool.false_eq_true, if_false]
        exact ih bf h hs.2 (htail bf (by simp [hocc]))
    · have hne : (a y x != 0) = true := by simp [hocc]
      have hdec : decide (a y x = 0 ∧ ∃ y1 : Fin ROWS, y1 < y ∧ a y1 x ≠ 0) = false := by
        rw [decide_eq_false_iff_not]
        rintro ⟨h0, _⟩
        exact hocc h0
      simp only [hne, if_true, hdec, Bool.false_eq_true, if_false]
      exact ih true h hs.2 (htail true (by simp [hocc]))

theorem holesInColumn_eq (a : Fin ROWS → Fin COLS → Int) (x : Fin COLS) :
    (holesInColumn a x).2 =
      ((Finset.univ.filter fun y : Fin ROWS =>
        a y x = 0 ∧ ∃ y1 : Fin ROWS, y1 < y ∧ a y1 x ≠ 0).card : Int) := by
  unfold holesInColumn
  rw [holes_fold a x _ false 0 (List.pairwise_lt_finRange ROWS)]
  · rw [card_filter_univ_fin
      (fun y : Fin ROWS => a y x = 0 ∧ ∃ y1 : Fin ROWS, y1 < y ∧ a y1 x ≠ 0)
      (fun y => decide (a y x = 0 ∧ ∃ y1 : Fin ROWS, y1 < y ∧ a y1 x ≠ 0))
      (fun y => decide_eq_true_iff)]
    simp
  · intro y _
    constructor
    · rintro ⟨y1, h1, h2⟩
      exact Or.inr ⟨y1, List.mem_finRange y1, h1, h2⟩
    · rintro (h | ⟨y1, _, h1, h2⟩)
      · cases h
      · exact ⟨y1, h1, h2⟩

theorem holes_eq (a : Fin ROWS → Fin COLS → Int) : holes a = (specHoles a : Int) := by
  unfold holes specHoles
  rw [Fin.sum_univ_def, Nat.cast_list_sum, List.map_map]
  congr 1
  apply List.map_congr_left
  intro x _
  exact holesInColumn_eq a x

/-- The evaluation of a move is the weighted sum of the specification, for the
three difficulties. -/
theorem EvaluateMove_eq_spec (g : Game) (t : Tetromino) (dropPosition rotations : Int) :
    EvaluateMove g t dropPosition rotations = specEvaluate g t := by
  unfold EvaluateMove specEvaluate specWeights
  simp only [testGridOf_eq, aggregateHeight_eq, completeLines_eq, holes_eq, bumpiness_eq]
  have hcond : (t.type = g.held.type ∧ g.hasHeld = true) ↔
      (g.hasHeld = true ∧ g.held.type = t.type) := by
    constructor
    · rintro ⟨h1, h2⟩; exact ⟨h2, h1.symm⟩
    · rintro ⟨h1, h2⟩; exact ⟨h2.symm, h1⟩
  simp only [hcond]
  by_cases h0 : g.autoPlayLevel = 0
  · have h02 : ¬ ((0 : Int) = 2) := by decide
    simp only [h0, if_true, h02, if_false]
  · by_cases h2 : g.autoPlayLevel = 2
    · simp only [h2, if_true, if_false]
      rfl
    · simp only [h0, h2, if_false]

/-- The height of a column is `ROWS - y` for its topmost occupied row `y`, and
0 when the column has no occupied cell. -/
theorem specColumnHeight_topmost (a : Fin ROWS → Fin COLS → Int) (x : Fin COLS) :
    (∀ y : Fin ROWS, a y x ≠ 0 → (∀ y1 : Fin ROWS, y1 < y → a y1 x = 0) →
      specColumnHeight a x = (ROWS : Int) - y.val) ∧
    ((∀ y : Fin ROWS, a y x = 0) → specColumnHeight a x = 0) := by
  constructor
  · intro y hy hmin
    have hfind : Fin.find (fun y : Fin ROWS => a y x ≠ 0) = some y := by
      rw [Fin.find_eq_some_iff]
      refine ⟨hy, ?_⟩
      intro j hj
      by_contra hcon
      exact hj (hmin j (lt_of_not_le hcon))
    unfold specColumnHeight
    rw [hfind]
  · intro hall
    have hfind : Fin.find (fun y : Fin ROWS => a y x ≠ 0) = none := by
      rw [Fin.find_eq_none_iff]
      intro i hi
      exact hi (hall i)
    unfold specColumnHeight
    rw [hfind]

/-- The `float` constants of the evaluation are the binary32 numbers nearest
to their decimal literals (each within half a unit in the last place). -/
theorem AI_weights_nearest :
    |AI_HEIGHT_WEIGHT.toRat - (-510066 / 1000000)| ≤ 2 ^ (-25 : Int) ∧
    |AI_LINES_WEIGHT.toRat - 760666 / 1000000| ≤ 2 ^ (-24 : Int) ∧
    |AI_HOLES_WEIGHT.toRat - (-35663 / 100000)| ≤ 2 ^ (-26 : Int) ∧
    |AI_BUMPINESS_WEIGHT.toRat - (-184483 / 1000000)| ≤ 2 ^ (-27 : Int) ∧
    |F32.lit07.toRat - 7 / 10| ≤ 2 ^ (-25 : Int) ∧ |F32.lit06.toRat - 6 / 10| ≤ 2 ^ (-24 : Int) ∧
    |F32.lit12.toRat - 12 / 10| ≤ 2 ^ (-23 : Int) ∧
    |F32.lit13.toRat - 13 / 10| ≤ 2 ^ (-23 : Int) ∧
    |F32.tenth.toRat - 1 / 10| ≤ 2 ^ (-28 : Int) ∧
    F32.half.toRat = 1 / 2 ∧ F32.two.toRat = 2 ∧ F32.one.toRat = 1 := by
  norm_num [F32.toRat, AI_HEIGHT_WEIGHT, AI_LINES_WEIGHT, AI_HOLES_WEIGHT, AI_BUMPINESS_WEIGHT,
    F32.lit07, F32.lit06, F32.lit12, F32.lit13, F32.tenth, F32.half, F32.two, F32.one, abs_le]

/-- C18: for every difficulty (0, 1, 2 and the default) `EvaluateMove` returns the weighted
sum `W_h·H + W_l·L + W_o·O + W_b·B` (in `float`, summed from left to right),
plus `0.5` when a held piece exists and has the type of the evaluated piece.
The features are those of the grid with the piece merged: `H` the sum of the
column heights (`ROWS` minus the topmost occupied row, 0 for an empty column),
`L` the number of full rows, `O` the number of empty cells under an occupied
cell of their column, `B` the sum of the absolute differences of adjacent
column heights.  The weights are the base weights for Medium, `W_h·0.7` and
`W_o·0.6` for Beginner, `W_l·1.2` and `W_o·1.3` for Expert.  The function
returns a number only: the board of the session is not touched. -/
theorem C18_EvaluateMove_weighted_sum (g : Game) (t : Tetromino)
    (dropPosition rotations : Int) :
    EvaluateMove g t dropPosition rotations = specEvaluate g t ∧
    (g.autoPlayLevel = 0 → specWeights g.autoPlayLevel =
      (F32.mul AI_HEIGHT_WEIGHT F32.lit07, AI_LINES_WEIGHT,
        F32.mul AI_HOLES_WEIGHT F32.lit06, AI_BUMPINESS_WEIGHT)) ∧
    (g.autoPlayLevel = 1 → specWeights g.autoPlayLevel =
      (AI_HEIGHT_WEIGHT, AI_LINES_WEIGHT, AI_HOLES_WEIGHT, AI_BUMPINESS_WEIGHT)) ∧
    (g.autoPlayLevel = 2 → specWeights g.autoPlayLevel =
      (AI_HEIGHT_WEIGHT, F32.mul AI_LINES_WEIGHT F32.lit12,
        F32.mul AI_HOLES_WEIGHT F32.lit13, AI_BUMPINESS_WEIGHT)) ∧
    (∀ x : Fin COLS,
      (∀ y : Fin ROWS, (MergeToGrid g.board t).grid y x ≠ 0 →
        (∀ y1 : Fin ROWS, y1 < y → (MergeToGrid g.board t).grid y1 x = 0) →
        specColumnHeight (MergeToGrid g.board t).grid x = (ROWS : Int) - y.val) ∧
      ((∀ y : Fin ROWS, (MergeToGrid g.board t).grid y x = 0) →
        specColumnHeight (MergeToGrid g.board t).grid x = 0)) := by
  refine ⟨EvaluateMove_eq_spec g t dropPosition rotations, ?_, ?_, ?_, ?_⟩
  · intro h; rw [h]; rfl
  · intro h; rw [h]; rfl
  · intro h; rw [h]; rfl
  · intro x
    exact specColumnHeight_topmost _ x

/-- The I-piece resting in the gap of row 19, Medium difficulty. -/
theorem C18_EvaluateMove_weighted_sum_witness :
    EvaluateMove gapGame { tetrominoes 0 with y := 18 } 18 0
      = specEvaluate gapGame { tetrominoes 0 with y := 18 } :=
  (C18_EvaluateMove_weighted_sum gapGame { tetrominoes 0 with y := 18 } 18 0).1

/-! ### The search of the auto-player -/

theorem foldl_bind_pairs {α : Type} (f : α → Nat × Int → α) (rs : List Nat) (xs : List Int)
    (init : α) :
    (rs.flatMap fun r => xs.map fun x => (r, x)).foldl f init
      = rs.foldl (fun acc r => xs.foldl (fun acc x => f acc (r, x)) acc) init := by
  induction rs generalizing init with
  | nil => rfl
  | cons r rs ih =>
    simp only [List.flatMap_cons, List.foldl_append, List.foldl_map, List.foldl_cons, ih]

/-- One step of the flattened second search. -/
theorem currentSearch_flat (g : Game) (piece : Tetromino) (bs : EF32) :
    currentSearch g piece bs
      = scanOrder.foldl
          (fun acc c => currentSearchColumn g ((RotateTetromino g.board)^[c.1] piece) c.1 acc c.2)
          (some ⟨bs, 0, 0⟩) := by
  rw [scanOrder, foldl_bind_pairs]
  rfl

theorem heldSearch_flat (g : Game) (piece : Tetromino) :
    heldSearch g piece
      = scanOrder.foldl
          (fun acc c => heldSearchColumn g ((RotateTetromino g.board)^[c.1] piece) c.1 acc c.2)
          (some EF32.negInf) := by
  rw [scanOrder, foldl_bind_pairs]
  rfl

theorem mem_searchColumns (x : Int) : x ∈ searchColumns ↔ -3 ≤ x ∧ x ≤ COLS + 2 := by
  have hC : COLS = 10 := rfl
  unfold searchColumns
  rw [List.mem_map]
  constructor
  · rintro ⟨k, hk, rfl⟩
    rw [List.mem_range] at hk
    constructor <;> omega
  · rintro ⟨h1, h2⟩
    refine ⟨(x + 3).toNat, ?_, ?_⟩
    · rw [List.mem_range]
      omega
    · omega

theorem mem_scanOrder (c : Nat × Int) :
    c ∈ scanOrder ↔ c.1 < AI_MAX_ROTATIONS ∧ -3 ≤ c.2 ∧ c.2 ≤ COLS + 2 := by
  obtain ⟨r, x⟩ := c
  unfold scanOrder
  rw [List.mem_flatMap]
  constructor
  · rintro ⟨r1, hr, hx⟩
    rw [List.mem_map] at hx
    obtain ⟨x1, hx1, heq⟩ := hx
    rw [Prod.mk.injEq] at heq
    obtain ⟨rfl, rfl⟩ := heq
    exact ⟨List.mem_range.1 hr, (mem_searchColumns _).1 hx1⟩
  · rintro ⟨hr, hx⟩
    exact ⟨r, List.mem_range.2 hr, List.mem_map.2 ⟨x, (mem_searchColumns x).2 hx, rfl⟩⟩

set_option maxRecDepth 100000 in
theorem scanOrder_sorted : scanOrder.Pairwise scanBefore := by decide

theorem F32.lt_trans_true {a b c : F32} (h1 : F32.lt a b = true) (h2 : F32.lt b c = true) :
    F32.lt a c = true := by
  rw [F32.lt_iff_toRat] at *
  exact lt_trans h1 h2

theorem F32.lt_of_not_lt_of_lt {a b c : F32} (h1 : F32.lt b a = false)
    (h2 : F32.lt b c = true) : F32.lt a c = true := by
  have h1n : ¬ (b.toRat < a.toRat) := by
    rw [← F32.lt_iff_toRat, h1]
    decide
  rw [F32.lt_iff_toRat] at *
  exact lt_of_le_of_lt (not_lt.1 h1n) h2

theorem SearchInv_nil (g : Game) (piece : Tetromino) :
    SearchInv g piece [] ⟨EF32.negInf, 0, 0⟩ :=
  Or.inl ⟨rfl, fun _ h => absurd h (List.not_mem_nil _)⟩

/-- One candidate more keeps the invariant of the search. -/
theorem SearchInv_step (g : Game) (piece : Tetromino) (seen : List (Nat × Int))
    (st : BestMove) (c : Nat × Int) (o : Option F32)
    (hc : candidateScore g piece c = some o) (h : SearchInv g piece seen st) :
    ∃ st1, currentSearchColumn g ((RotateTetromino g.board)^[c.1] piece) c.1 (some st) c.2
        = some st1 ∧ SearchInv g piece (seen ++ [c]) st1 := by
  have hc1 : scoreCandidate g ((RotateTetromino g.board)^[c.1] piece) c.1 c.2 = some o := hc
  cases o with
  | none =>
    refine ⟨st, ?_, ?_⟩
    · simp only [currentSearchColumn, hc1]
    · rcases h with ⟨hst, hall⟩ | ⟨s, pre, c0, post, hseen, hst, hs, hpre, hpost⟩
      · refine Or.inl ⟨hst, fun d hd => ?_⟩
        rcases List.mem_append.1 hd with hd | hd
        · exact hall d hd
        · rw [List.mem_singleton.1 hd]
          exact hc
      · refine Or.inr ⟨s, pre, c0, post ++ [c], ?_, hst, hs, hpre, fun d hd s1 hs1 => ?_⟩
        · rw [hseen, List.append_assoc, List.cons_append]
        · rcases List.mem_append.1 hd with hd | hd
          · exact hpost d hd s1 hs1
          · rw [List.mem_singleton.1 hd, hc] at hs1
            exact absurd hs1 (by simp)
  | some sc =>
    rcases h with ⟨hst, hall⟩ | ⟨s, pre, c0, post, hseen, hst, hs, hpre, hpost⟩
    · refine ⟨⟨EF32.fin sc, c.2, c.1⟩, ?_, ?_⟩
      · simp only [currentSearchColumn, hc1, hst, EF32.gt, if_true]
      · refine Or.inr ⟨sc, seen, c, [], rfl, rfl, hc, fun d hd s1 hs1 => ?_,
          fun d hd => absurd hd (List.not_mem_nil _)⟩
        rw [hall d hd] at hs1
        exact absurd hs1 (by simp)
    · cases hlt : F32.lt s sc with
      | true =>
        refine ⟨⟨EF32.fin sc, c.2, c.1⟩, ?_, ?_⟩
        · simp only [currentSearchColumn, hc1, hst, EF32.gt, hlt, if_true]
        · refine Or.inr ⟨sc, seen, c, [], rfl, rfl, hc, fun d hd s1 hs1 => ?_,
            fun d hd => absurd hd (List.not_mem_nil _)⟩
          rw [hseen] at hd
          rcases List.mem_append.1 hd with hd | hd
          · exact F32.lt_trans_true (hpre d hd s1 hs1) hlt
          · rcases List.mem_cons.1 hd with hd | hd
            · rw [hd, hs] at hs1
              have : s = s1 := by simpa using hs1
              rw [← this]
              exact hlt
            · exact F32.lt_of_not_lt_of_lt (hpost d hd s1 hs1) hlt
      | false =>
        refine ⟨st, ?_, ?_⟩
        · simp only [currentSearchColumn, hc1, hst, EF32.gt, hlt]
          rfl
        · refine Or.inr ⟨s, pre, c0, post ++ [c], ?_, hst, hs, hpre, fun d hd s1 hs1 => ?_⟩
          · rw [hseen, List.append_assoc, List.cons_append]
          · rcases List.mem_append.1 hd with hd | hd
            · exact hpost d hd s1 hs1
            · rw [List.mem_singleton.1 hd, hc] at hs1
              have : sc = s1 := by simpa using hs1
              rw [← this]
              exact hlt

/-- The search over a list of candidates that all return: it returns, and the
invariant holds of the result. -/
theorem SearchInv_foldl (g : Game) (piece : Tetromino) :
    ∀ (todo seen : List (Nat × Int)) (st : BestMove),
      (∀ c ∈ todo, candidateScore g piece c ≠ none) → SearchInv g piece seen st →
      ∃ st1, todo.foldl
          (fun acc c => currentSearchColumn g ((RotateTetromino g.board)^[c.1] piece) c.1 acc c.2)
          (some st) = some st1 ∧ SearchInv g piece (seen ++ todo) st1
  | [], seen, st, _, h => ⟨st, rfl, by rw [List.append_nil]; exact h⟩
  | c :: todo, seen, st, hall, h => by
    obtain ⟨o, ho⟩ := Option.ne_none_iff_exists'.1 (hall c (List.mem_cons_self _ _))
    obtain ⟨st1, hst1, hinv⟩ := SearchInv_step g piece seen st c o ho h
    obtain ⟨st2, hst2, hinv2⟩ := SearchInv_foldl g piece todo (seen ++ [c]) st1
      (fun d hd => hall d (List.mem_cons_of_mem _ hd)) hinv
    refine ⟨st2, ?_, ?_⟩
    · rw [List.foldl_cons, hst1]
      exact hst2
    · rw [List.append_assoc] at hinv2
      exact hinv2

theorem rotateShape_nonEmpty (s : Fin 4 → Fin 4 → Int) (h : ∃ i j : Fin 4, s i j ≠ 0) :
    ∃ i j : Fin 4, rotateShape s i j ≠ 0 := by
  obtain ⟨i, j, hs⟩ := h
  refine ⟨j, ⟨3 - i.val, by omega⟩, ?_⟩
  have hi : (⟨3 - (3 - i.val), by omega⟩ : Fin 4) = i := by
    apply Fin.ext
    have := i.isLt
    show 3 - (3 - i.val) = i.val
    omega
  show s ⟨3 - (3 - i.val), _⟩ j ≠ 0
  rw [hi]
  exact hs

theorem tryKicks_shape (b : Board) (t : Tetromino) (m : Fin 4 → Fin 4 → Int) :
    ∀ (ks : List (Int × Int)) (t1 : Tetromino), tryKicks b t m ks = some t1 → t1.shape = m
  | [], _, h => by simp [tryKicks] at h
  | k :: ks, t1, h => by
    unfold tryKicks at h
    split at h
    · rw [← Option.some.inj h]
    · exact tryKicks_shape b t m ks t1 h

theorem RotateTetromino_shape (b : Board) (t : Tetromino) :
    (RotateTetromino b t).shape = t.shape ∨ (RotateTetromino b t).shape = rotateShape t.shape := by
  unfold RotateTetromino
  split
  · exact Or.inl rfl
  · simp only
    split
    · exact Or.inr rfl
    · split
      · next t1 h1 => exact Or.inr (tryKicks_shape b t _ _ t1 h1)
      · split
        · split
          · next t2 h2 => exact Or.inr (tryKicks_shape b t _ _ t2 h2)
          · exact Or.inl rfl
        · exact Or.inl rfl

theorem RotateTetromino_nonEmpty (b : Board) (t : Tetromino) (h : t.nonEmpty) :
    (RotateTetromino b t).nonEmpty := by
  unfold Tetromino.nonEmpty
  rcases RotateTetromino_shape b t with hs | hs
  · rw [hs]
    exact h
  · rw [hs]
    exact rotateShape_nonEmpty _ h

theorem RotateTetromino_iterate_nonEmpty (b : Board) (t : Tetromino) (h : t.nonEmpty) :
    ∀ r : Nat, ((RotateTetromino b)^[r] t).nonEmpty
  | 0 => h
  | r + 1 => by
    rw [Function.iterate_succ_apply']
    exact RotateTetromino_nonEmpty b _ (RotateTetromino_iterate_nonEmpty b t h r)

/-- A skipped candidate is one that collides at row 0. -/
theorem candidateScore_skipped (g : Game) (piece : Tetromino) (c : Nat × Int) :
    candidateScore g piece c = some none ↔
      CheckCollision g.board (candidatePiece g piece c) = true := by
  unfold candidateScore scoreCandidate candidatePiece
  split
  · next h => exact ⟨fun _ => h, fun _ => rfl⟩
  · next h =>
    constructor
    · intro h1
      split at h1 <;> simp at h1
    · intro h1
      exact absurd h1 h

/-- A scored candidate is one that does not collide at row 0; its score is
`EvaluateMove` of the piece at the row `GetDropPosition` returns. -/
theorem candidateScore_scored (g : Game) (piece : Tetromino) (c : Nat × Int) (s : F32) :
    candidateScore g piece c = some (some s) ↔
      CheckCollision g.board (candidatePiece g piece c) = false ∧
      ∃ dropPos, GetDropPosition g.board (candidatePiece g piece c) = some dropPos ∧
        s = EvaluateMove g { candidatePiece g piece c with y := dropPos } dropPos c.1 := by
  unfold candidateScore scoreCandidate candidatePiece
  split
  · next h =>
    constructor
    · intro h1
      simp at h1
    · rintro ⟨h1, _⟩
      rw [h] at h1
      exact absurd h1 (by decide)
  · next h =>
    have hf : CheckCollision g.board
        { (RotateTetromino g.board)^[c.1] piece with x := c.2, y := 0 } = false := by
      simpa using h
    constructor
    · intro h1
      refine ⟨hf, ?_⟩
      split at h1
      · simp at h1
      · next d hd =>
        refine ⟨d, hd, ?_⟩
        have := Option.some.inj (Option.some.inj h1)
        exact this.symm
    · rintro ⟨_, d, hd, hs⟩
      rw [hd, hs]

theorem candidateScore_ne_none (g : Game) (piece : Tetromino) (h : piece.nonEmpty)
    (c : Nat × Int) : candidateScore g piece c ≠ none := by
  have hne : (candidatePiece g piece c).nonEmpty := RotateTetromino_iterate_nonEmpty g.board piece h c.1
  have hd := GetDropPosition_isSome g.board (candidatePiece g piece c) hne
  obtain ⟨d, hd1⟩ := Option.isSome_iff_exists.1 hd
  cases hcol : CheckCollision g.board (candidatePiece g piece c) with
  | true =>
    rw [(candidateScore_skipped g piece c).2 hcol]
    simp
  | false =>
    rw [(candidateScore_scored g piece c _).2 ⟨hcol, d, hd1, rfl⟩]
    simp

/-- The second search from `-INFINITY` returns, and its result satisfies the
invariant over the whole scan order. -/
theorem currentSearch_inv (g : Game) (piece : Tetromino) (h : piece.nonEmpty) :
    ∃ best, currentSearch g piece EF32.negInf = some best ∧
      SearchInv g piece scanOrder best := by
  obtain ⟨st, hst, hinv⟩ := SearchInv_foldl g piece scanOrder [] ⟨EF32.negInf, 0, 0⟩
    (fun c _ => candidateScore_ne_none g piece h c) (SearchInv_nil g piece)
  rw [List.nil_append] at hinv
  exact ⟨st, by rw [currentSearch_flat]; exact hst, hinv⟩

theorem heldSearchColumn_map (g : Game) (tp : Tetromino) (r : Nat) (acc : Option BestMove)
    (x : Int) :
    heldSearchColumn g tp r (acc.map BestMove.bestScore) x
      = (currentSearchColumn g tp r acc x).map BestMove.bestScore := by
  cases acc with
  | none => rfl
  | some best =>
    simp only [heldSearchColumn, currentSearchColumn, Option.map_some']
    cases scoreCandidate g tp r x with
    | none => rfl
    | some o =>
      cases o with
      | none => rfl
      | some s =>
        simp only [Option.map_some']
        split <;> rfl

theorem heldSearch_foldl_map (g : Game) (piece : Tetromino) :
    ∀ (l : List (Nat × Int)) (acc : Option BestMove),
      l.foldl
          (fun a c => heldSearchColumn g ((RotateTetromino g.board)^[c.1] piece) c.1 a c.2)
          (acc.map BestMove.bestScore)
        = (l.foldl
          (fun a c => currentSearchColumn g ((RotateTetromino g.board)^[c.1] piece) c.1 a c.2)
          acc).map BestMove.bestScore
  | [], _ => rfl
  | c :: l, acc => by
    rw [List.foldl_cons, List.foldl_cons, heldSearchColumn_map]
    exact heldSearch_foldl_map g piece l _

/-- The first search computes the best score the second search would compute
for the same piece from `-INFINITY`. -/
theorem heldSearch_eq_currentSearch (g : Game) (piece : Tetromino) :
    heldSearch g piece = (currentSearch g piece EF32.negInf).map BestMove.bestScore := by
  rw [heldSearch_flat, currentSearch_flat]
  exact heldSearch_foldl_map g piece scanOrder (some ⟨EF32.negInf, 0, 0⟩)

/-- The best score of a piece with a candidate that does not collide at row 0
is finite. -/
theorem currentSearch_finite (g : Game) (piece : Tetromino) (h : piece.nonEmpty)
    (c : Nat × Int) (hc : c ∈ scanOrder)
    (hfree : CheckCollision g.board (candidatePiece g piece c) = false) :
    ∃ best s, currentSearch g piece EF32.negInf = some best ∧ best.bestScore = EF32.fin s := by
  obtain ⟨best, hbest, hinv⟩ := currentSearch_inv g piece h
  rcases hinv with ⟨_, hall⟩ | ⟨s, _, _, _, _, hst, _⟩
  · have h1 := (candidateScore_skipped g piece c).1 (hall c hc)
    rw [hfree] at h1
    cases h1
  · exact ⟨best, s, hbest, by rw [hst]⟩

/-- With the hold available the first block decides for the hold as soon as
its search finds a finite score. -/
theorem holdDecision_of_finite (g : Game) (s : F32) (hc : g.canHold = true)
    (hs : heldSearch g (if g.hasHeld then g.held else g.next) = some (EF32.fin s)) :
    holdDecision g = some (true, EF32.fin s) := by
  unfold holdDecision
  rw [if_pos hc, hs]
  rfl

/-- A decision against the hold leaves `bestScore` at `-INFINITY`. -/
theorem holdDecision_false (g : Game) (bs : EF32) (h : holdDecision g = some (false, bs)) :
    bs = EF32.negInf := by
  unfold holdDecision at h
  split at h
  · split at h
    · cases h
    · split at h
      · cases h
      · exact (Prod.mk.inj (Option.some.inj h)).2.symm
  · exact (Prod.mk.inj (Option.some.inj h)).2.symm

/-- With the hold available, the auto-player holds whenever the piece a hold
would make current has a candidate that does not collide at row 0: the scores
of the current piece play no part. -/
theorem EvaluateAndExecuteBestMove_holds (g : Game) (rnd : Nat) (hc : g.canHold = true)
    (hne : (if g.hasHeld then g.held else g.next).nonEmpty) (c : Nat × Int) (hmem : c ∈ scanOrder)
    (hfree : CheckCollision g.board
      (candidatePiece g (if g.hasHeld then g.held else g.next) c) = false) :
    EvaluateAndExecuteBestMove g rnd = some (HoldPiece g rnd) := by
  obtain ⟨best, s, hbest, hfin⟩ := currentSearch_finite g _ hne c hmem hfree
  have hs : heldSearch g (if g.hasHeld then g.held else g.next) = some (EF32.fin s) := by
    rw [heldSearch_eq_currentSearch, hbest, Option.map_some', hfin]
  unfold EvaluateAndExecuteBestMove
  rw [holdDecision_of_finite g s hc hs]
  rfl

theorem holdBugGame_nonEmpty : holdBugGame.next.nonEmpty :=
  ⟨0, 1, by decide⟩

set_option maxRecDepth 100000 in
theorem holdBugGame_free :
    CheckCollision holdBugGame.board (candidatePiece holdBugGame holdBugGame.next (0, 3))
      = false := by decide

/-- C19 (code evaluated at the failing input): in a new game whose current and
next piece are both the T-piece the hold is available and unused, the piece a
hold would make current is the next piece, and its best score equals the best
score of the current piece (so it does not exceed it by more than 2.0); the
auto-player nevertheless performs the hold, whatever `rand()` returns, and
places nothing on the board. -/
theorem C19_hold_ignores_current_piece (rnd : Nat) :
    holdBugGame.canHold = true ∧ holdBugGame.hasHeld = false ∧
    holdBugGame.next = holdBugGame.current ∧
    (∃ sAlt sCur : F32,
      heldSearch holdBugGame holdBugGame.next = some (EF32.fin sAlt) ∧
      (currentSearch holdBugGame holdBugGame.current EF32.negInf).map BestMove.bestScore
        = some (EF32.fin sCur) ∧
      sAlt = sCur ∧ ¬ (sCur.toRat + 2 < sAlt.toRat)) ∧
    EvaluateAndExecuteBestMove holdBugGame rnd = some (HoldPiece holdBugGame rnd) ∧
    (HoldPiece holdBugGame rnd).board = holdBugGame.board ∧
    (HoldPiece holdBugGame rnd).held = holdBugGame.current := by
  have hmem : ((0, 3) : Nat × Int) ∈ scanOrder := by
    rw [mem_scanOrder]
    decide
  obtain ⟨best, s, hbest, hfin⟩ := currentSearch_finite holdBugGame holdBugGame.next
    holdBugGame_nonEmpty (0, 3) hmem holdBugGame_free
  refine ⟨rfl, rfl, rfl, ⟨s, s, ?_, ?_, rfl, ?_⟩, ?_, rfl, rfl⟩
  · rw [heldSearch_eq_currentSearch, hbest, Option.map_some', hfin]
  · have hcur : holdBugGame.current = holdBugGame.next := rfl
    rw [hcur, hbest, Option.map_some', hfin]
  · linarith
  · exact EvaluateAndExecuteBestMove_holds holdBugGame rnd rfl holdBugGame_nonEmpty (0, 3) hmem
      holdBugGame_free

theorem scanBefore_irrefl (c : Nat × Int) : ¬ scanBefore c c := by
  unfold scanBefore
  omega

theorem scanBefore_asymm (c d : Nat × Int) (h : scanBefore c d) : ¬ scanBefore d c := by
  unfold scanBefore at *
  omega

/-- In a split of the scan order at `c`, the candidates before `c` in scan
order are those of the first part. -/
theorem scanOrder_split (pre post : List (Nat × Int)) (c : Nat × Int)
    (h : scanOrder = pre ++ c :: post) (d : Nat × Int) (hd : d ∈ scanOrder)
    (hb : scanBefore d c) : d ∈ pre := by
  have hs := scanOrder_sorted
  rw [h] at hs hd
  rw [List.pairwise_append] at hs
  obtain ⟨_, hcp, _⟩ := hs
  rw [List.pairwise_cons] at hcp
  rcases List.mem_append.1 hd with hd | hd
  · exact hd
  · rcases List.mem_cons.1 hd with hd | hd
    · rw [hd] at hb
      exact absurd hb (scanBefore_irrefl c)
    · exact absurd hb (scanBefore_asymm _ _ (hcp.1 d hd))

/-- The result of the second search from `-INFINITY`, in terms of the scan
order. -/
theorem currentSearch_best (g : Game) (piece : Tetromino) (h : piece.nonEmpty) :
    ∃ best, currentSearch g piece EF32.negInf = some best ∧
      ((∀ c ∈ scanOrder, CheckCollision g.board (candidatePiece g piece c) = true) →
        best = ⟨EF32.negInf, 0, 0⟩) ∧
      ((∃ c ∈ scanOrder, CheckCollision g.board (candidatePiece g piece c) = false) →
        ∃ s, best.bestScore = EF32.fin s ∧
          (best.bestRotations, best.bestX) ∈ scanOrder ∧
          candidateScore g piece (best.bestRotations, best.bestX) = some (some s) ∧
          (∀ d ∈ scanOrder, ∀ s1, candidateScore g piece d = some (some s1) →
            F32.lt s s1 = false) ∧
          (∀ d ∈ scanOrder, ∀ s1, candidateScore g piece d = some (some s1) →
            scanBefore d (best.bestRotations, best.bestX) → F32.lt s1 s = true)) := by
  obtain ⟨best, hbest, hinv⟩ := currentSearch_inv g piece h
  refine ⟨best, hbest, ?_, ?_⟩
  · intro hall
    rcases hinv with ⟨hst, _⟩ | ⟨s, pre, c, post, hseen, _, hs, _, _⟩
    · exact hst
    · have hc : c ∈ scanOrder := by
        rw [hseen]
        exact List.mem_append_right _ (List.mem_cons_self _ _)
      have h1 := ((candidateScore_scored g piece c s).1 hs).1
      rw [hall c hc] at h1
      cases h1
  · rintro ⟨c0, hc0, hfree⟩
    rcases hinv with ⟨_, hall⟩ | ⟨s, pre, c, post, hseen, hst, hs, hpre, hpost⟩
    · have h1 := (candidateScore_skipped g piece c0).1 (hall c0 hc0)
      rw [hfree] at h1
      cases h1
    · have hc : c ∈ scanOrder := by
        rw [hseen]
        exact List.mem_append_right _ (List.mem_cons_self _ _)
      have hpair : (best.bestRotations, best.bestX) = c := by rw [hst]
      rw [hpair]
      refine ⟨s, by rw [hst], hc, hs, fun d hd s1 hs1 => ?_, fun d hd s1 hs1 hb => ?_⟩
      · rw [hseen] at hd
        rcases List.mem_append.1 hd with hd | hd
        · cases hlt : F32.lt s s1 with
          | false => rfl
          | true =>
            have h1 := F32.lt_trans_true (hpre d hd s1 hs1) hlt
            have h2 := (F32.lt_iff_toRat s1 s1).1 h1
            exact absurd h2 (lt_irrefl _)
        · rcases List.mem_cons.1 hd with hd | hd
          · rw [hd, hs] at hs1
            have h1 : s = s1 := by simpa using hs1
            rw [← h1]
            cases hlt : F32.lt s s with
            | false => rfl
            | true => exact absurd ((F32.lt_iff_toRat s s).1 hlt) (lt_irrefl _)
          · exact hpost d hd s1 hs1
      · exact hpre d (scanOrder_split pre post c hseen d hd hb) s1 hs1

/-- After a decision against the hold the auto-player rotates the current
piece `bestRotations` times, walks it towards `bestX` and locks it. -/
theorem EvaluateAndExecuteBestMove_places (g : Game) (rnd : Nat) (bs : EF32) (best : BestMove)
    (hd : holdDecision g = some (false, bs))
    (hbest : currentSearch g g.current EF32.negInf = some best) :
    EvaluateAndExecuteBestMove g rnd =
      EvaluateAndExecuteBestMove_lock
        { g with
          current :=
            walkLeft g.board best.bestX
              ((walkRight g.board best.bestX
                  (best.bestX - ((RotateTetromino g.board)^[best.bestRotations] g.current).x).toNat
                  ((RotateTetromino g.board)^[best.bestRotations] g.current)).x
                - best.bestX).toNat
              (walkRight g.board best.bestX
                (best.bestX - ((RotateTetromino g.board)^[best.bestRotations] g.current).x).toNat
                ((RotateTetromino g.board)^[best.bestRotations] g.current)) } rnd := by
  have hbs := holdDecision_false g bs hd
  rw [hbs] at hd
  unfold EvaluateAndExecuteBestMove
  rw [hd]
  simp only [Bool.false_eq_true, if_false, hbest]

/-- C20: for a current piece with at least one occupied mask cell, a decision
against the hold leaves `bestScore` at `-INFINITY`, and the search that follows
returns a pair `(bestRotations, bestX)` with `bestRotations` in 0..3 and
`bestX` in -3..COLS+2.  The candidates are the pairs `(r, x)` in these
ranges; a candidate is scored exactly when the piece rotated `r` times and put
at column `x`, row 0 does not collide, and its score is `EvaluateMove` at the
row `GetDropPosition` returns.  When no candidate is scored the pair stays
`(0, 0)`.  Otherwise the pair is a scored candidate, no scored candidate has a
greater score, and every scored candidate before it in scan order (lower
rotation count, or the same rotation count and a lower column) has a smaller
score.  After a decision against the hold the piece is rotated
`bestRotations` times, walked towards `bestX` and locked. -/
theorem C20_search_picks_first_best (g : Game) (hne : g.current.nonEmpty) :
    (∀ bs, holdDecision g = some (false, bs) → bs = EF32.negInf) ∧
    (∀ c, c ∈ scanOrder ↔ c.1 < 4 ∧ -3 ≤ c.2 ∧ c.2 ≤ COLS + 2) ∧
    (∀ c, candidateScore g g.current c = some none ↔
      CheckCollision g.board (candidatePiece g g.current c) = true) ∧
    (∀ c s, candidateScore g g.current c = some (some s) ↔
      CheckCollision g.board (candidatePiece g g.current c) = false ∧
      ∃ dropPos, GetDropPosition g.board (candidatePiece g g.current c) = some dropPos ∧
        s = EvaluateMove g { candidatePiece g g.current c with y := dropPos } dropPos c.1) ∧
    ∃ best, currentSearch g g.current EF32.negInf = some best ∧
      best.bestRotations < 4 ∧ -3 ≤ best.bestX ∧ best.bestX ≤ COLS + 2 ∧
      ((∀ c ∈ scanOrder, CheckCollision g.board (candidatePiece g g.current c) = true) →
        best = ⟨EF32.negInf, 0, 0⟩) ∧
      ((∃ c ∈ scanOrder, CheckCollision g.board (candidatePiece g g.current c) = false) →
        ∃ s, best.bestScore = EF32.fin s ∧
          candidateScore g g.current (best.bestRotations, best.bestX) = some (some s) ∧
          (∀ d ∈ scanOrder, ∀ s1, candidateScore g g.current d = some (some s1) →
            F32.lt s s1 = false) ∧
          (∀ d ∈ scanOrder, ∀ s1, candidateScore g g.current d = some (some s1) →
            scanBefore d (best.bestRotations, best.bestX) → F32.lt s1 s = true)) ∧
      (∀ rnd bs, holdDecision g = some (false, bs) →
        EvaluateAndExecuteBestMove g rnd =
          EvaluateAndExecuteBestMove_lock
            { g with
              current :=
                walkLeft g.board best.bestX
                  ((walkRight g.board best.bestX
                      (best.bestX
                        - ((RotateTetromino g.board)^[best.bestRotations] g.current).x).toNat
                      ((RotateTetromino g.board)^[best.bestRotations] g.current)).x
                    - best.bestX).toNat
                  (walkRight g.board best.bestX
                    (best.bestX
                      - ((RotateTetromino g.board)^[best.bestRotations] g.current).x).toNat
                    ((RotateTetromino g.board)^[best.bestRotations] g.current)) } rnd) := by
  refine ⟨holdDecision_false g, mem_scanOrder, candidateScore_skipped g g.current,
    candidateScore_scored g g.current, ?_⟩
  obtain ⟨best, hbest, hnone, hsome⟩ := currentSearch_best g g.current hne
  have hrange : best.bestRotations < 4 ∧ -3 ≤ best.bestX ∧ best.bestX ≤ COLS + 2 := by
    by_cases hex : ∃ c ∈ scanOrder,
        CheckCollision g.board (candidatePiece g g.current c) = false
    · obtain ⟨s, _, hmem, _⟩ := hsome hex
      exact (mem_scanOrder _).1 hmem
    · have hall : ∀ c ∈ scanOrder,
          CheckCollision g.board (candidatePiece g g.current c) = true := by
        intro c hc
        cases hcol : CheckCollision g.board (candidatePiece g g.current c) with
        | true => rfl
        | false => exact absurd ⟨c, hc, hcol⟩ hex
      rw [hnone hall]
      decide
  refine ⟨best, hbest, hrange.1, hrange.2.1, hrange.2.2, hnone, fun hex => ?_,
    fun rnd bs hd => EvaluateAndExecuteBestMove_places g rnd bs best hd hbest⟩
  obtain ⟨s, h1, _, h3, h4, h5⟩ := hsome hex
  exact ⟨s, h1, h3, h4, h5⟩

/-- On `gapGame` (the I-piece over the board with a gap) the search returns a
pair in range. -/
theorem C20_search_picks_first_best_witness :
    gapGame.current.nonEmpty ∧
    ∃ best, currentSearch gapGame gapGame.current EF32.negInf = some best ∧
      best.bestRotations < 4 ∧ -3 ≤ best.bestX ∧ best.bestX ≤ COLS + 2 := by
  have hne : gapGame.current.nonEmpty := ⟨1, 0, by decide⟩
  obtain ⟨_, _, _, _, best, h1, h2, h3, h4, _⟩ := C20_search_picks_first_best gapGame hne
  exact ⟨hne, best, h1, h2, h3, h4⟩

/-! ### Termination of GetDropPosition -/

theorem GetDropPositionLoop_mono (b : Board) : ∀ (fuel : Nat) (t : Tetromino) (lowestY r : Int),
    GetDropPositionLoop b fuel t lowestY = some r →
    ∀ fuel1, fuel ≤ fuel1 → GetDropPositionLoop b fuel1 t lowestY = some r := by
  intro fuel
  induction fuel with
  | zero => intro t lowestY r h; simp [GetDropPositionLoop] at h
  | succ fuel ih =>
    intro t lowestY r h fuel1 hle
    obtain ⟨fuel2, rfl⟩ : ∃ fuel2, fuel1 = fuel2 + 1 := ⟨fuel1 - 1, by omega⟩
    rw [GetDropPositionLoop] at h ⊢
    by_cases hc : CheckCollision b { t with y := t.y + 1 } = true
    · rw [if_pos hc] at h ⊢
      exact h
    · rw [if_neg hc] at h ⊢
      exact ih _ _ _ h fuel2 (by omega)

/-- The row the loop returns is the row it started from, or a lower row at
which the piece does not collide. -/
theorem GetDropPositionLoop_result (b : Board) : ∀ (fuel : Nat) (t : Tetromino)
    (lowestY r : Int), GetDropPositionLoop b fuel t lowestY = some r →
    r = lowestY ∨ (t.y < r ∧ CheckCollision b { t with y := r } = false) := by
  intro fuel
  induction fuel with
  | zero => intro t lowestY r h; simp [GetDropPositionLoop] at h
  | succ fuel ih =>
    intro t lowestY r h
    rw [GetDropPositionLoop] at h
    by_cases hc : CheckCollision b { t with y := t.y + 1 } = true
    · rw [if_pos hc] at h
      exact Or.inl (Option.some.inj h).symm
    · rw [if_neg hc] at h
      rcases ih _ _ _ h with h1 | ⟨h1, h2⟩
      · refine Or.inr ⟨by rw [h1]; omega, ?_⟩
        rw [h1]
        simpa using hc
      · exact Or.inr ⟨by simp only at h1; omega, h2⟩

theorem tetrominoes_nonEmpty (k : Fin 7) : ∃ i j : Fin 4, (tetrominoes k).shape i j ≠ 0 := by
  fin_cases k
  · exact ⟨1, 0, by decide⟩
  · exact ⟨0, 0, by decide⟩
  · exact ⟨0, 1, by decide⟩
  · exact ⟨0, 1, by decide⟩
  · exact ⟨0, 0, by decide⟩
  · exact ⟨0, 0, by decide⟩
  · exact ⟨0, 2, by decide⟩

theorem rotateShape_iterate_nonEmpty (s : Fin 4 → Fin 4 → Int)
    (h : ∃ i j : Fin 4, s i j ≠ 0) : ∀ n : Nat, ∃ i j : Fin 4, rotateShape^[n] s i j ≠ 0
  | 0 => h
  | n + 1 => by
    rw [Function.iterate_succ_apply']
    exact rotateShape_nonEmpty _ (rotateShape_iterate_nonEmpty s h n)

/-- C25: for every board and every piece with an occupied mask cell
`GetDropPosition` returns: the loop ends within `max (ROWS - t.y) 0 + 1`
iterations, with the same row for every larger bound, the row returned is not
above the starting row, and unless it is the starting row the piece at that
row has every occupied cell at a row index below `ROWS`.  Each of the seven shapes of the
piece table, rotated any number of times, has an occupied cell, so
`GetDropPosition` returns for it at every position on every board. -/
theorem C25_GetDropPosition_terminates (b : Board) (t : Tetromino) (hne : t.nonEmpty) :
    (∃ r : Int, GetDropPosition b t = some r ∧
      (∀ fuel : Nat, ((ROWS : Int) - t.y).toNat + 1 ≤ fuel →
        GetDropPositionLoop b fuel t t.y = some r) ∧
      t.y ≤ r ∧
      (r = t.y ∨ ∀ i j : Fin 4, t.shape i j ≠ 0 → r + i.val < ROWS)) ∧
    (∀ (k : Fin 7) (n : Nat) (x y : Int) (b1 : Board),
      (GetDropPosition b1
        { tetrominoes k with shape := rotateShape^[n] (tetrominoes k).shape, x := x, y := y }
        ).isSome = true) := by
  constructor
  · obtain ⟨r, hr⟩ := Option.isSome_iff_exists.1 (GetDropPosition_isSome b t hne)
    have hres := GetDropPositionLoop_result b _ t t.y r hr
    refine ⟨r, hr, fun fuel hf => GetDropPositionLoop_mono b _ t t.y r hr fuel hf, ?_, ?_⟩
    · rcases hres with h | ⟨h, _⟩ <;> omega
    · rcases hres with h | ⟨_, h⟩
      · exact Or.inl h
      · exact Or.inr fun i j hs => row_lt_of_free b { t with y := r } i j hs h
  · intro k n x y b1
    exact GetDropPosition_isSome b1 _ (rotateShape_iterate_nonEmpty _ (tetrominoes_nonEmpty k) n)

/-- The T-piece at its spawn position on the empty board. -/
theorem C25_GetDropPosition_terminates_witness :
    (tetrominoes 2).nonEmpty ∧
    ∃ r : Int, GetDropPosition Board.empty (tetrominoes 2) = some r ∧ (tetrominoes 2).y ≤ r := by
  have hne : (tetrominoes 2).nonEmpty := ⟨0, 1, by decide⟩
  obtain ⟨⟨r, h1, _, h3, _⟩, _⟩ := C25_GetDropPosition_terminates Board.empty (tetrominoes 2) hne
  exact ⟨hne, r, h1, h3⟩

/-! ### Rotation keeps the piece free and its cells -/

theorem occupiedCells_rotateShape (s : Fin 4 → Fin 4 → Int) :
    occupiedCells (rotateShape s) = occupiedCells s := by
  unfold occupiedCells
  apply Finset.card_bij (fun p _ => ((⟨3 - p.2.val, by omega⟩ : Fin 4), p.1))
  · intro p hp
    simp only [Finset.mem_filter, Finset.mem_univ, true_and] at hp ⊢
    exact hp
  · intro p _ q _ h
    simp only [Prod.mk.injEq, Fin.mk.injEq] at h
    obtain ⟨h1, h2⟩ := h
    have hp := p.2.isLt
    have hq := q.2.isLt
    exact Prod.ext h2 (Fin.ext (by omega))
  · intro q hq
    simp only [Finset.mem_filter, Finset.mem_univ, true_and] at hq
    refine ⟨(q.2, ⟨3 - q.1.val, by omega⟩), ?_, ?_⟩
    · simp only [Finset.mem_filter, Finset.mem_univ, true_and]
      have hi : (⟨3 - (3 - q.1.val), by omega⟩ : Fin 4) = q.1 := by
        apply Fin.ext
        have := q.1.isLt
        show 3 - (3 - q.1.val) = q.1.val
        omega
      show s ⟨3 - (3 - q.1.val), _⟩ q.2 ≠ 0
      rw [hi]
      exact hq
    · have := q.1.isLt
      exact Prod.ext (Fin.ext (by show 3 - (3 - q.1.val) = q.1.val; omega)) rfl

theorem tryKicks_free (b : Board) (t : Tetromino) (m : Fin 4 → Fin 4 → Int) :
    ∀ (ks : List (Int × Int)) (t1 : Tetromino), tryKicks b t m ks = some t1 →
      CheckCollision b t1 = false ∧ t1.type = t.type
  | [], _, h => by simp [tryKicks] at h
  | k :: ks, t1, h => by
    unfold tryKicks at h
    split at h
    · next hc =>
      rw [← Option.some.inj h]
      exact ⟨by simpa using hc, rfl⟩
    · exact tryKicks_free b t m ks t1 h

theorem RotateTetromino_free (b : Board) (t : Tetromino) (hfree : CheckCollision b t = false) :
    CheckCollision b (RotateTetromino b t) = false ∧ (RotateTetromino b t).type = t.type := by
  unfold RotateTetromino
  split
  · exact ⟨hfree, rfl⟩
  · simp only
    split
    · next hc => exact ⟨by simpa using hc, rfl⟩
    · split
      · next t1 h1 => exact tryKicks_free b t _ _ t1 h1
      · split
        · split
          · next t2 h2 => exact tryKicks_free b t _ _ t2 h2
          · exact ⟨hfree, rfl⟩
        · exact ⟨hfree, rfl⟩

/-- C27: a piece that does not collide before `RotateTetromino` does not
collide after it, whether the rotation was done in place, with a kick, or not
at all; the number of occupied cells of its mask and its type are the same as
before. -/
theorem C27_RotateTetromino_keeps_free (b : Board) (t : Tetromino)
    (hfree : CheckCollision b t = false) :
    CheckCollision b (RotateTetromino b t) = false ∧
    occupiedCells (RotateTetromino b t).shape = occupiedCells t.shape ∧
    (RotateTetromino b t).type = t.type := by
  have h := RotateTetromino_free b t hfree
  refine ⟨h.1, ?_, h.2⟩
  rcases RotateTetromino_shape b t with hs | hs
  · rw [hs]
  · rw [hs]
    exact occupiedCells_rotateShape _

/-- The upright I-piece at the left wall of the empty board: the rotation is
kicked two columns to the right, and the piece has four cells before and
after. -/
theorem C27_RotateTetromino_keeps_free_witness :
    CheckCollision Board.empty wallI = false ∧
    CheckCollision Board.empty (RotateTetromino Board.empty wallI) = false ∧
    occupiedCells (RotateTetromino Board.empty wallI).shape = occupiedCells wallI.shape := by
  have hfree : CheckCollision Board.empty wallI = false := by decide
  obtain ⟨h1, h2, _⟩ := C27_RotateTetromino_keeps_free Board.empty wallI hfree
  exact ⟨hfree, h1, h2⟩

/-! ### Four rotations in place -/

theorem RotateTetromino_iterate_in_place (b : Board) (t : Tetromino) (hO : t.type ≠ O_PIECE) :
    ∀ n : Nat,
      (∀ k : Nat, 1 ≤ k → k ≤ n →
        CheckCollision b { t with shape := rotateShape^[k] t.shape } = false) →
      (RotateTetromino b)^[n] t = { t with shape := rotateShape^[n] t.shape }
  | 0, _ => rfl
  | n + 1, h => by
    rw [Function.iterate_succ_apply',
      RotateTetromino_iterate_in_place b t hO n (fun k h1 h2 => h k h1 (by omega)),
      Function.iterate_succ_apply']
    have hfree := h (n + 1) (by omega) (le_refl _)
    rw [Function.iterate_succ_apply'] at hfree
    exact RotateTetromino_in_place b { t with shape := rotateShape^[n] t.shape } hO hfree

theorem rotateShape_iterate_four (s : Fin 4 → Fin 4 → Int) : rotateShape^[4] s = s :=
  rotateShape_four s

/-- C29: for a piece that is not the O-piece and whose mask rotated 0, 1, 2
and 3 times does not collide at the position of the piece, the `n`-th of four
successive `RotateTetromino` calls leaves the mask rotated `n` times at the
unchanged position (no kick is used), and after the fourth call the piece is
exactly the piece before the first; the mask rotation composed four times is
the identity on every mask. -/
theorem C29_four_rotations_no_kick (b : Board) (t : Tetromino) (hO : t.type ≠ O_PIECE)
    (h : ∀ n : Fin 4, CheckCollision b { t with shape := rotateShape^[n.val] t.shape } = false) :
    (∀ n : Nat, n ≤ 4 →
      (RotateTetromino b)^[n] t = { t with shape := rotateShape^[n] t.shape }) ∧
    (RotateTetromino b)^[4] t = t ∧
    (∀ s : Fin 4 → Fin 4 → Int, rotateShape^[4] s = s) ∧
    (∀ (s : Fin 4 → Fin 4 → Int) (i j : Fin 4),
      rotateShape s i j = s ⟨3 - j.val, by omega⟩ i) := by
  have hall : ∀ k : Nat, 1 ≤ k → k ≤ 4 →
      CheckCollision b { t with shape := rotateShape^[k] t.shape } = false := by
    intro k h1 h4
    by_cases hk : k = 4
    · rw [hk, rotateShape_iterate_four]
      exact h 0
    · exact h ⟨k, by omega⟩
  refine ⟨fun n hn => ?_, ?_, rotateShape_iterate_four, fun _ _ _ => rfl⟩
  · exact RotateTetromino_iterate_in_place b t hO n (fun k h1 h2 => hall k h1 (by omega))
  · rw [RotateTetromino_iterate_in_place b t hO 4 hall, rotateShape_iterate_four]

set_option maxRecDepth 100000 in
/-- The T-piece in the middle of the empty board, two rows below the top. -/
theorem C29_four_rotations_no_kick_witness :
    (RotateTetromino Board.empty)^[4] { tetrominoes 2 with y := 2 }
      = { tetrominoes 2 with y := 2 } :=
  (C29_four_rotations_no_kick Board.empty { tetrominoes 2 with y := 2 } (by decide)
    (by decide)).2.1

/-! ### The tags of the board -/

theorem Board.tagsValid_iff_rows (b : Board) :
    b.tagsValid ↔ ∀ r : Fin ROWS, (b.row r).tagsValid :=
  Iff.rfl

theorem Row.emptyRow_tagsValid : Row.empty.tagsValid := by
  intro c
  have h6 : (0 : Int) ≤ 6 := by decide
  exact ⟨⟨le_refl _, h6⟩, fun _ => rfl⟩

theorem clear_shift_tagsValid (b : Board) (i : Nat) (h : i < ROWS) (hb : b.tagsValid) :
    (clearTopRow (shiftRowsDown b i h)).tagsValid := by
  rw [Board.tagsValid_iff_rows] at hb ⊢
  intro r
  rw [clearTopRow_row]
  split
  · exact Row.emptyRow_tagsValid
  · rw [shiftRowsDown_row]
    split
    · exact hb r
    · exact hb _

theorem ClearLinesLoop_tagsValid : ∀ (fuel : Nat) (i : Int) (b : Board) (n m : Int)
    (b1 : Board), b.tagsValid → ClearLinesLoop fuel i b n = some (m, b1) → b1.tagsValid := by
  intro fuel
  induction fuel with
  | zero => intro i b n m b1 _ h; simp [ClearLinesLoop] at h
  | succ fuel ih =>
    intro i b n m b1 hb h
    rw [ClearLinesLoop] at h
    split at h
    · split at h
      · split at h
        · exact ih _ _ _ _ _ (clear_shift_tagsValid b _ _ hb) h
        · exact ih _ _ _ _ _ hb h
      · cases h
    · have := Option.some.inj h
      rw [← (Prod.mk.inj this).2]
      exact hb

theorem ClearLinesLookups_inBounds : ∀ (fuel : Nat) (i : Int) (b : Board), b.tagsValid →
    ∀ k ∈ ClearLinesLookups fuel i b, 0 ≤ k ∧ k < 7 := by
  intro fuel
  induction fuel with
  | zero => intro i b _ k hk; simp [ClearLinesLookups] at hk
  | succ fuel ih =>
    intro i b hb k hk
    rw [ClearLinesLookups] at hk
    split at hk
    · split at hk
      · split at hk
        · rcases List.mem_append.1 hk with hk | hk
          · rcases List.mem_cons.1 hk with hk | hk
            · rw [hk]
              have := (hb ⟨i.toNat, by omega⟩ 0).1
              omega
            · obtain ⟨c, _, hc⟩ := List.mem_map.1 hk
              rw [← hc]
              have := (hb ⟨i.toNat, by omega⟩ c).1
              omega
          · exact ih _ _ (clear_shift_tagsValid b _ _ hb) k hk
        · exact ih _ _ hb k hk
      · simp at hk
    · simp at hk

theorem MergeToGrid_tagsValid (b : Board) (t : Tetromino) (h0 : 0 ≤ t.type) (h6 : t.type ≤ 6)
    (hb : b.tagsValid) : (MergeToGrid b t).tagsValid := by
  intro r c
  have hcell := MergeToGrid_cell b t r c
  by_cases hcov : covers t r.val c.val
  · have h1 := hcell.1 hcov
    unfold Board.cell at h1
    obtain ⟨hg, hc⟩ := Prod.mk.inj h1
    rw [hg, hc]
    exact ⟨⟨h0, h6⟩, fun h => absurd h (by decide)⟩
  · have h1 := hcell.2 hcov
    unfold Board.cell at h1
    obtain ⟨hg, hc⟩ := Prod.mk.inj h1
    rw [hg, hc]
    exact hb r c

theorem Board.emptyBoard_tagsValid : Board.empty.tagsValid := by
  intro r c
  have h6 : (0 : Int) ≤ 6 := by decide
  exact ⟨⟨le_refl _, h6⟩, fun _ => rfl⟩

theorem BoardReachable_tagsValid {b : Board} (h : BoardReachable b) : b.tagsValid := by
  induction h with
  | init => exact Board.emptyBoard_tagsValid
  | merge b t _ h0 h6 ih => exact MergeToGrid_tagsValid b t h0 h6 ih
  | clear b b1 n _ hc ih => exact ClearLinesLoop_tagsValid _ _ _ _ _ _ ih hc

/-- C30: on every board reachable from the board of `InitGame` by
`MergeToGrid` of pieces with a type in `0..6` and by `ClearLines`, every tag of
the tag grid is in `0..6` and every unoccupied cell has tag 0; every index with
which `ClearLines` reads the 7-element piece table on such a board is in
`0..6`; and the seven pieces of the table have their types in `0..6`. -/
theorem C30_tags_in_range (b : Board) (h : BoardReachable b) :
    (∀ (r : Fin ROWS) (c : Fin COLS),
      (0 ≤ b.colorGrid r c ∧ b.colorGrid r c ≤ 6) ∧ (b.grid r c = 0 → b.colorGrid r c = 0)) ∧
    (∀ k ∈ ClearLinesLookups (2 * ROWS + 1) (ROWS - 1) b, 0 ≤ k ∧ k < 7) ∧
    (∀ k : Fin 7, 0 ≤ (tetrominoes k).type ∧ (tetrominoes k).type ≤ 6) := by
  have hv := BoardReachable_tagsValid h
  refine ⟨hv, ClearLinesLookups_inBounds _ _ b hv, ?_⟩
  intro k
  fin_cases k <;> decide

/-- The board with the T-piece merged at the bottom of the empty board. -/
theorem C30_tags_in_range_witness :
    BoardReachable (MergeToGrid Board.empty { tetrominoes 2 with y := 18 }) ∧
    ∀ (r : Fin ROWS) (c : Fin COLS),
      0 ≤ (MergeToGrid Board.empty { tetrominoes 2 with y := 18 }).colorGrid r c ∧
      (MergeToGrid Board.empty { tetrominoes 2 with y := 18 }).colorGrid r c ≤ 6 := by
  have hr : BoardReachable (MergeToGrid Board.empty { tetrominoes 2 with y := 18 }) :=
    BoardReachable.merge _ _ BoardReachable.init (by decide) (by decide)
  exact ⟨hr, fun r c => ((C30_tags_in_range _ hr).1 r c).1⟩

/-! ### The three lock paths agree -/

theorem score_paths_eq (g : Game) (n : Int) :
    EvaluateAndExecuteBestMove_score g n = HandleInput_score g n ∧
    UpdateGame_score g n = HandleInput_score g n :=
  ⟨rfl, rfl⟩

theorem advance_paths_eq (g : Game) (rnd : Nat) :
    { EvaluateAndExecuteBestMove_advance g rnd with autoPlayEnabled := g.autoPlayEnabled }
      = HandleInput_advance g rnd ∧
    UpdateGame_advance g rnd = HandleInput_advance g rnd := by
  refine ⟨?_, rfl⟩
  unfold EvaluateAndExecuteBestMove_advance HandleInput_advance
  simp only
  split <;> rfl

theorem HandleInput_score_autoPlayEnabled (g : Game) (n : Int) :
    (HandleInput_score g n).autoPlayEnabled = g.autoPlayEnabled := by
  unfold HandleInput_score
  split <;> rfl

theorem gravity_hardDrop_core (g : Game) (b1 : Board) (n : Int) (rnd : Nat) (s : F32)
    (c : Tetromino) :
    ({ UpdateGame_advance (UpdateGame_score { g with board := b1, softDropY := s } n) rnd
        with timer := F32.zero } : Game)
      = { HandleInput_advance (HandleInput_score { g with current := c, board := b1 } n) rnd
          with timer := F32.zero } := by
  unfold UpdateGame_score HandleInput_score
  by_cases hn : n > 0
  · rw [if_pos hn, if_pos hn]
    rfl
  · rw [if_neg hn, if_neg hn]
    rfl

theorem GetDropPosition_resting (b : Board) (t : Tetromino)
    (h : CheckCollision b { t with y := t.y + 1 } = true) : GetDropPosition b t = some t.y := by
  unfold GetDropPosition
  rw [GetDropPositionLoop, if_pos h]

/-- The lock of the auto-player and the hard drop differ only in
`autoPlayEnabled`. -/
theorem lock_eq_hardDrop (g : Game) (rnd : Nat) (hne : g.current.nonEmpty) :
    ∃ gA gH, EvaluateAndExecuteBestMove_lock g rnd = some gA ∧
      HandleInput_hardDrop g rnd = some gH ∧
      gH = { gA with autoPlayEnabled := g.autoPlayEnabled } := by
  obtain ⟨d, hd⟩ := Option.isSome_iff_exists.1 (GetDropPosition_isSome g.board g.current hne)
  obtain ⟨b1, hb1, _⟩ := ClearLines_spec (MergeToGrid g.board { g.current with y := d })
  refine ⟨EvaluateAndExecuteBestMove_advance
      (EvaluateAndExecuteBestMove_score
        { g with current := { g.current with y := d }, board := b1 }
        (MergeToGrid g.board { g.current with y := d }).fullCount) rnd,
    HandleInput_advance
      (HandleInput_score
        { g with current := { g.current with y := d }, board := b1 }
        (MergeToGrid g.board { g.current with y := d }).fullCount) rnd, ?_, ?_, ?_⟩
  · unfold EvaluateAndExecuteBestMove_lock
    rw [hd]
    simp only
    rw [hb1]
  · unfold HandleInput_hardDrop
    rw [hd]
    simp only
    rw [hb1]
  · rw [(score_paths_eq _ _).1, ← (advance_paths_eq _ _).1, HandleInput_score_autoPlayEnabled]

/-- The gravity lock of a resting piece and the hard drop differ only in
`timer`. -/
theorem gravity_eq_hardDrop (g : Game) (rnd : Nat)
    (hrest : CheckCollision g.board { g.current with y := g.current.y + 1 } = true) :
    ∃ gH gG, HandleInput_hardDrop g rnd = some gH ∧ UpdateGame_gravity g rnd = some gG ∧
      gG = { gH with timer := F32.zero } := by
  have hd := GetDropPosition_resting g.board g.current hrest
  obtain ⟨b1, hb1, _⟩ := ClearLines_spec (MergeToGrid g.board g.current)
  refine ⟨HandleInput_advance
      (HandleInput_score
        { g with current := { g.current with y := g.current.y }, board := b1 }
        (MergeToGrid g.board g.current).fullCount) rnd,
    { UpdateGame_advance
        (UpdateGame_score
          { g with board := b1, softDropY := F32.ofInt g.current.y }
          (MergeToGrid g.board g.current).fullCount) rnd
      with timer := F32.zero }, ?_, ?_, ?_⟩
  · unfold HandleInput_hardDrop
    rw [hd]
    simp only
    rw [hb1]
  · unfold UpdateGame_gravity
    rw [if_pos hrest, hb1]
  · exact gravity_hardDrop_core g b1 _ rnd _ _

/-- C23: from the same session, with a current piece that has an occupied mask
cell, the lock of the auto-player and the hard drop both return, and their
results differ at most in `autoPlayEnabled` (which the auto-player clears on
game over): board, tag grid, score, lines, level, delay, combo, high score,
current piece, `canHold` and state are the same, and so are the next and the
held piece.  When the piece rests at its row (it collides one row lower) the
gravity lock returns too, and its result is that of the hard drop with `timer`
set to 0. -/
theorem C23_lock_paths_agree (g : Game) (rnd : Nat) (hne : g.current.nonEmpty) :
    ∃ gA gH, EvaluateAndExecuteBestMove_lock g rnd = some gA ∧
      HandleInput_hardDrop g rnd = some gH ∧
      gH = { gA with autoPlayEnabled := g.autoPlayEnabled } ∧
      lockOutcome gA = lockOutcome gH ∧ gA.next = gH.next ∧ gA.held = gH.held ∧
      (CheckCollision g.board { g.current with y := g.current.y + 1 } = true →
        ∃ gG, UpdateGame_gravity g rnd = some gG ∧ gG = { gH with timer := F32.zero } ∧
          lockOutcome gG = lockOutcome gH ∧ lockOutcome gG = lockOutcome gA ∧
          gG.next = gH.next ∧ gG.held = gH.held) := by
  obtain ⟨gA, gH, hA, hH, heq⟩ := lock_eq_hardDrop g rnd hne
  refine ⟨gA, gH, hA, hH, heq, by rw [heq]; rfl, by rw [heq], by rw [heq], fun hrest => ?_⟩
  obtain ⟨gH1, gG, hH1, hG, heq1⟩ := gravity_eq_hardDrop g rnd hrest
  rw [hH] at hH1
  have hsame : gH = gH1 := Option.some.inj hH1
  rw [← hsame] at heq1
  refine ⟨gG, hG, heq1, by rw [heq1]; rfl, by rw [heq1, heq]; rfl, by rw [heq1], by rw [heq1]⟩

/-- The I-piece at its spawn position over the board with a gap. -/
theorem C23_lock_paths_agree_witness :
    gapGame.current.nonEmpty ∧
    ∃ gA gH, EvaluateAndExecuteBestMove_lock gapGame 0 = some gA ∧
      HandleInput_hardDrop gapGame 0 = some gH ∧ lockOutcome gA = lockOutcome gH := by
  have hne : gapGame.current.nonEmpty := ⟨1, 0, by decide⟩
  obtain ⟨gA, gH, h1, h2, _, h4, _⟩ := C23_lock_paths_agree gapGame 0 hne
  exact ⟨hne, gA, gH, h1, h2, h4⟩

/-! ### Game over and the auto-play flag -/

theorem UpdateGame_gravity_autoPlayEnabled (g g1 : Game) (rnd : Nat)
    (h : UpdateGame_gravity g rnd = some g1) : g1.autoPlayEnabled = g.autoPlayEnabled := by
  unfold UpdateGame_gravity at h
  split at h
  · split at h
    · cases h
    · rw [← Option.some.inj h]
      show (UpdateGame_advance _ rnd).autoPlayEnabled = g.autoPlayEnabled
      unfold UpdateGame_advance
      simp only
      split <;> exact (UpdateGame_score_frame _ _).2.2.2.2
  · rw [← Option.some.inj h]

theorem HandleInput_hardDrop_autoPlayEnabled (g g1 : Game) (rnd : Nat)
    (h : HandleInput_hardDrop g rnd = some g1) : g1.autoPlayEnabled = g.autoPlayEnabled := by
  unfold HandleInput_hardDrop at h
  split at h
  · cases h
  · split at h
    · cases h
    · rw [← Option.some.inj h]
      unfold HandleInput_advance
      simp only
      split <;> exact (HandleInput_score_frame _ _).2.2.2.2

theorem EvaluateAndExecuteBestMove_advance_gameover (g : Game) (rnd : Nat)
    (hover : (EvaluateAndExecuteBestMove_advance g rnd).state = GameState.STATE_GAMEOVER)
    (hplay : g.state = GameState.STATE_PLAYING) :
    (EvaluateAndExecuteBestMove_advance g rnd).autoPlayEnabled = false := by
  unfold EvaluateAndExecuteBestMove_advance at hover ⊢
  simp only at hover ⊢
  by_cases hc : CheckCollision g.board g.next = true
  · rw [if_pos hc]
  · rw [if_neg hc] at hover
    simp only at hover
    rw [hplay] at hover
    cases hover

/-- The lock of the auto-player clears `autoPlayEnabled` whenever it ends a
session in play. -/
theorem EvaluateAndExecuteBestMove_lock_gameover (g g1 : Game) (rnd : Nat)
    (h : EvaluateAndExecuteBestMove_lock g rnd = some g1)
    (hplay : g.state = GameState.STATE_PLAYING) (hover : g1.state = GameState.STATE_GAMEOVER) :
    g1.autoPlayEnabled = false := by
  unfold EvaluateAndExecuteBestMove_lock at h
  split at h
  · cases h
  · split at h
    · cases h
    · rw [← Option.some.inj h] at hover ⊢
      apply EvaluateAndExecuteBestMove_advance_gameover _ _ hover
      rw [(EvaluateAndExecuteBestMove_score_frame _ _).2.2.1]
      exact hplay

theorem autoStackGame_rest :
    CheckCollision autoStackGame.board
      { autoStackGame.current with y := autoStackGame.current.y + 1 } = true := by decide

set_option maxRecDepth 100000 in
theorem autoStackGame_noFull :
    ∀ r : Fin ROWS, rowFull (MergeToGrid autoStackGame.board autoStackGame.current) r = false := by
  decide

set_option maxRecDepth 100000 in
theorem autoStackGame_blocked :
    CheckCollision (MergeToGrid autoStackGame.board autoStackGame.current) autoStackGame.next
      = true := by decide

set_option maxRecDepth 1000000 in
theorem stackOf_facts : ∀ k : Fin 9,
    GetDropPosition (stackOf k.val) (tetrominoes 1) = some (18 - 2 * (k.val : Int)) ∧
    (∀ r : Fin ROWS, rowFull (MergeToGrid (stackOf k.val)
      { tetrominoes 1 with y := 18 - 2 * (k.val : Int) }) r = false) ∧
    (∀ (r : Fin ROWS) (c : Fin COLS),
      (MergeToGrid (stackOf k.val) { tetrominoes 1 with y := 18 - 2 * (k.val : Int) }).grid r c
        = (stackOf (k.val + 1)).grid r c ∧
      (MergeToGrid (stackOf k.val)
          { tetrominoes 1 with y := 18 - 2 * (k.val : Int) }).colorGrid r c
        = (stackOf (k.val + 1)).colorGrid r c) ∧
    CheckCollision (stackOf (k.val + 1)) (tetrominoes 1) = false := by
  decide

theorem stackOf_zero : stackOf 0 = Board.empty := by
  apply Board.ext_row
  intro i
  have h : ∀ (r : Fin ROWS) (c : Fin COLS), (stackOf 0).grid r c = Board.empty.grid r c ∧
      (stackOf 0).colorGrid r c = Board.empty.colorGrid r c := by decide
  exact Prod.ext (funext fun c => (h i c).1) (funext fun c => (h i c).2)

theorem stackOf_merge (k : Fin 9) :
    MergeToGrid (stackOf k.val) { tetrominoes 1 with y := 18 - 2 * (k.val : Int) }
      = stackOf (k.val + 1) := by
  apply Board.ext_row
  intro i
  have h := (stackOf_facts k).2.2.1
  exact Prod.ext (funext fun c => (h i c).1) (funext fun c => (h i c).2)

/-- One more O-piece dropped at the spawn column raises the stack by two
rows. -/
theorem HandleInput_hardDrop_stack (k : Fin 9) :
    HandleInput_hardDrop (stackGame k.val) 1 = some (stackGame (k.val + 1)) := by
  obtain ⟨hd, hfull, _, hfree⟩ := stackOf_facts k
  have hd1 : GetDropPosition (stackGame k.val).board (stackGame k.val).current
      = some (18 - 2 * (k.val : Int)) := hd
  have hm : MergeToGrid (stackGame k.val).board
      { (stackGame k.val).current with y := 18 - 2 * (k.val : Int) } = stackOf (k.val + 1) :=
    stackOf_merge k
  have hclear : ClearLines (stackOf (k.val + 1)) = some (0, stackOf (k.val + 1)) := by
    apply ClearLines_of_noFull
    apply rows_of_noFull
    rw [← stackOf_merge k]
    exact hfull
  unfold HandleInput_hardDrop
  rw [hd1]
  simp only
  rw [hm, hclear]
  simp only
  rw [HandleInput_score_zero]
  unfold HandleInput_advance
  simp only
  have hfree1 : CheckCollision (stackOf (k.val + 1)) (stackGame k.val).next = false := hfree
  rw [if_neg (by rw [hfree1]; decide)]
  rfl

theorem dropTimes_stack : ∀ k : Nat, k ≤ 9 →
    dropTimes k (InitGame gapGame 1 1) = some (stackGame k)
  | 0, _ => by
    show some (InitGame gapGame 1 1) = some (stackGame 0)
    unfold stackGame
    rw [stackOf_zero]
    rfl
  | k + 1, h => by
    rw [dropTimes, dropTimes_stack k (by omega)]
    exact HandleInput_hardDrop_stack ⟨k, by omega⟩

/-- Nine O-pieces dropped at their spawn column in a new game and a press of
ALT+A give `autoStackGame`. -/
theorem autoStackGame_path :
    (dropTimes 9 (InitGame gapGame 1 1)).map ToggleAutoPlay = some autoStackGame := by
  rw [dropTimes_stack 9 (le_refl _)]
  rfl

/-- C21 (code evaluated at the failing input): the hard drop and the gravity
step never change `autoPlayEnabled`, only the lock of the auto-player clears
it on game over.  Nine hard drops of O-pieces at their spawn column in a new
game, followed by ALT+A, give a session in play with auto-play enabled on a
board with columns 4 and 5 stacked up to row 2; there the O-piece at its spawn
position does not collide but rests on the stack; the gravity step locks it
there, the next O-piece collides at its spawn position, and the session is
Game-Over with auto-play still enabled. -/
theorem C21_gravity_game_over_keeps_auto_play (rnd : Nat) :
    (dropTimes 9 (InitGame gapGame 1 1)).map ToggleAutoPlay = some autoStackGame ∧
    autoStackGame.state = GameState.STATE_PLAYING ∧ autoStackGame.autoPlayEnabled = true ∧
    CheckCollision autoStackGame.board autoStackGame.current = false ∧
    (∃ g1, UpdateGame_gravity autoStackGame rnd = some g1 ∧
      g1.state = GameState.STATE_GAMEOVER ∧ g1.autoPlayEnabled = true) ∧
    (∀ g g1 : Game, UpdateGame_gravity g rnd = some g1 →
      g1.autoPlayEnabled = g.autoPlayEnabled) ∧
    (∀ g g1 : Game, HandleInput_hardDrop g rnd = some g1 →
      g1.autoPlayEnabled = g.autoPlayEnabled) ∧
    (∀ g g1 : Game, EvaluateAndExecuteBestMove_lock g rnd = some g1 →
      g.state = GameState.STATE_PLAYING → g1.state = GameState.STATE_GAMEOVER →
      g1.autoPlayEnabled = false) := by
  refine ⟨autoStackGame_path, rfl, rfl, by decide, ?_,
    fun g g1 h => UpdateGame_gravity_autoPlayEnabled g g1 rnd h,
    fun g g1 h => HandleInput_hardDrop_autoPlayEnabled g g1 rnd h,
    fun g g1 h => EvaluateAndExecuteBestMove_lock_gameover g g1 rnd h⟩
  have hclear := ClearLines_of_noFull _ (rows_of_noFull _ autoStackGame_noFull)
  have hstep : UpdateGame_gravity autoStackGame rnd =
      some { UpdateGame_advance
        (UpdateGame_score
          { autoStackGame with
            board := MergeToGrid autoStackGame.board autoStackGame.current
            softDropY := F32.ofInt autoStackGame.current.y } 0) rnd
        with timer := F32.zero } := by
    unfold UpdateGame_gravity
    rw [if_pos autoStackGame_rest, hclear]
  refine ⟨_, hstep, ?_, ?_⟩
  · show (UpdateGame_advance _ rnd).state = GameState.STATE_GAMEOVER
    rw [UpdateGame_advance_state, (UpdateGame_score_frame _ _).2.1, (UpdateGame_score_frame _ _).1]
    show (if CheckCollision (MergeToGrid autoStackGame.board autoStackGame.current)
      autoStackGame.next = true then GameState.STATE_GAMEOVER else _) = _
    rw [if_pos autoStackGame_blocked]
  · exact UpdateGame_gravity_autoPlayEnabled _ _ rnd hstep

/-! ### The falling piece stays free -/

theorem HandleInput_moveLeft_free (g : Game) (h : CheckCollision g.board g.current = false) :
    CheckCollision (HandleInput_moveLeft g).board (HandleInput_moveLeft g).current = false ∧
    (HandleInput_moveLeft g).state = g.state := by
  unfold HandleInput_moveLeft
  simp only
  split
  · have hx : g.current.x - 1 + 1 = g.current.x := by omega
    simp only [hx]
    exact ⟨h, trivial⟩
  · next hc => exact ⟨by simpa using hc, rfl⟩

theorem HandleInput_moveRight_free (g : Game) (h : CheckCollision g.board g.current = false) :
    CheckCollision (HandleInput_moveRight g).board (HandleInput_moveRight g).current = false ∧
    (HandleInput_moveRight g).state = g.state := by
  unfold HandleInput_moveRight
  simp only
  split
  · have hx : g.current.x + 1 - 1 = g.current.x := by omega
    simp only [hx]
    exact ⟨h, trivial⟩
  · next hc => exact ⟨by simpa using hc, rfl⟩

theorem HandleInput_advance_free (g : Game) (rnd : Nat) :
    (HandleInput_advance g rnd).state = GameState.STATE_GAMEOVER ∨
    CheckCollision (HandleInput_advance g rnd).board (HandleInput_advance g rnd).current
      = false := by
  unfold HandleInput_advance
  simp only
  split
  · exact Or.inl rfl
  · next hc => exact Or.inr (by simpa using hc)

theorem UpdateGame_advance_free (g : Game) (rnd : Nat) :
    (UpdateGame_advance g rnd).state = GameState.STATE_GAMEOVER ∨
    CheckCollision (UpdateGame_advance g rnd).board (UpdateGame_advance g rnd).current
      = false :=
  HandleInput_advance_free g rnd

theorem HandleInput_hardDrop_free (g g1 : Game) (rnd : Nat)
    (h : HandleInput_hardDrop g rnd = some g1) :
    g1.state = GameState.STATE_GAMEOVER ∨ CheckCollision g1.board g1.current = false := by
  unfold HandleInput_hardDrop at h
  split at h
  · cases h
  · split at h
    · cases h
    · rw [← Option.some.inj h]
      exact HandleInput_advance_free _ rnd

theorem UpdateGame_gravity_free (g g1 : Game) (rnd : Nat)
    (h : UpdateGame_gravity g rnd = some g1) :
    g1.state = GameState.STATE_GAMEOVER ∨ CheckCollision g1.board g1.current = false := by
  unfold UpdateGame_gravity at h
  split at h
  · split at h
    · cases h
    · rw [← Option.some.inj h]
      exact UpdateGame_advance_free _ rnd
  · next hc =>
    rw [← Option.some.inj h]
    exact Or.inr (by simpa using hc)

/-- C28 (code evaluated at the failing input): a move to the left, a move to
the right, a rotation, a gravity step and a hard drop take a session whose
current piece does not collide to a session that is Game-Over or whose current
piece does not collide.  The hold does not: on a board with column 3 stacked
up to the top row, in play, the O-piece at its spawn position does not collide;
`HoldPiece` makes the next piece, the I-piece, current at its spawn position,
where it collides with the stack, and the state is still Playing. -/
theorem C28_hold_spawns_into_stack (rnd : Nat) :
    holdBlockedGame.state = GameState.STATE_PLAYING ∧
    holdBlockedGame.canHold = true ∧
    CheckCollision holdBlockedGame.board holdBlockedGame.current = false ∧
    (HoldPiece holdBlockedGame rnd).state = GameState.STATE_PLAYING ∧
    (HoldPiece holdBlockedGame rnd).board = holdBlockedGame.board ∧
    (HoldPiece holdBlockedGame rnd).current = holdBlockedGame.next ∧
    CheckCollision (HoldPiece holdBlockedGame rnd).board (HoldPiece holdBlockedGame rnd).current
      = true ∧
    (∀ g : Game, CheckCollision g.board g.current = false →
      CheckCollision (HandleInput_moveLeft g).board (HandleInput_moveLeft g).current = false ∧
      CheckCollision (HandleInput_moveRight g).board (HandleInput_moveRight g).current = false ∧
      CheckCollision (HandleInput_rotate g).board (HandleInput_rotate g).current = false ∧
      (∀ g1, UpdateGame_gravity g rnd = some g1 →
        g1.state = GameState.STATE_GAMEOVER ∨ CheckCollision g1.board g1.current = false) ∧
      (∀ g1, HandleInput_hardDrop g rnd = some g1 →
        g1.state = GameState.STATE_GAMEOVER ∨ CheckCollision g1.board g1.current = false)) := by
  have hcur : (HoldPiece holdBlockedGame rnd).current = holdBlockedGame.next := rfl
  have hboard : (HoldPiece holdBlockedGame rnd).board = holdBlockedGame.board := rfl
  refine ⟨rfl, rfl, by decide, rfl, hboard, hcur, ?_, fun g hfree => ?_⟩
  · rw [hcur, hboard]
    decide
  · exact ⟨(HandleInput_moveLeft_free g hfree).1, (HandleInput_moveRight_free g hfree).1,
      (RotateTetromino_free g.board g.current hfree).1,
      fun g1 h => UpdateGame_gravity_free g g1 rnd h,
      fun g1 h => HandleInput_hardDrop_free g g1 rnd h⟩

/-! ### Soft drop -/

set_option maxRecDepth 100000 in
/-- C24 (code evaluated at the failing inputs): with a frame time of `0.1f`
seconds the accumulator of the I-piece lying on the floor goes from 18 to
19.5, the test at row 20 collides, the accumulator is floored to 19 and the
piece is put at row 19, where it collides (its cells are in row 20, below the
floor).  With a frame time of `0.5f` seconds the I-piece at row 2 above an
overhang in row 7 has its accumulator raised to 9.5, the test at row 10 does
not collide and the piece is put at row 9: it does not collide there, but at
row 6, which lies between, it does, so it has passed through occupied
cells. -/
theorem C24_soft_drop_overshoots :
    (CheckCollision floorGame.board floorGame.current = false ∧
      floorGame.softDropY = F32.ofInt floorGame.current.y ∧
      F32.lt F32.zero F32.tenth = true ∧
      F32.mul F32.tenth F32.fifteen = ⟨3, -1⟩ ∧
      (HandleInput_softDrop floorGame F32.tenth).softDropY = F32.ofInt 19 ∧
      (HandleInput_softDrop floorGame F32.tenth).current.y = 19 ∧
      CheckCollision (HandleInput_softDrop floorGame F32.tenth).board
        (HandleInput_softDrop floorGame F32.tenth).current = true) ∧
    (CheckCollision ledgeGame.board ledgeGame.current = false ∧
      ledgeGame.softDropY = F32.ofInt ledgeGame.current.y ∧
      (HandleInput_softDrop ledgeGame F32.half).current.y = 9 ∧
      CheckCollision (HandleInput_softDrop ledgeGame F32.half).board
        (HandleInput_softDrop ledgeGame F32.half).current = false ∧
      CheckCollision ledgeGame.board { ledgeGame.current with y := 6 } = true) := by
  decide

/-! ### Rounding error of the single-precision operations -/

/-- The magnitude `Q` is `q * 2 ^ j` plus a remainder `r` below `2 ^ j` that
`guard` and `sticky` describe: the state of `shiftRound` after `j` shifts. -/
theorem F32.shiftRound_spec : ∀ (fuel q : Nat) (g s : Bool) (e : Int) (j r : Nat),
    q < 2 ^ (23 + fuel) → r < 2 ^ j → (j = 0 ∨ 2 ^ 23 ≤ q) →
    (g = true → 2 ^ j ≤ 2 * r) → (g = false → 2 * r < 2 ^ j) →
    (g = true → s = false → 2 * r = 2 ^ j) → (g = false → s = false → r = 0) →
    ∃ J : Nat, j ≤ J ∧ (F32.shiftRound fuel q g s e).2 = e + ((J : Int) - j) ∧
      2 * ((F32.shiftRound fuel q g s e).1 * 2 ^ J) ≤ 2 * (q * 2 ^ j + r) + 2 ^ J ∧
      2 * (q * 2 ^ j + r) ≤ 2 * ((F32.shiftRound fuel q g s e).1 * 2 ^ J) + 2 ^ J ∧
      (J = 0 ∨ 2 ^ 23 * 2 ^ J ≤ q * 2 ^ j + r) ∧
      (F32.shiftRound fuel q g s e).1 ≤ 2 ^ 24 ∧
      (J = 0 → (F32.shiftRound fuel q g s e).1 = q) := by
  intro fuel
  induction fuel with
  | zero =>
    intro q g s e j r hq hr hj hg1 hg0 hgs hs0
    have h23 : (2 : Nat) ^ (23 + 0) = 8388608 := by norm_num
    have h24 : (2 : Nat) ^ 24 = 16777216 := by norm_num
    rw [h23] at hq
    have hj0 : j = 0 := by
      rcases hj with h | h
      · exact h
      · have : (2 : Nat) ^ 23 = 8388608 := by norm_num
        omega
    subst hj0
    have hr0 : r = 0 := by simpa using hr
    subst hr0
    refine ⟨0, le_refl _, ?_, ?_, ?_, Or.inl rfl, ?_, fun _ => rfl⟩
    · simp [F32.shiftRound]
    · simp [F32.shiftRound]
    · simp [F32.shiftRound]
    · simp only [F32.shiftRound]
      omega
  | succ fuel ih =>
    intro q g s e j r hq hr hj hg1 hg0 hgs hs0
    have h24 : (2 : Nat) ^ 24 = 16777216 := by norm_num
    have h23 : (2 : Nat) ^ 23 = 8388608 := by norm_num
    rw [F32.shiftRound]
    by_cases hlt : q < 2 ^ 24
    · rw [if_pos hlt]
      have hmul : (q + 1) * 2 ^ j = q * 2 ^ j + 2 ^ j := by ring
      refine ⟨j, le_refl _, by simp, ?_, ?_, ?_, ?_, ?_⟩
      · simp only []
        split
        · next hup =>
          have hgt : g = true := by
            cases g
            · simp at hup
            · rfl
          have := hg1 hgt
          rw [hmul]
          omega
        · omega
      · simp only []
        split
        · rw [hmul]
          omega
        · next hup =>
          cases hgv : g with
          | false =>
            have := hg0 hgv
            omega
          | true =>
            have hsv : s = false := by
              cases s
              · rfl
              · rw [hgv] at hup
                simp at hup
            have := hgs hgv hsv
            omega
      · rcases hj with h | h
        · exact Or.inl h
        · right
          have : 2 ^ 23 * 2 ^ j ≤ q * 2 ^ j := Nat.mul_le_mul_right _ h
          omega
      · simp only []
        split <;> omega
      · intro hj0
        subst hj0
        have hr0 : r = 0 := by simpa using hr
        have hgf : g = false := by
          cases hgv : g with
          | false => rfl
          | true =>
            have := hg1 hgv
            simp only [pow_zero] at this
            omega
        simp [hgf]
    · rw [if_neg hlt]
      have hq2 : q / 2 < 2 ^ (23 + fuel) := by
        have : (2 : Nat) ^ (23 + (fuel + 1)) = 2 * 2 ^ (23 + fuel) := by
          rw [← Nat.add_assoc, pow_succ, Nat.mul_comm]
        omega
      have hp : (2 : Nat) ^ (j + 1) = 2 * 2 ^ j := by rw [pow_succ, Nat.mul_comm]
      have hpos : 0 < (2 : Nat) ^ j := Nat.two_pow_pos j
      rcases Nat.mod_two_eq_zero_or_one q with hpar | hpar
      · -- q even
        have hq' : q = 2 * (q / 2) := by omega
        have hQ : q / 2 * 2 ^ (j + 1) + r = q * 2 ^ j + r := by
          rw [hp]
          conv_rhs => rw [hq']
          ring
        obtain ⟨J, hJ, he, h1, h2, h3, h4, _⟩ :=
          ih (q / 2) (decide (q % 2 = 1)) (s || g) (e + 1) (j + 1) r hq2
            (by rw [hp]; omega) (Or.inr (by omega))
            (by intro h; simp [hpar] at h)
            (by intro _; rw [hp]; omega)
            (by intro h; simp [hpar] at h)
            (by
              intro _ hsg
              have hs : s = false := by
                cases s
                · rfl
                · simp at hsg
              have hg : g = false := by
                cases g
                · rfl
                · simp at hsg
              exact hs0 hg hs)
        rw [hQ] at h1 h2 h3
        refine ⟨J, by omega, ?_, h1, h2, ?_, h4, ?_⟩
        · rw [he]
          push_cast
          ring
        · rcases h3 with h | h
          · omega
          · exact Or.inr h
        · intro h0
          omega
      · -- q odd
        have hq' : q = 2 * (q / 2) + 1 := by omega
        have hQ : q / 2 * 2 ^ (j + 1) + (r + 2 ^ j) = q * 2 ^ j + r := by
          rw [hp]
          conv_rhs => rw [hq']
          ring
        obtain ⟨J, hJ, he, h1, h2, h3, h4, _⟩ :=
          ih (q / 2) (decide (q % 2 = 1)) (s || g) (e + 1) (j + 1) (r + 2 ^ j) hq2
            (by rw [hp]; omega) (Or.inr (by omega))
            (by intro _; rw [hp]; omega)
            (by intro h; simp [hpar] at h)
            (by
              intro _ hsg
              have hs : s = false := by
                cases s
                · rfl
                · simp at hsg
              have hg : g = false := by
                cases g
                · rfl
                · simp at hsg
              have := hs0 hg hs
              rw [hp]
              omega)
            (by intro h; simp [hpar] at h)
        rw [hQ] at h1 h2 h3
        refine ⟨J, by omega, ?_, h1, h2, ?_, h4, ?_⟩
        · rw [he]
          push_cast
          ring
        · rcases h3 with h | h
          · omega
          · exact Or.inr h
        · intro h0
          omega

theorem F32.stripZeros_toRat : ∀ (fuel : Nat) (m e : Int),
    (F32.stripZeros fuel m e).toRat = (m : ℚ) * (2 : ℚ) ^ e := by
  intro fuel
  induction fuel with
  | zero => intro m e; rfl
  | succ fuel ih =>
    intro m e
    rw [F32.stripZeros]
    by_cases h0 : m = 0
    · rw [if_pos h0, h0]
      simp [F32.toRat]
    · rw [if_neg h0]
      by_cases h2 : m % 2 = 0
      · rw [if_pos h2, ih]
        have hm : m = 2 * (m / 2) := by omega
        have hq : (m : ℚ) = 2 * ((m / 2 : Int) : ℚ) := by exact_mod_cast hm
        rw [zpow_add₀ (by norm_num : (2 : ℚ) ≠ 0), zpow_one]
        conv_rhs => rw [hq]
        ring
      · rw [if_neg h2]
        rfl

theorem F32.stripZeros_props : ∀ (fuel : Nat) (m e : Int), m ≠ 0 →
    (F32.stripZeros fuel m e).m ≠ 0 ∧ e ≤ (F32.stripZeros fuel m e).e ∧
      (F32.stripZeros fuel m e).m.natAbs ≤ m.natAbs := by
  intro fuel
  induction fuel with
  | zero => intro m e h; exact ⟨h, le_refl _, le_refl _⟩
  | succ fuel ih =>
    intro m e h
    rw [F32.stripZeros, if_neg h]
    by_cases h2 : m % 2 = 0
    · rw [if_pos h2]
      obtain ⟨h1, h3, h4⟩ := ih (m / 2) (e + 1) (by omega)
      exact ⟨h1, by omega, by omega⟩
    · rw [if_neg h2]
      exact ⟨h, le_refl _, le_refl _⟩

theorem F32.shiftRound_small (fuel q : Nat) (e : Int) (h : q < 2 ^ 24) :
    F32.shiftRound (fuel + 1) q false false e = (q, e) := by
  rw [F32.shiftRound, if_pos h]
  simp

/-- The integer form of the rounding error: the rounded magnitude times its
shift differs from the magnitude by at most the magnitude over `2 ^ 24`. -/
theorem F32.shiftRound_close (q : Nat) (e : Int) (hq : q < 2 ^ 151) :
    ∃ J : Nat, (F32.shiftRound 128 q false false e).2 = e + J ∧
      2 ^ 24 * ((F32.shiftRound 128 q false false e).1 * 2 ^ J) ≤ 2 ^ 24 * q + q ∧
      2 ^ 24 * q ≤ 2 ^ 24 * ((F32.shiftRound 128 q false false e).1 * 2 ^ J) + q ∧
      (F32.shiftRound 128 q false false e).1 ≤ 2 ^ 24 ∧
      (q ≠ 0 → (F32.shiftRound 128 q false false e).1 ≠ 0) := by
  obtain ⟨J, _, he, h1, h2, h3, h4, h5⟩ :=
    F32.shiftRound_spec 128 q false false e 0 0 (by simpa using hq) (by simp) (Or.inl rfl)
      (by intro h; cases h) (by intro _; simp) (by intro h; cases h) (by intro _ _; rfl)
  simp only [pow_zero, Nat.mul_one, Nat.add_zero] at h1 h2 h3
  refine ⟨J, by simpa using he, ?_, ?_, h4, ?_⟩
  · rcases h3 with h | h
    · have := h5 h
      subst h
      rw [this]
      simp
    · have h24 : (2 : Nat) ^ 24 = 2 * 2 ^ 23 := by norm_num
      generalize (F32.shiftRound 128 q false false e).1 * 2 ^ J = A at h1 h2 ⊢
      have h23 : (2 : Nat) ^ 23 = 8388608 := by norm_num
      rw [h24]
      rw [h23] at h ⊢
      omega
  · rcases h3 with h | h
    · have := h5 h
      subst h
      rw [this]
      simp
    · have h24 : (2 : Nat) ^ 24 = 2 * 2 ^ 23 := by norm_num
      generalize (F32.shiftRound 128 q false false e).1 * 2 ^ J = A at h1 h2 ⊢
      have h23 : (2 : Nat) ^ 23 = 8388608 := by norm_num
      rw [h24]
      rw [h23] at h ⊢
      omega
  · intro hq0 hres
    rw [hres] at h2
    simp only [Nat.zero_mul, Nat.mul_zero, Nat.zero_add] at h2
    rcases h3 with h | h
    · have := h5 h
      omega
    · have h23 : (2 : Nat) ^ 23 = 8388608 := by norm_num
      rw [h23] at h
      have hpos : 0 < 2 ^ J := Nat.two_pow_pos J
      omega

/-- The value of `round m e` is within a relative error of `2 ^ (-24)` of
`m * 2 ^ e`; its mantissa is at most `2 ^ 24` in magnitude, its exponent is
not below `e`, and zero is rounded to `⟨0, 0⟩`. -/
theorem F32.round_close (m e : Int) (hm : m.natAbs < 2 ^ 151) :
    |(F32.round m e).toRat - (m : ℚ) * (2 : ℚ) ^ e| * 2 ^ 24 ≤ |(m : ℚ) * (2 : ℚ) ^ e| ∧
    (F32.round m e).m.natAbs ≤ 2 ^ 24 ∧
    (m ≠ 0 → (F32.round m e).m ≠ 0 ∧ e ≤ (F32.round m e).e) ∧
    (m = 0 → F32.round m e = ⟨0, 0⟩) := by
  obtain ⟨J, he, h1, h2, h3, h4⟩ := F32.shiftRound_close m.natAbs e hm
  have hpe : (0 : ℚ) < (2 : ℚ) ^ e := zpow_pos (by norm_num) _
  have hsplit : (2 : ℚ) ^ (e + (J : Int)) = (2 : ℚ) ^ J * (2 : ℚ) ^ e := by
    rw [zpow_add₀ (by norm_num : (2 : ℚ) ≠ 0), zpow_natCast]
    ring
  have h1q : (2 : ℚ) ^ 24 * (((F32.shiftRound 128 m.natAbs false false e).1 : ℚ) * 2 ^ J)
      ≤ 2 ^ 24 * (m.natAbs : ℚ) + (m.natAbs : ℚ) := by exact_mod_cast h1
  have h2q : (2 : ℚ) ^ 24 * (m.natAbs : ℚ)
      ≤ 2 ^ 24 * (((F32.shiftRound 128 m.natAbs false false e).1 : ℚ) * 2 ^ J)
        + (m.natAbs : ℚ) := by exact_mod_cast h2
  have habs : ((m.natAbs : Nat) : ℚ) = |(m : ℚ)| := by
    rw [Nat.cast_natAbs, Int.cast_abs]
  have hscale : ∀ d : ℚ, |d| * 2 ^ 24 ≤ |(m : ℚ)| →
      |d * (2 : ℚ) ^ e| * 2 ^ 24 ≤ |(m : ℚ) * (2 : ℚ) ^ e| := by
    intro d hd
    rw [abs_mul, abs_mul, abs_of_pos hpe]
    calc |d| * (2 : ℚ) ^ e * 2 ^ 24 = |d| * 2 ^ 24 * (2 : ℚ) ^ e := by ring
      _ ≤ |(m : ℚ)| * (2 : ℚ) ^ e := mul_le_mul_of_nonneg_right hd hpe.le
  have hbound : ∀ d : ℚ, -|(m : ℚ)| ≤ d * 2 ^ 24 → d * 2 ^ 24 ≤ |(m : ℚ)| →
      |d| * 2 ^ 24 ≤ |(m : ℚ)| := by
    intro d hl hu
    have h24 : (0 : ℚ) < 2 ^ 24 := by norm_num
    have : |d| * 2 ^ 24 = |d * 2 ^ 24| := by rw [abs_mul, abs_of_pos h24]
    rw [this]
    exact abs_le.2 ⟨hl, hu⟩
  by_cases hneg : m < 0
  · have hmq : (m : ℚ) < 0 := by exact_mod_cast hneg
    have hm0 : m ≠ 0 := by omega
    have hr0 := h4 (by omega)
    have hv : F32.round m e
        = F32.stripZeros 128 (-((F32.shiftRound 128 m.natAbs false false e).1 : Int))
            (e + J) := by
      unfold F32.round
      simp only []
      rw [if_pos hneg, he]
    have hprops := F32.stripZeros_props 128
      (-((F32.shiftRound 128 m.natAbs false false e).1 : Int)) (e + J) (by omega)
    rw [← hv] at hprops
    refine ⟨?_, ?_, fun _ => ⟨hprops.1, by omega⟩, fun h => absurd h hm0⟩
    · rw [hv, F32.stripZeros_toRat, hsplit]
      rw [habs] at h1q h2q
      push_cast
      generalize ((F32.shiftRound 128 m.natAbs false false e).1 : ℚ) = R at h1q h2q ⊢
      have e1 : -R * (2 ^ J * (2 : ℚ) ^ e) - (m : ℚ) * (2 : ℚ) ^ e
          = (-(R * 2 ^ J) - (m : ℚ)) * (2 : ℚ) ^ e := by ring
      rw [e1]
      have hab : |(m : ℚ)| = -(m : ℚ) := abs_of_neg hmq
      exact hscale _ (hbound _ (by linarith [hab]) (by linarith [hab]))
    · have := hprops.2.2
      omega
  · have hmq : (0 : ℚ) ≤ (m : ℚ) := by exact_mod_cast (not_lt.1 hneg)
    have hv : F32.round m e
        = F32.stripZeros 128 ((F32.shiftRound 128 m.natAbs false false e).1 : Int)
            (e + J) := by
      unfold F32.round
      simp only []
      rw [if_neg hneg, he]
    refine ⟨?_, ?_, fun hm0 => ?_, fun h => ?_⟩
    · rw [hv, F32.stripZeros_toRat, hsplit]
      rw [habs] at h1q h2q
      push_cast
      generalize ((F32.shiftRound 128 m.natAbs false false e).1 : ℚ) = R at h1q h2q ⊢
      have e1 : R * (2 ^ J * (2 : ℚ) ^ e) - (m : ℚ) * (2 : ℚ) ^ e
          = (R * 2 ^ J - (m : ℚ)) * (2 : ℚ) ^ e := by ring
      rw [e1]
      have hab : |(m : ℚ)| = (m : ℚ) := abs_of_nonneg hmq
      exact hscale _ (hbound _ (by linarith [hab]) (by linarith [hab]))
    · by_cases hr0 : (F32.shiftRound 128 m.natAbs false false e).1 = 0
      · rw [hv, hr0]
        simp [F32.stripZeros]
      · have hprops := F32.stripZeros_props 128
          ((F32.shiftRound 128 m.natAbs false false e).1 : Int) (e + J) (by omega)
        rw [← hv] at hprops
        have := hprops.2.2
        omega
    · have hr0 := h4 (by omega)
      have hprops := F32.stripZeros_props 128
        ((F32.shiftRound 128 m.natAbs false false e).1 : Int) (e + J) (by omega)
      rw [← hv] at hprops
      exact ⟨hprops.1, by omega⟩
    · subst h
      unfold F32.round
      simp [F32.shiftRound, F32.stripZeros]

theorem F32.round_exact (m e : Int) (hm : m.natAbs < 2 ^ 24) :
    (F32.round m e).toRat = (m : ℚ) * (2 : ℚ) ^ e := by
  unfold F32.round
  simp only []
  rw [F32.shiftRound_small 127 m.natAbs e hm, F32.stripZeros_toRat]
  simp only []
  by_cases hneg : m < 0
  · rw [if_pos hneg]
    have : -((m.natAbs : Nat) : Int) = m := by omega
    rw [this]
  · rw [if_neg hneg]
    have : ((m.natAbs : Nat) : Int) = m := by omega
    rw [this]

/-- A non-zero value is at least `2 ^ e` in magnitude, so a bound on the value
bounds the exponent. -/
theorem F32.exp_lt_of_abs_lt (x : F32) (k : Int) (hm : x.m ≠ 0)
    (h : |x.toRat| < (2 : ℚ) ^ k) : x.e < k := by
  unfold F32.toRat at h
  have hpe : (0 : ℚ) < (2 : ℚ) ^ x.e := zpow_pos (by norm_num) _
  rw [abs_mul, abs_of_pos hpe] at h
  have h1 : (1 : ℚ) ≤ |(x.m : ℚ)| := by
    have : (1 : Int) ≤ |x.m| := Int.one_le_abs hm
    exact_mod_cast this
  have h2 : (2 : ℚ) ^ x.e ≤ |(x.m : ℚ)| * (2 : ℚ) ^ x.e := by
    calc (2 : ℚ) ^ x.e = 1 * (2 : ℚ) ^ x.e := (one_mul _).symm
      _ ≤ |(x.m : ℚ)| * (2 : ℚ) ^ x.e := mul_le_mul_of_nonneg_right h1 hpe.le
  have h3 : (2 : ℚ) ^ x.e < (2 : ℚ) ^ k := lt_of_le_of_lt h2 h
  exact (zpow_lt_zpow_iff_right₀ (by norm_num : (1 : ℚ) < 2)).1 h3

/-- The conversion of an `int` between 0 and 200 is exact. -/
theorem F32.ofInt_near (n : Int) (h0 : 0 ≤ n) (h200 : n ≤ 200) :
    (F32.ofInt n).toRat = (n : ℚ) ∧ (F32.ofInt n).m.natAbs ≤ 2 ^ 24 ∧
      0 ≤ (F32.ofInt n).e ∧ (F32.ofInt n).e ≤ 7 := by
  have h24 : (2 : Nat) ^ 24 = 16777216 := by norm_num
  have hsmall : n.natAbs < 2 ^ 24 := by omega
  have hex : (F32.ofInt n).toRat = (n : ℚ) := by
    unfold F32.ofInt
    rw [F32.round_exact n 0 hsmall]
    simp
  obtain ⟨_, hm, hne, hz⟩ := F32.round_close n 0 (by
    have : (2 : Nat) ^ 24 ≤ 2 ^ 151 := Nat.pow_le_pow_right (by decide) (by decide)
    omega)
  refine ⟨hex, hm, ?_, ?_⟩
  · by_cases hn : n = 0
    · have := hz hn
      unfold F32.ofInt
      rw [this]
    · exact (hne hn).2
  · by_cases hn : n = 0
    · have := hz hn
      unfold F32.ofInt
      rw [this]
      decide
    · have hlt := F32.exp_lt_of_abs_lt (F32.ofInt n) 8 (hne hn).1 (by
        rw [hex]
        have : |(n : ℚ)| = (n : ℚ) := abs_of_nonneg (by exact_mod_cast h0)
        rw [this]
        have : (n : ℚ) ≤ 200 := by exact_mod_cast h200
        norm_num
        linarith)
      omega

theorem F32.toRat_mul_exact (x y : F32) :
    ((x.m * y.m : Int) : ℚ) * (2 : ℚ) ^ (x.e + y.e) = x.toRat * y.toRat := by
  unfold F32.toRat
  rw [zpow_add₀ (by norm_num : (2 : ℚ) ≠ 0)]
  push_cast
  ring

theorem F32.toRat_add_exact (x y : F32) :
    ((x.m * 2 ^ (x.e - min x.e y.e).toNat + y.m * 2 ^ (y.e - min x.e y.e).toNat : Int) : ℚ)
        * (2 : ℚ) ^ (min x.e y.e)
      = x.toRat + y.toRat := by
  unfold F32.toRat
  have hx : (0 : Int) ≤ x.e - min x.e y.e := by omega
  have hy : (0 : Int) ≤ y.e - min x.e y.e := by omega
  have ex : (2 : ℚ) ^ x.e = (2 : ℚ) ^ (x.e - min x.e y.e).toNat * (2 : ℚ) ^ (min x.e y.e) := by
    rw [← zpow_natCast, Int.toNat_of_nonneg hx, ← zpow_add₀ (by norm_num)]
    congr 1; ring
  have ey : (2 : ℚ) ^ y.e = (2 : ℚ) ^ (y.e - min x.e y.e).toNat * (2 : ℚ) ^ (min x.e y.e) := by
    rw [← zpow_natCast, Int.toNat_of_nonneg hy, ← zpow_add₀ (by norm_num)]
    congr 1; ring
  rw [ex, ey]
  push_cast
  ring

/-- The product of a weight of magnitude at most 1 with an exact count of at
most 200 is within `2 ^ (-15)` of the exact product. -/
theorem F32.mul_weight_near (W f : F32) (n : ℚ) (hWm : W.m.natAbs ≤ 2 ^ 24)
    (hWe : -26 ≤ W.e) (hW0 : W.e ≤ 0) (hWv : |W.toRat| ≤ 1) (hf : f.toRat = n)
    (hfm : f.m.natAbs ≤ 2 ^ 24) (hf0 : 0 ≤ f.e) (hf7 : f.e ≤ 7) (hn : |n| ≤ 200) :
    F32.near (F32.mul W f) (W.toRat * n) (1 / 2 ^ 15) := by
  have hprod : (W.m * f.m).natAbs < 2 ^ 151 := by
    rw [Int.natAbs_mul]
    have h1 : W.m.natAbs * f.m.natAbs ≤ 2 ^ 24 * 2 ^ 24 := Nat.mul_le_mul hWm hfm
    have h2 : (2 : Nat) ^ 24 * 2 ^ 24 < 2 ^ 151 := by norm_num
    omega
  obtain ⟨hc, hm, hne, hz⟩ := F32.round_close (W.m * f.m) (W.e + f.e) hprod
  rw [F32.toRat_mul_exact, hf] at hc
  have hv : |W.toRat * n| ≤ 200 := by
    rw [abs_mul]
    calc |W.toRat| * |n| ≤ 1 * 200 := mul_le_mul hWv hn (abs_nonneg _) (by norm_num)
      _ = 200 := by norm_num
  have herr : |(F32.mul W f).toRat - W.toRat * n| ≤ 1 / 2 ^ 15 := by
    have h1 : |(F32.round (W.m * f.m) (W.e + f.e)).toRat - W.toRat * n| * 2 ^ 24 ≤ 200 :=
      le_trans hc hv
    have h2 : (F32.mul W f) = F32.round (W.m * f.m) (W.e + f.e) := rfl
    rw [h2]
    have h3 : (0 : ℚ) < 2 ^ 24 := by norm_num
    have h4 : |(F32.round (W.m * f.m) (W.e + f.e)).toRat - W.toRat * n| ≤ 200 / 2 ^ 24 := by
      rw [le_div_iff₀ h3]
      exact h1
    refine le_trans h4 ?_
    norm_num
  refine ⟨herr, hm, ?_, ?_⟩
  · by_cases h0 : W.m * f.m = 0
    · have := hz h0
      show -26 ≤ (F32.round (W.m * f.m) (W.e + f.e)).e
      rw [this]
      decide
    · have := (hne h0).2
      show -26 ≤ (F32.round (W.m * f.m) (W.e + f.e)).e
      omega
  · by_cases h0 : W.m * f.m = 0
    · have := hz h0
      show (F32.round (W.m * f.m) (W.e + f.e)).e ≤ 9
      rw [this]
      decide
    · have hlt := F32.exp_lt_of_abs_lt (F32.mul W f) 10 (hne h0).1 (by
        have h1 : |(F32.mul W f).toRat| ≤ |W.toRat * n| + 1 / 2 ^ 15 := by
          have := abs_sub_abs_le_abs_sub (F32.mul W f).toRat (W.toRat * n)
          linarith
        have h2 : |W.toRat * n| + 1 / 2 ^ 15 < (2 : ℚ) ^ (10 : Int) := by
          norm_num
          linarith
        exact lt_of_le_of_lt h1 h2)
      omega

/-- The sum of two values in range is within `2 ^ (-15)` of the exact sum, as
long as the sum stays below 512 in magnitude. -/
theorem F32.add_near (x y : F32) (v w ε δ : ℚ) (hx : F32.near x v ε) (hy : F32.near y w δ)
    (hsum : |v + w| + ε + δ ≤ 512) :
    F32.near (F32.add x y) (v + w) (ε + δ + 1 / 2 ^ 15) := by
  obtain ⟨hxv, hxm, hxl, hxu⟩ := hx
  obtain ⟨hyv, hym, hyl, hyu⟩ := hy
  have ha : (x.e - min x.e y.e).toNat ≤ 35 := by omega
  have hb : (y.e - min x.e y.e).toNat ≤ 35 := by omega
  have hM : (x.m * 2 ^ (x.e - min x.e y.e).toNat
      + y.m * 2 ^ (y.e - min x.e y.e).toNat).natAbs < 2 ^ 151 := by
    have h1 := Int.natAbs_add_le (x.m * 2 ^ (x.e - min x.e y.e).toNat)
      (y.m * 2 ^ (y.e - min x.e y.e).toNat)
    rw [Int.natAbs_mul, Int.natAbs_mul, Int.natAbs_pow, Int.natAbs_pow] at h1
    have h2 : x.m.natAbs * (2 : Int).natAbs ^ (x.e - min x.e y.e).toNat ≤ 2 ^ 24 * 2 ^ 35 :=
      Nat.mul_le_mul hxm (Nat.pow_le_pow_right (by decide) ha)
    have h3 : y.m.natAbs * (2 : Int).natAbs ^ (y.e - min x.e y.e).toNat ≤ 2 ^ 24 * 2 ^ 35 :=
      Nat.mul_le_mul hym (Nat.pow_le_pow_right (by decide) hb)
    have h4 : (2 : Nat) ^ 24 * 2 ^ 35 + 2 ^ 24 * 2 ^ 35 < 2 ^ 151 := by norm_num
    omega
  obtain ⟨hc, hm, hne, hz⟩ := F32.round_close _ (min x.e y.e) hM
  rw [F32.toRat_add_exact] at hc
  have hS : |x.toRat + y.toRat - (v + w)| ≤ ε + δ := by
    have e1 : x.toRat + y.toRat - (v + w) = (x.toRat - v) + (y.toRat - w) := by ring
    rw [e1]
    exact le_trans (abs_add _ _) (add_le_add hxv hyv)
  have hSabs : |x.toRat + y.toRat| ≤ 512 := by
    have := abs_sub_abs_le_abs_sub (x.toRat + y.toRat) (v + w)
    linarith
  have hdef : F32.add x y = F32.round (x.m * 2 ^ (x.e - min x.e y.e).toNat
      + y.m * 2 ^ (y.e - min x.e y.e).toNat) (min x.e y.e) := rfl
  rw [← hdef] at hc hm hne hz
  have h24 : (0 : ℚ) < 2 ^ 24 := by norm_num
  have herr1 : |(F32.add x y).toRat - (x.toRat + y.toRat)| ≤ 1 / 2 ^ 15 := by
    have h1 : |(F32.add x y).toRat - (x.toRat + y.toRat)| ≤ 512 / 2 ^ 24 := by
      rw [le_div_iff₀ h24]
      exact le_trans hc hSabs
    refine le_trans h1 ?_
    norm_num
  have herr : |(F32.add x y).toRat - (v + w)| ≤ ε + δ + 1 / 2 ^ 15 := by
    have e1 : (F32.add x y).toRat - (v + w)
        = ((F32.add x y).toRat - (x.toRat + y.toRat)) + (x.toRat + y.toRat - (v + w)) := by ring
    rw [e1]
    have := abs_add ((F32.add x y).toRat - (x.toRat + y.toRat)) (x.toRat + y.toRat - (v + w))
    linarith
  refine ⟨herr, hm, ?_, ?_⟩
  · by_cases h0 : x.m * 2 ^ (x.e - min x.e y.e).toNat
        + y.m * 2 ^ (y.e - min x.e y.e).toNat = 0
    · rw [hz h0]
      decide
    · have := (hne h0).2
      omega
  · by_cases h0 : x.m * 2 ^ (x.e - min x.e y.e).toNat
        + y.m * 2 ^ (y.e - min x.e y.e).toNat = 0
    · rw [hz h0]
      decide
    · have hlt := F32.exp_lt_of_abs_lt (F32.add x y) 10 (hne h0).1 (by
        have h1 : |(F32.add x y).toRat| ≤ |x.toRat + y.toRat| + 1 / 2 ^ 15 := by
          have := abs_sub_abs_le_abs_sub (F32.add x y).toRat (x.toRat + y.toRat)
          linarith
        have h2 : |x.toRat + y.toRat| + 1 / 2 ^ 15 < (2 : ℚ) ^ (10 : Int) := by
          norm_num
          linarith
        exact lt_of_le_of_lt h1 h2)
      omega

/-! ### The order of the evaluation scores -/

theorem list_sum_bounds {α : Type} (f : α → Int) (c : Int) :
    ∀ l : List α, (∀ x ∈ l, 0 ≤ f x ∧ f x ≤ c) →
      0 ≤ (l.map f).sum ∧ (l.map f).sum ≤ c * l.length
  | [], _ => by simp
  | x :: l, h => by
    obtain ⟨h1, h2⟩ := list_sum_bounds f c l (fun y hy => h y (List.mem_cons_of_mem _ hy))
    obtain ⟨h3, h4⟩ := h x (List.mem_cons_self _ _)
    simp only [List.map_cons, List.sum_cons, List.length_cons]
    push_cast
    constructor
    · omega
    · have : c * ((l.length : Int) + 1) = c * l.length + c := by ring
      rw [this]
      omega

theorem columnHeight_bounds (a : Fin ROWS → Fin COLS → Int) (x : Fin COLS) :
    0 ≤ columnHeight a x ∧ columnHeight a x ≤ 20 := by
  unfold columnHeight
  split
  · next y _ =>
    have := y.isLt
    have hR : (ROWS : Int) = 20 := rfl
    rw [hR]
    omega
  · exact ⟨le_refl _, by decide⟩

theorem aggregateHeight_bounds (a : Fin ROWS → Fin COLS → Int) :
    0 ≤ aggregateHeight a ∧ aggregateHeight a ≤ 200 := by
  unfold aggregateHeight
  have h := list_sum_bounds (columnHeight a) 20 (List.finRange COLS)
    (fun x _ => columnHeight_bounds a x)
  rw [List.length_finRange] at h
  have hC : ((COLS : Nat) : Int) = 10 := rfl
  rw [hC] at h
  omega

theorem completeLines_bounds (a : Fin ROWS → Fin COLS → Int) :
    0 ≤ completeLines a ∧ completeLines a ≤ 200 := by
  unfold completeLines
  have h := List.length_filter_le
    (fun y => (List.finRange COLS).all fun x => a y x != 0) (List.finRange ROWS)
  rw [List.length_finRange] at h
  have h2 : (List.filter (fun y => (List.finRange COLS).all fun x => a y x != 0)
      (List.finRange ROWS)).length ≤ 20 := h
  omega

theorem holesInColumn_fold_bounds (a : Fin ROWS → Fin COLS → Int) (x : Fin COLS) :
    ∀ (l : List (Fin ROWS)) (st : Bool × Int), 0 ≤ st.2 →
      0 ≤ (l.foldl
        (fun st y => if a y x != 0 then (true, st.2) else if st.1 then (st.1, st.2 + 1) else st)
        st).2 ∧
      (l.foldl
        (fun st y => if a y x != 0 then (true, st.2) else if st.1 then (st.1, st.2 + 1) else st)
        st).2 ≤ st.2 + l.length
  | [], st, h => by simp [h]
  | y :: l, st, h => by
    rw [List.foldl_cons]
    have hstep : 0 ≤ (if a y x != 0 then (true, st.2)
        else if st.1 then (st.1, st.2 + 1) else st).2 ∧
        (if a y x != 0 then (true, st.2)
        else if st.1 then (st.1, st.2 + 1) else st).2 ≤ st.2 + 1 := by
      split
      · simp only []
        omega
      · split
        · simp only []
          omega
        · omega
    obtain ⟨h1, h2⟩ := holesInColumn_fold_bounds a x l _ hstep.1
    refine ⟨h1, ?_⟩
    simp only [List.length_cons]
    push_cast
    omega

theorem holes_bounds (a : Fin ROWS → Fin COLS → Int) : 0 ≤ holes a ∧ holes a ≤ 200 := by
  unfold holes
  have h := list_sum_bounds (fun x => (holesInColumn a x).2) 20 (List.finRange COLS)
    (fun x _ => by
      have := holesInColumn_fold_bounds a x (List.finRange ROWS) (false, 0) (le_refl _)
      rw [List.length_finRange] at this
      have hR : ((ROWS : Nat) : Int) = 20 := rfl
      rw [hR] at this
      unfold holesInColumn
      simp only []
      omega)
  rw [List.length_finRange] at h
  have hC : ((COLS : Nat) : Int) = 10 := rfl
  rw [hC] at h
  omega

theorem bumpiness_bounds (a : Fin ROWS → Fin COLS → Int) :
    0 ≤ bumpiness a ∧ bumpiness a ≤ 200 := by
  unfold bumpiness
  have h := list_sum_bounds
    (fun x : Fin (COLS - 1) =>
      (((columnHeight a ⟨x.val, by omega⟩ - columnHeight a ⟨x.val + 1, by omega⟩).natAbs : Nat) :
        Int)) 20 (List.finRange (COLS - 1))
    (fun x _ => by
      have h1 := columnHeight_bounds a ⟨x.val, by omega⟩
      have h2 := columnHeight_bounds a ⟨x.val + 1, by omega⟩
      simp only []
      omega)
  rw [List.length_finRange] at h
  have hC : (20 : Int) * ((COLS - 1 : Nat) : Int) = 180 := rfl
  have h2 := le_trans h.2 (le_of_eq hC)
  have h1 := h.1
  constructor
  · exact h1
  · omega

theorem moveFeatures_bounds (g : Game) (t : Tetromino) :
    (0 ≤ (moveFeatures g t).1 ∧ (moveFeatures g t).1 ≤ 200) ∧
    (0 ≤ (moveFeatures g t).2.1 ∧ (moveFeatures g t).2.1 ≤ 200) ∧
    (0 ≤ (moveFeatures g t).2.2.1 ∧ (moveFeatures g t).2.2.1 ≤ 200) ∧
    (0 ≤ (moveFeatures g t).2.2.2 ∧ (moveFeatures g t).2.2.2 ≤ 200) :=
  ⟨aggregateHeight_bounds _, completeLines_bounds _, holes_bounds _, bumpiness_bounds _⟩

theorem EvaluateMove_medium (g : Game) (t : Tetromino) (dropPosition rotations : Int)
    (hm : g.autoPlayLevel = 1) (hb : ¬ (t.type = g.held.type ∧ g.hasHeld = true)) :
    EvaluateMove g t dropPosition rotations = mediumScore (moveFeatures g t) := by
  unfold EvaluateMove mediumScore moveFeatures
  have h10 : ¬ ((1 : Int) = 0) := by decide
  have h12 : ¬ ((1 : Int) = 2) := by decide
  simp only [hm, h10, h12, if_false, if_neg hb]

theorem AI_weights_values :
    AI_HEIGHT_WEIGHT.toRat = -8557487 / 16777216 ∧
    AI_LINES_WEIGHT.toRat = 6380929 / 8388608 ∧
    AI_HOLES_WEIGHT.toRat = -11966517 / 33554432 ∧
    AI_BUMPINESS_WEIGHT.toRat = -12380445 / 67108864 := by
  norm_num [F32.toRat, AI_HEIGHT_WEIGHT, AI_LINES_WEIGHT, AI_HOLES_WEIGHT, AI_BUMPINESS_WEIGHT]

theorem weight_term_near (W : F32) (n : Int) (hWm : W.m.natAbs ≤ 2 ^ 24)
    (hWe : -26 ≤ W.e) (hW0 : W.e ≤ 0) (hWv : |W.toRat| ≤ 1) (h0 : 0 ≤ n) (h200 : n ≤ 200) :
    F32.near (F32.mul W (F32.ofInt n)) (W.toRat * n) (1 / 2 ^ 15) := by
  obtain ⟨h1, h2, h3, h4⟩ := F32.ofInt_near n h0 h200
  apply F32.mul_weight_near W (F32.ofInt n) n hWm hWe hW0 hWv h1 h2 h3 h4
  have ha : (0 : ℚ) ≤ (n : ℚ) := by exact_mod_cast h0
  have hb : (n : ℚ) ≤ 200 := by exact_mod_cast h200
  rw [abs_of_nonneg ha]
  exact hb

/-- The `float` score under the base weights is within `7 * 2 ^ (-15)` of the
exact weighted sum, for features between 0 and 200. -/
theorem mediumScore_near (f : Int × Int × Int × Int)
    (hH : 0 ≤ f.1 ∧ f.1 ≤ 200) (hL : 0 ≤ f.2.1 ∧ f.2.1 ≤ 200)
    (hO : 0 ≤ f.2.2.1 ∧ f.2.2.1 ≤ 200) (hB : 0 ≤ f.2.2.2 ∧ f.2.2.2 ≤ 200) :
    |(mediumScore f).toRat - exactScore f| ≤ 7 / 2 ^ 15 := by
  obtain ⟨wH, wL, wO, wB⟩ := AI_weights_values
  have pH := weight_term_near AI_HEIGHT_WEIGHT f.1 (by decide) (by decide) (by decide)
    (by rw [wH]; norm_num [abs_le]) hH.1 hH.2
  have pL := weight_term_near AI_LINES_WEIGHT f.2.1 (by decide) (by decide) (by decide)
    (by rw [wL]; norm_num [abs_le]) hL.1 hL.2
  have pO := weight_term_near AI_HOLES_WEIGHT f.2.2.1 (by decide) (by decide) (by decide)
    (by rw [wO]; norm_num [abs_le]) hO.1 hO.2
  have pB := weight_term_near AI_BUMPINESS_WEIGHT f.2.2.2 (by decide) (by decide) (by decide)
    (by rw [wB]; norm_num [abs_le]) hB.1 hB.2
  have qH0 : (0 : ℚ) ≤ (f.1 : ℚ) := by exact_mod_cast hH.1
  have qH1 : (f.1 : ℚ) ≤ 200 := by exact_mod_cast hH.2
  have qL0 : (0 : ℚ) ≤ (f.2.1 : ℚ) := by exact_mod_cast hL.1
  have qL1 : (f.2.1 : ℚ) ≤ 200 := by exact_mod_cast hL.2
  have qO0 : (0 : ℚ) ≤ (f.2.2.1 : ℚ) := by exact_mod_cast hO.1
  have qO1 : (f.2.2.1 : ℚ) ≤ 200 := by exact_mod_cast hO.2
  have qB0 : (0 : ℚ) ≤ (f.2.2.2 : ℚ) := by exact_mod_cast hB.1
  have qB1 : (f.2.2.2 : ℚ) ≤ 200 := by exact_mod_cast hB.2
  have s1 := F32.add_near _ _ _ _ _ _ pH pL (by
    have : |AI_HEIGHT_WEIGHT.toRat * (f.1 : ℚ) + AI_LINES_WEIGHT.toRat * (f.2.1 : ℚ)| ≤ 400 := by
      rw [wH, wL, abs_le]
      constructor <;> linarith
    linarith)
  have s2 := F32.add_near _ _ _ _ _ _ s1 pO (by
    have : |AI_HEIGHT_WEIGHT.toRat * (f.1 : ℚ) + AI_LINES_WEIGHT.toRat * (f.2.1 : ℚ)
        + AI_HOLES_WEIGHT.toRat * (f.2.2.1 : ℚ)| ≤ 400 := by
      rw [wH, wL, wO, abs_le]
      constructor <;> linarith
    linarith)
  have s3 := F32.add_near _ _ _ _ _ _ s2 pB (by
    have : |AI_HEIGHT_WEIGHT.toRat * (f.1 : ℚ) + AI_LINES_WEIGHT.toRat * (f.2.1 : ℚ)
        + AI_HOLES_WEIGHT.toRat * (f.2.2.1 : ℚ) + AI_BUMPINESS_WEIGHT.toRat * (f.2.2.2 : ℚ)|
        ≤ 400 := by
      rw [wH, wL, wO, wB, abs_le]
      constructor <;> linarith
    linarith)
  have h := s3.1
  unfold mediumScore exactScore
  refine le_trans h ?_
  norm_num

/-- A gap of `1 / 8` between the exact weighted sums decides the comparison of
the `float` scores. -/
theorem mediumScore_lt (f f1 : Int × Int × Int × Int)
    (hH : 0 ≤ f.1 ∧ f.1 ≤ 200) (hL : 0 ≤ f.2.1 ∧ f.2.1 ≤ 200)
    (hO : 0 ≤ f.2.2.1 ∧ f.2.2.1 ≤ 200) (hB : 0 ≤ f.2.2.2 ∧ f.2.2.2 ≤ 200)
    (hH1 : 0 ≤ f1.1 ∧ f1.1 ≤ 200) (hL1 : 0 ≤ f1.2.1 ∧ f1.2.1 ≤ 200)
    (hO1 : 0 ≤ f1.2.2.1 ∧ f1.2.2.1 ≤ 200) (hB1 : 0 ≤ f1.2.2.2 ∧ f1.2.2.2 ≤ 200)
    (hgap : exactScore f1 + 1 / 8 ≤ exactScore f) :
    F32.lt (mediumScore f1) (mediumScore f) = true := by
  rw [F32.lt_iff_toRat]
  have h := abs_le.1 (mediumScore_near f hH hL hO hB)
  have h1 := abs_le.1 (mediumScore_near f1 hH1 hL1 hO1 hB1)
  have e : (7 : ℚ) / 2 ^ 15 < 1 / 16 := by norm_num
  linarith [h.1, h.2, h1.1, h1.2]

/-- C26: under the base (Medium) weights and without the held-piece bonus the
score of `EvaluateMove` is the `float` weighted sum of the four features of
the test grid.  Of two placements that differ in one feature only, the one
with the smaller aggregate height, with more complete lines, with fewer holes,
or with the smaller bumpiness has the strictly greater score; of two
placements with equal aggregate height and complete lines the one with fewer
holes and no more bumpiness has the strictly greater score; and a placement
with one complete line more and three holes more (the other two features
equal) has the strictly smaller score.  The score is within one thousandth of
`-0.510066·H + 0.760666·L - 0.35663·O - 0.184483·B`. -/
theorem C26_medium_score_order (g g1 : Game) (t t1 : Tetromino) (d r d1 r1 : Int)
    (hm : g.autoPlayLevel = 1) (hm1 : g1.autoPlayLevel = 1)
    (hb : ¬ (t.type = g.held.type ∧ g.hasHeld = true))
    (hb1 : ¬ (t1.type = g1.held.type ∧ g1.hasHeld = true)) :
    EvaluateMove g t d r = mediumScore (moveFeatures g t) ∧
    ((moveFeatures g t).1 < (moveFeatures g1 t1).1 →
      (moveFeatures g t).2 = (moveFeatures g1 t1).2 →
      F32.lt (EvaluateMove g1 t1 d1 r1) (EvaluateMove g t d r) = true) ∧
    ((moveFeatures g t).2.1 < (moveFeatures g1 t1).2.1 →
      (moveFeatures g t).1 = (moveFeatures g1 t1).1 →
      (moveFeatures g t).2.2 = (moveFeatures g1 t1).2.2 →
      F32.lt (EvaluateMove g t d r) (EvaluateMove g1 t1 d1 r1) = true) ∧
    ((moveFeatures g t).2.2.1 < (moveFeatures g1 t1).2.2.1 →
      (moveFeatures g t).1 = (moveFeatures g1 t1).1 →
      (moveFeatures g t).2.1 = (moveFeatures g1 t1).2.1 →
      (moveFeatures g t).2.2.2 = (moveFeatures g1 t1).2.2.2 →
      F32.lt (EvaluateMove g1 t1 d1 r1) (EvaluateMove g t d r) = true) ∧
    ((moveFeatures g t).2.2.2 < (moveFeatures g1 t1).2.2.2 →
      (moveFeatures g t).1 = (moveFeatures g1 t1).1 →
      (moveFeatures g t).2.1 = (moveFeatures g1 t1).2.1 →
      (moveFeatures g t).2.2.1 = (moveFeatures g1 t1).2.2.1 →
      F32.lt (EvaluateMove g1 t1 d1 r1) (EvaluateMove g t d r) = true) ∧
    ((moveFeatures g t).1 = (moveFeatures g1 t1).1 →
      (moveFeatures g t).2.1 = (moveFeatures g1 t1).2.1 →
      (moveFeatures g t).2.2.1 < (moveFeatures g1 t1).2.2.1 →
      (moveFeatures g t).2.2.2 ≤ (moveFeatures g1 t1).2.2.2 →
      F32.lt (EvaluateMove g1 t1 d1 r1) (EvaluateMove g t d r) = true) ∧
    ((moveFeatures g t).1 = (moveFeatures g1 t1).1 →
      (moveFeatures g t).2.2.2 = (moveFeatures g1 t1).2.2.2 →
      (moveFeatures g1 t1).2.1 = (moveFeatures g t).2.1 + 1 →
      (moveFeatures g1 t1).2.2.1 = (moveFeatures g t).2.2.1 + 3 →
      F32.lt (EvaluateMove g1 t1 d1 r1) (EvaluateMove g t d r) = true) ∧
    |(EvaluateMove g t d r).toRat
        - (-(510066 / 1000000 : ℚ) * (moveFeatures g t).1
          + (760666 / 1000000 : ℚ) * (moveFeatures g t).2.1
          - (35663 / 100000 : ℚ) * (moveFeatures g t).2.2.1
          - (184483 / 1000000 : ℚ) * (moveFeatures g t).2.2.2)| ≤ 1 / 1000 := by
  obtain ⟨bH, bL, bO, bB⟩ := moveFeatures_bounds g t
  obtain ⟨cH, cL, cO, cB⟩ := moveFeatures_bounds g1 t1
  obtain ⟨wH, wL, wO, wB⟩ := AI_weights_values
  rw [EvaluateMove_medium g t d r hm hb, EvaluateMove_medium g1 t1 d1 r1 hm1 hb1]
  generalize moveFeatures g t = f at bH bL bO bB ⊢
  generalize moveFeatures g1 t1 = f1 at cH cL cO cB ⊢
  obtain ⟨H, L, O, B⟩ := f
  obtain ⟨H1, L1, O1, B1⟩ := f1
  simp only at bH bL bO bB cH cL cO cB ⊢
  have key : ∀ a b : Int × Int × Int × Int,
      (0 ≤ a.1 ∧ a.1 ≤ 200) → (0 ≤ a.2.1 ∧ a.2.1 ≤ 200) → (0 ≤ a.2.2.1 ∧ a.2.2.1 ≤ 200) →
      (0 ≤ a.2.2.2 ∧ a.2.2.2 ≤ 200) →
      (0 ≤ b.1 ∧ b.1 ≤ 200) → (0 ≤ b.2.1 ∧ b.2.1 ≤ 200) → (0 ≤ b.2.2.1 ∧ b.2.2.1 ≤ 200) →
      (0 ≤ b.2.2.2 ∧ b.2.2.2 ≤ 200) →
      exactScore b + 1 / 8 ≤ exactScore a → F32.lt (mediumScore b) (mediumScore a) = true :=
    fun a b h1 h2 h3 h4 h5 h6 h7 h8 hg => mediumScore_lt a b h1 h2 h3 h4 h5 h6 h7 h8 hg
  refine ⟨trivial, ?_, ?_, ?_, ?_, ?_, ?_, ?_⟩
  · intro hlt heq
    obtain ⟨rfl, rfl, rfl⟩ : L = L1 ∧ O = O1 ∧ B = B1 := by
      simpa [Prod.ext_iff] using heq
    apply key (H, L, O, B) (H1, L, O, B) bH bL bO bB cH cL cO cB
    unfold exactScore
    simp only [wH, wL, wO, wB]
    have : (H : ℚ) + 1 ≤ (H1 : ℚ) := by exact_mod_cast hlt
    linarith
  · intro hlt heq1 heq2
    obtain ⟨rfl, rfl⟩ : O = O1 ∧ B = B1 := by simpa [Prod.ext_iff] using heq2
    subst heq1
    apply key (H, L1, O, B) (H, L, O, B) cH cL cO cB bH bL bO bB
    unfold exactScore
    simp only [wH, wL, wO, wB]
    have : (L : ℚ) + 1 ≤ (L1 : ℚ) := by exact_mod_cast hlt
    linarith
  · intro hlt heq1 heq2 heq3
    subst heq1 heq2 heq3
    apply key (H, L, O, B) (H, L, O1, B) bH bL bO bB cH cL cO cB
    unfold exactScore
    simp only [wH, wL, wO, wB]
    have : (O : ℚ) + 1 ≤ (O1 : ℚ) := by exact_mod_cast hlt
    linarith
  · intro hlt heq1 heq2 heq3
    subst heq1 heq2 heq3
    apply key (H, L, O, B) (H, L, O, B1) bH bL bO bB cH cL cO cB
    unfold exactScore
    simp only [wH, wL, wO, wB]
    have : (B : ℚ) + 1 ≤ (B1 : ℚ) := by exact_mod_cast hlt
    linarith
  · intro heq1 heq2 hlt hle
    subst heq1 heq2
    apply key (H, L, O, B) (H, L, O1, B1) bH bL bO bB cH cL cO cB
    unfold exactScore
    simp only [wH, wL, wO, wB]
    have h1 : (O : ℚ) + 1 ≤ (O1 : ℚ) := by exact_mod_cast hlt
    have h2 : (B : ℚ) ≤ (B1 : ℚ) := by exact_mod_cast hle
    linarith
  · intro heq1 heq2 hL hO
    subst heq1 heq2 hL hO
    apply key (H, L, O, B) (H, L + 1, O + 3, B) bH bL bO bB cH cL cO cB
    unfold exactScore
    simp only [wH, wL, wO, wB]
    push_cast
    linarith
  · have h := abs_le.1 (mediumScore_near (H, L, O, B) bH bL bO bB)
    unfold exactScore at h
    simp only [wH, wL, wO, wB] at h
    have qH0 : (0 : ℚ) ≤ (H : ℚ) := by exact_mod_cast bH.1
    have qH1 : (H : ℚ) ≤ 200 := by exact_mod_cast bH.2
    have qL0 : (0 : ℚ) ≤ (L : ℚ) := by exact_mod_cast bL.1
    have qL1 : (L : ℚ) ≤ 200 := by exact_mod_cast bL.2
    have qO0 : (0 : ℚ) ≤ (O : ℚ) := by exact_mod_cast bO.1
    have qO1 : (O : ℚ) ≤ 200 := by exact_mod_cast bO.2
    have qB0 : (0 : ℚ) ≤ (B : ℚ) := by exact_mod_cast bB.1
    have qB1 : (B : ℚ) ≤ 200 := by exact_mod_cast bB.2
    rw [abs_le]
    constructor <;> linarith [h.1, h.2]

set_option maxRecDepth 1000000 in
/-- Two pairs of placements of the I-piece at Medium difficulty, nothing held.
On `slotBoard` the piece upright in column 4 completes row 19, upright in
column 0 it completes nothing; aggregate height, holes and bumpiness are the
same, and the placement with the complete line has the strictly greater score.
The piece lying on columns 0 to 3 of row 18 covers no hole on `slotBoard` and
one hole on `twoSlotBoard`; the other three features are the same, and the
placement without the hole has the strictly greater score. -/
theorem C26_medium_score_order_witness :
    (slotGame.autoPlayLevel = 1 ∧ twoSlotGame.autoPlayLevel = 1) ∧
    (GetDropPosition slotBoard (uprightI 0) = some 15 ∧
      GetDropPosition slotBoard (uprightI 4) = some 16 ∧
      moveFeatures slotGame { uprightI 0 with y := 15 } = (13, 0, 0, 6) ∧
      moveFeatures slotGame { uprightI 4 with y := 16 } = (13, 1, 0, 6) ∧
      F32.lt (EvaluateMove slotGame { uprightI 0 with y := 15 } 15 1)
        (EvaluateMove slotGame { uprightI 4 with y := 16 } 16 1) = true) ∧
    (GetDropPosition slotBoard { tetrominoes 0 with x := 0 } = some 17 ∧
      GetDropPosition twoSlotBoard { tetrominoes 0 with x := 0 } = some 17 ∧
      moveFeatures slotGame { tetrominoes 0 with x := 0, y := 17 } = (13, 0, 0, 3) ∧
      moveFeatures twoSlotGame { tetrominoes 0 with x := 0, y := 17 } = (13, 0, 1, 3) ∧
      F32.lt (EvaluateMove twoSlotGame { tetrominoes 0 with x := 0, y := 17 } 17 0)
        (EvaluateMove slotGame { tetrominoes 0 with x := 0, y := 17 } 17 0) = true) := by
  have hd0 : GetDropPosition slotBoard (uprightI 0) = some 15 := by decide
  have hd4 : GetDropPosition slotBoard (uprightI 4) = some 16 := by decide
  have hf0 : moveFeatures slotGame { uprightI 0 with y := 15 } = (13, 0, 0, 6) := by decide
  have hf4 : moveFeatures slotGame { uprightI 4 with y := 16 } = (13, 1, 0, 6) := by decide
  have hlines := (C26_medium_score_order slotGame slotGame { uprightI 0 with y := 15 }
    { uprightI 4 with y := 16 } 15 1 16 1 rfl rfl (by decide) (by decide)).2.2.1
    (by rw [hf0, hf4]; decide) (by rw [hf0, hf4]) (by rw [hf0, hf4])
  have hd1 : GetDropPosition slotBoard { tetrominoes 0 with x := 0 } = some 17 := by decide
  have hd2 : GetDropPosition twoSlotBoard { tetrominoes 0 with x := 0 } = some 17 := by decide
  have hf1 : moveFeatures slotGame { tetrominoes 0 with x := 0, y := 17 } = (13, 0, 0, 3) := by
    decide
  have hf2 : moveFeatures twoSlotGame { tetrominoes 0 with x := 0, y := 17 }
      = (13, 0, 1, 3) := by decide
  have hholes := (C26_medium_score_order slotGame twoSlotGame
    { tetrominoes 0 with x := 0, y := 17 } { tetrominoes 0 with x := 0, y := 17 } 17 0 17 0
    rfl rfl (by decide) (by decide)).2.2.2.1
    (by rw [hf1, hf2]; decide) (by rw [hf1, hf2]) (by rw [hf1, hf2]) (by rw [hf1, hf2])
  exact ⟨⟨rfl, rfl⟩, ⟨hd0, hd4, hf0, hf4, hlines⟩, ⟨hd1, hd2, hf1, hf2, hholes⟩⟩

/-! ### The auto-play delay -/

theorem F32.lt_self (x : F32) : F32.lt x x = false := by
  cases h : F32.lt x x with
  | false => rfl
  | true => exact absurd ((F32.lt_iff_toRat x x).1 h) (lt_irrefl _)

/-- The function `ClampValue` with the bounds of the delay returns a value in
the range. -/
theorem ClampValue_delayInRange (v : F32) :
    delayInRange (ClampValue v AI_DELAY_MIN AI_DELAY_MAX) := by
  unfold ClampValue delayInRange
  by_cases h1 : F32.lt v AI_DELAY_MIN = true
  · rw [if_pos h1]
    exact ⟨F32.lt_self _, by decide⟩
  · rw [if_neg h1]
    by_cases h2 : F32.lt AI_DELAY_MAX v = true
    · rw [if_pos h2]
      exact ⟨by decide, F32.lt_self _⟩
    · rw [if_neg h2]
      exact ⟨by simpa using h1, by simpa using h2⟩

theorem HandleAutoPlaySettings_delayKeys_inRange (g : Game) (left right : Bool)
    (h : left = true ∨ right = true) :
    delayInRange (HandleAutoPlaySettings_delayKeys g left right).autoPlayDelay := by
  unfold HandleAutoPlaySettings_delayKeys
  simp only
  cases right with
  | true => exact ClampValue_delayInRange _
  | false =>
    cases left with
    | true => exact ClampValue_delayInRange _
    | false => simp at h

/-- A value above `2 ^ (-j)` with a mantissa of at most 24 bits is a multiple
of `2 ^ (-(j + 23))`. -/
theorem F32.on_grid (x : F32) (j : Nat) (hm : x.m.natAbs ≤ 2 ^ 24)
    (h : 1 / (2 : ℚ) ^ j < x.toRat) : ∃ N : Int, x.toRat = (N : ℚ) / 2 ^ (j + 23) := by
  have hpe : (0 : ℚ) < (2 : ℚ) ^ x.e := zpow_pos (by norm_num) _
  have hpos : (0 : ℚ) < x.toRat := lt_trans (by positivity) h
  have hmq : (x.m : ℚ) ≤ 2 ^ 24 := by
    have h1 : x.m ≤ (x.m.natAbs : Int) := Int.le_natAbs
    have h2 : (x.m.natAbs : Int) ≤ 2 ^ 24 := by exact_mod_cast hm
    have h3 : x.m ≤ 2 ^ 24 := le_trans h1 h2
    exact_mod_cast h3
  have hle : x.toRat ≤ (2 : ℚ) ^ (24 + x.e) := by
    unfold F32.toRat
    rw [zpow_add₀ (by norm_num : (2 : ℚ) ≠ 0)]
    have : ((2 : ℚ) ^ (24 : Int)) = 2 ^ 24 := by norm_num
    rw [this]
    exact mul_le_mul_of_nonneg_right hmq hpe.le
  have hj : (1 : ℚ) / (2 : ℚ) ^ j = (2 : ℚ) ^ (-(j : Int)) := by
    rw [zpow_neg, zpow_natCast, one_div]
  rw [hj] at h
  have hexp : -(j : Int) < 24 + x.e :=
    (zpow_lt_zpow_iff_right₀ (by norm_num : (1 : ℚ) < 2)).1 (lt_of_lt_of_le h hle)
  refine ⟨x.m * 2 ^ (x.e + j + 23).toNat, ?_⟩
  have hnn : (0 : Int) ≤ x.e + j + 23 := by omega
  unfold F32.toRat
  push_cast
  rw [← zpow_natCast (2 : ℚ) (x.e + j + 23).toNat, Int.toNat_of_nonneg hnn, mul_div_assoc]
  congr 1
  rw [eq_div_iff (by positivity)]
  rw [← zpow_natCast (2 : ℚ) (j + 23), ← zpow_add₀ (by norm_num : (2 : ℚ) ≠ 0)]
  congr 1
  push_cast
  ring

theorem ClampValue_unit (n : F32) (hm : n.m.natAbs ≤ 2 ^ 24) :
    (ClampValue n F32.zero F32.one).m.natAbs ≤ 2 ^ 24 ∧
    0 ≤ (ClampValue n F32.zero F32.one).toRat ∧ (ClampValue n F32.zero F32.one).toRat ≤ 1 := by
  unfold ClampValue
  by_cases h1 : F32.lt n F32.zero = true
  · rw [if_pos h1]
    refine ⟨by decide, ?_, ?_⟩ <;> norm_num [F32.toRat, F32.zero]
  · rw [if_neg h1]
    by_cases h2 : F32.lt F32.one n = true
    · rw [if_pos h2]
      refine ⟨by decide, ?_, ?_⟩ <;> norm_num [F32.toRat, F32.one]
    · rw [if_neg h2]
      rw [F32.lt_iff_toRat] at h1 h2
      have hz : F32.zero.toRat = 0 := by norm_num [F32.toRat, F32.zero]
      have ho : F32.one.toRat = 1 := by norm_num [F32.toRat, F32.one]
      rw [hz] at h1
      rw [ho] at h2
      exact ⟨hm, not_lt.1 h1, not_lt.1 h2⟩

/-- The delay slider puts the delay into the range, for every binary32 value
of the normalised mouse position (mantissa of at most 24 bits, exponent not
below -100). -/
theorem HandleAutoPlaySettings_delaySlider_inRange (g : Game) (n : F32)
    (hm : n.m.natAbs ≤ 2 ^ 24) (he : -100 ≤ n.e) :
    delayInRange (HandleAutoPlaySettings_delaySlider g n).autoPlayDelay := by
  have hD : F32.sub AI_DELAY_MAX AI_DELAY_MIN = ⟨7549747, -24⟩ := by decide
  obtain ⟨hcm, hc0, hc1⟩ := ClampValue_unit n hm
  have hce : (ClampValue n F32.zero F32.one).m ≠ 0 → -100 ≤ (ClampValue n F32.zero F32.one).e := by
    unfold ClampValue
    by_cases h1 : F32.lt n F32.zero = true
    · rw [if_pos h1]
      intro _
      decide
    · rw [if_neg h1]
      by_cases h2 : F32.lt F32.one n = true
      · rw [if_pos h2]
        intro _
        decide
      · rw [if_neg h2]
        intro _
        exact he
  show delayInRange (F32.add AI_DELAY_MIN
    (F32.mul (ClampValue n F32.zero F32.one) (F32.sub AI_DELAY_MAX AI_DELAY_MIN)))
  rw [hD]
  generalize ClampValue n F32.zero F32.one = c at hcm hc0 hc1 hce
  -- the product
  have h24 : (2 : Nat) ^ 24 = 16777216 := by norm_num
  have hprod : (c.m * 7549747).natAbs < 2 ^ 151 := by
    rw [Int.natAbs_mul]
    have h1 : c.m.natAbs * (7549747 : Int).natAbs ≤ 2 ^ 24 * 2 ^ 24 :=
      Nat.mul_le_mul hcm (by decide)
    have h2 : (2 : Nat) ^ 24 * 2 ^ 24 < 2 ^ 151 := by norm_num
    omega
  obtain ⟨pc, pm, pne, pz⟩ := F32.round_close (c.m * 7549747) (c.e + -24) hprod
  have hpdef : F32.mul c ⟨7549747, -24⟩ = F32.round (c.m * 7549747) (c.e + -24) := rfl
  rw [← hpdef] at pc pm pne pz
  have hDv : (⟨7549747, -24⟩ : F32).toRat = 7549747 / 16777216 := by norm_num [F32.toRat]
  have hexact : ((c.m * 7549747 : Int) : ℚ) * (2 : ℚ) ^ (c.e + -24)
      = c.toRat * (7549747 / 16777216) := by
    have := F32.toRat_mul_exact c ⟨7549747, -24⟩
    rw [hDv] at this
    exact this
  rw [hexact] at pc
  have hcD0 : 0 ≤ c.toRat * (7549747 / 16777216) := by positivity
  rw [abs_of_nonneg hcD0] at pc
  have h224 : (0 : ℚ) < 2 ^ 24 := by norm_num
  have hpb := abs_le.1 (show |(F32.mul c ⟨7549747, -24⟩).toRat - c.toRat * (7549747 / 16777216)|
      ≤ c.toRat * (7549747 / 16777216) / 2 ^ 24 by
    rw [le_div_iff₀ h224]
    exact pc)
  have hp0 : 0 ≤ (F32.mul c ⟨7549747, -24⟩).toRat := by
    have : c.toRat * (7549747 / 16777216) / 2 ^ 24 ≤ c.toRat * (7549747 / 16777216) := by
      apply div_le_self hcD0
      norm_num
    linarith [hpb.1]
  have hp1 : (F32.mul c ⟨7549747, -24⟩).toRat
      ≤ 7549747 / 16777216 + 7549747 / 16777216 / 2 ^ 24 := by
    have h1 : c.toRat * (7549747 / 16777216) ≤ 7549747 / 16777216 := by
      have : c.toRat * (7549747 / 16777216) ≤ 1 * (7549747 / 16777216) :=
        mul_le_mul_of_nonneg_right hc1 (by norm_num)
      linarith
    have h2 : c.toRat * (7549747 / 16777216) / 2 ^ 24 ≤ 7549747 / 16777216 / 2 ^ 24 :=
      div_le_div_of_nonneg_right h1 h224.le
    linarith [hpb.2]
  -- exponent of the product
  have hpe : -124 ≤ (F32.mul c ⟨7549747, -24⟩).e ∧ (F32.mul c ⟨7549747, -24⟩).e ≤ 0 := by
    by_cases hc0' : c.m * 7549747 = 0
    · rw [pz hc0']
      decide
    · have hcm0 : c.m ≠ 0 := by
        intro h
        rw [h] at hc0'
        simp at hc0'
      have h1 := (pne hc0').2
      have h2 := hce hcm0
      have h3 := F32.exp_lt_of_abs_lt (F32.mul c ⟨7549747, -24⟩) 0 (pne hc0').1 (by
        rw [abs_of_nonneg hp0]
        have : (7549747 : ℚ) / 16777216 + 7549747 / 16777216 / 2 ^ 24 < (2 : ℚ) ^ (0 : Int) := by
          norm_num
        linarith)
      omega
  generalize F32.mul c ⟨7549747, -24⟩ = p at pm hp0 hp1 hpe
  -- the sum
  have hMm : AI_DELAY_MIN.m = 13421773 ∧ AI_DELAY_MIN.e = -28 := ⟨rfl, rfl⟩
  have ha : (AI_DELAY_MIN.e - min AI_DELAY_MIN.e p.e).toNat ≤ 96 := by
    rw [hMm.2]
    omega
  have hb : (p.e - min AI_DELAY_MIN.e p.e).toNat ≤ 28 := by
    rw [hMm.2]
    omega
  have hM : (AI_DELAY_MIN.m * 2 ^ (AI_DELAY_MIN.e - min AI_DELAY_MIN.e p.e).toNat
      + p.m * 2 ^ (p.e - min AI_DELAY_MIN.e p.e).toNat).natAbs < 2 ^ 151 := by
    have h1 := Int.natAbs_add_le (AI_DELAY_MIN.m * 2 ^ (AI_DELAY_MIN.e - min AI_DELAY_MIN.e p.e).toNat)
      (p.m * 2 ^ (p.e - min AI_DELAY_MIN.e p.e).toNat)
    rw [Int.natAbs_mul, Int.natAbs_mul, Int.natAbs_pow, Int.natAbs_pow] at h1
    have h2 : AI_DELAY_MIN.m.natAbs * (2 : Int).natAbs ^ (AI_DELAY_MIN.e - min AI_DELAY_MIN.e p.e).toNat
        ≤ 2 ^ 24 * 2 ^ 96 :=
      Nat.mul_le_mul (by decide) (Nat.pow_le_pow_right (by decide) ha)
    have h3 : p.m.natAbs * (2 : Int).natAbs ^ (p.e - min AI_DELAY_MIN.e p.e).toNat
        ≤ 2 ^ 24 * 2 ^ 28 :=
      Nat.mul_le_mul pm (Nat.pow_le_pow_right (by decide) hb)
    have h4 : (2 : Nat) ^ 24 * 2 ^ 96 + 2 ^ 24 * 2 ^ 28 < 2 ^ 151 := by norm_num
    omega
  obtain ⟨rc, rm, _, _⟩ := F32.round_close _ (min AI_DELAY_MIN.e p.e) hM
  rw [F32.toRat_add_exact] at rc
  have hrdef : F32.add AI_DELAY_MIN p
      = F32.round (AI_DELAY_MIN.m * 2 ^ (AI_DELAY_MIN.e - min AI_DELAY_MIN.e p.e).toNat
          + p.m * 2 ^ (p.e - min AI_DELAY_MIN.e p.e).toNat) (min AI_DELAY_MIN.e p.e) := rfl
  rw [← hrdef] at rc rm
  have hMv : AI_DELAY_MIN.toRat = 13421773 / 268435456 := by norm_num [F32.toRat, AI_DELAY_MIN]
  have hXv : AI_DELAY_MAX.toRat = 1 / 2 := by norm_num [F32.toRat, AI_DELAY_MAX]
  rw [hMv] at rc
  have hs0 : (0 : ℚ) ≤ 13421773 / 268435456 + p.toRat := by positivity
  rw [abs_of_nonneg hs0] at rc
  have hrb := abs_le.1 (show |(F32.add AI_DELAY_MIN p).toRat - (13421773 / 268435456 + p.toRat)|
      ≤ (13421773 / 268435456 + p.toRat) / 2 ^ 24 by
    rw [le_div_iff₀ h224]
    exact rc)
  generalize F32.add AI_DELAY_MIN p = r at rm hrb ⊢
  have hlow : (13421773 : ℚ) / 268435456 - 1 / 2 ^ 28 < r.toRat := by
    have h1 : (13421773 / 268435456 + p.toRat) - (13421773 / 268435456 + p.toRat) / 2 ^ 24
        ≤ r.toRat := by linarith [hrb.1]
    have h2 : (13421773 : ℚ) / 268435456 - 13421773 / 268435456 / 2 ^ 24
        ≤ (13421773 / 268435456 + p.toRat) - (13421773 / 268435456 + p.toRat) / 2 ^ 24 := by
      have : (0 : ℚ) ≤ p.toRat - p.toRat / 2 ^ 24 := by
        have : p.toRat / 2 ^ 24 ≤ p.toRat := div_le_self hp0 (by norm_num)
        linarith
      have e : (13421773 / 268435456 + p.toRat) - (13421773 / 268435456 + p.toRat) / 2 ^ 24
          = ((13421773 : ℚ) / 268435456 - 13421773 / 268435456 / 2 ^ 24)
            + (p.toRat - p.toRat / 2 ^ 24) := by ring
      rw [e]
      linarith
    have h3 : (13421773 : ℚ) / 268435456 - 1 / 2 ^ 28
        < 13421773 / 268435456 - 13421773 / 268435456 / 2 ^ 24 := by norm_num
    linarith
  have hhigh : r.toRat < 1 / 2 + 1 / 2 ^ 24 := by
    have h1 : r.toRat
        ≤ (13421773 / 268435456 + p.toRat) + (13421773 / 268435456 + p.toRat) / 2 ^ 24 := by
      linarith [hrb.2]
    have h2 : (13421773 / 268435456 + p.toRat) + (13421773 / 268435456 + p.toRat) / 2 ^ 24
        = (13421773 / 268435456 + p.toRat) * (1 + 1 / 2 ^ 24) := by ring
    have h3 : (13421773 / 268435456 + p.toRat) * (1 + 1 / 2 ^ 24)
        ≤ (13421773 / 268435456 + (7549747 / 16777216 + 7549747 / 16777216 / 2 ^ 24))
          * (1 + 1 / 2 ^ 24) :=
      mul_le_mul_of_nonneg_right (by linarith) (by norm_num)
    have h4 : ((13421773 : ℚ) / 268435456 + (7549747 / 16777216 + 7549747 / 16777216 / 2 ^ 24))
          * (1 + 1 / 2 ^ 24) < 1 / 2 + 1 / 2 ^ 24 := by norm_num
    linarith
  unfold delayInRange
  constructor
  · cases hlt : F32.lt r AI_DELAY_MIN with
    | false => rfl
    | true =>
      rw [F32.lt_iff_toRat, hMv] at hlt
      obtain ⟨N, hN⟩ := F32.on_grid r 5 rm (by
        have : (1 : ℚ) / 2 ^ 5 < 13421773 / 268435456 - 1 / 2 ^ 28 := by norm_num
        linarith)
      rw [hN] at hlt hlow
      have h28 : (2 : ℚ) ^ (5 + 23) = 268435456 := by norm_num
      rw [h28] at hlt hlow
      have hNq : (N : ℚ) = (N : ℚ) / 268435456 * 268435456 := by field_simp
      have e1 : (N : ℚ) < 13421773 := by linarith
      have e2 : (13421772 : ℚ) < N := by
        norm_num at hlow
        linarith
      have e3 : N < 13421773 := by exact_mod_cast e1
      have e4 : 13421772 < N := by exact_mod_cast e2
      omega
  · cases hlt : F32.lt AI_DELAY_MAX r with
    | false => rfl
    | true =>
      rw [F32.lt_iff_toRat, hXv] at hlt
      obtain ⟨N, hN⟩ := F32.on_grid r 1 rm (by
        have : (1 : ℚ) / 2 ^ 1 = 1 / 2 := by norm_num
        rw [this]
        exact hlt)
      rw [hN] at hlt hhigh
      have h24' : (2 : ℚ) ^ (1 + 23) = 16777216 := by norm_num
      rw [h24'] at hlt hhigh
      have hNq : (N : ℚ) = (N : ℚ) / 16777216 * 16777216 := by field_simp
      have e1 : (8388608 : ℚ) < N := by linarith
      have e2 : (N : ℚ) < 8388609 := by
        norm_num at hhigh
        linarith
      have e3 : 8388608 < N := by exact_mod_cast e1
      have e4 : N < 8388609 := by exact_mod_cast e2
      omega

/-- C22 (code evaluated at the failing input): the session that `InitGame`
leaves at program start has the auto-play delay `0.0f`, the value of the
zero-initialised global, which is below `AI_DELAY_MIN`; no statement assigns
the delay before a settings input does.  The delay keys put the delay into the
range from `AI_DELAY_MIN` to `AI_DELAY_MAX` whenever one of them is down, and
leave it as it is otherwise; the delay slider puts it into the range for
every binary32 value of the normalised mouse position. -/
theorem C22_delay_starts_at_zero (highScore : Int) (rnd1 rnd2 : Nat) :
    (InitGame (programStart highScore) rnd1 rnd2).autoPlayDelay = F32.zero ∧
    F32.lt F32.zero AI_DELAY_MIN = true ∧
    ¬ delayInRange (InitGame (programStart highScore) rnd1 rnd2).autoPlayDelay ∧
    AI_DELAY_MIN.toRat = 13421773 / 268435456 ∧ AI_DELAY_MAX.toRat = 1 / 2 ∧
    (∀ (g : Game) (left right : Bool), left = true ∨ right = true →
      delayInRange (HandleAutoPlaySettings_delayKeys g left right).autoPlayDelay) ∧
    (∀ g : Game, HandleAutoPlaySettings_delayKeys g false false = g) ∧
    (∀ (g : Game) (n : F32), n.m.natAbs ≤ 2 ^ 24 → -100 ≤ n.e →
      delayInRange (HandleAutoPlaySettings_delaySlider g n).autoPlayDelay) := by
  refine ⟨rfl, by decide, ?_, ?_, ?_, HandleAutoPlaySettings_delayKeys_inRange, fun _ => rfl,
    HandleAutoPlaySettings_delaySlider_inRange⟩
  · intro h
    have h1 : F32.lt F32.zero AI_DELAY_MIN = false := h.1
    have h2 : F32.lt F32.zero AI_DELAY_MIN = true := by decide
    rw [h1] at h2
    cases h2
  · norm_num [F32.toRat, AI_DELAY_MIN]
  · norm_num [F32.toRat, AI_DELAY_MAX]

end RetroTetris
